import Mathlib

/-!
# clawtop: the aggregation pipeline

A shallow embedding of the parts of `cl4wb0rg/clawtop` that the specification
makes claims about:

* `internal/openclaw/readers.go`: `tailLines`, `firstLine`, `ReadLatestCronRun`,
  `ReadToolTasks`, `ReadSessionsJSON`, `ReadSubagentRuns`, `ReadCronJobs`,
  `ReadTokenSamples`;
* `internal/host/metrics.go`: `CPUPercent`;
* `internal/ui/model.go`: `New`, `Update`, `guessPrimaryModel`, the task merge of
  `refreshNowCmd`, `firstN`.

Conventions of the embedding.

* A Go `string` is the list of its bytes (`GoString`); a byte is a natural number
  below 256.  A file is the list of its bytes.
* `uint64` arithmetic is arithmetic on `Nat` followed by `% 2 ^ 64`.
* A `time.Time` is the instant it denotes, in nanoseconds since the Unix epoch.
* `encoding/json` is not part of the repository: the decoders are parameters
  `decode` (`none` is a non-nil error of `json.Unmarshal`); a decoded Go map is
  the list of its entries in the order in which `range` enumerates them.
* An `int64` expression (`time.Duration`) is the expression on `Int` under
  `wrapInt64`.
* `sort.Slice` is not part of the repository: it is a parameter, constrained by
  its contract (`SortSliceSpec`).
* `float64` operations are the exact rational operations followed by a rounding
  function `fl`, a parameter; `fl = id` is exact arithmetic.
-/

namespace Clawtop

/-! ## Go strings -/

/-- A byte of a Go string (a value below 256). -/
abbrev Byte := Nat

/-- A Go `string`: a sequence of bytes. -/
abbrev GoString := List Byte

/-- UTF-8 encoding of one code point, as Go stores string literals. -/
def utf8 (c : Char) : GoString :=
  let n := c.toNat
  if n < 0x80 then [n]
  else if n < 0x800 then [0xC0 + n / 64, 0x80 + n % 64]
  else if n < 0x10000 then [0xE0 + n / 4096, 0x80 + n / 64 % 64, 0x80 + n % 64]
  else [0xF0 + n / 262144, 0x80 + n / 4096 % 64, 0x80 + n / 64 % 64, 0x80 + n % 64]

/-- The bytes of a Go string literal. -/
def lit (s : String) : GoString :=
  s.toList.flatMap utf8

/-- The newline byte. -/
abbrev NL : Byte := 10

/-- ASCII white space of `unicode.IsSpace`: tab, newline, vertical tab, form feed,
carriage return and space. -/
def isSpace1 (a : Byte) : Bool :=
  a == 9 || a == 10 || a == 11 || a == 12 || a == 13 || a == 32

/-- Two-byte encodings of white space: U+0085 and U+00A0. -/
def isSpace2 (a b : Byte) : Bool :=
  a == 0xC2 && (b == 0x85 || b == 0xA0)

/-- Three-byte encodings of white space: U+1680, U+2000 to U+200A, U+2028, U+2029,
U+202F, U+205F and U+3000. -/
def isSpace3 (a b c : Byte) : Bool :=
  (a == 0xE1 && b == 0x9A && c == 0x80) ||
  (a == 0xE2 && b == 0x80 && ((0x80 ≤ c && c ≤ 0x8A) || c == 0xA8 || c == 0xA9 || c == 0xAF)) ||
  (a == 0xE2 && b == 0x81 && c == 0x9F) ||
  (a == 0xE3 && b == 0x80 && c == 0x80)

/-- Go `strings.TrimLeftFunc(s, unicode.IsSpace)`: drops the white-space runes at
the head of `s`. -/
def trimLeftSpace : GoString → GoString
  | [] => []
  | a :: s =>
    if isSpace1 a then trimLeftSpace s
    else match s with
      | [] => [a]
      | b :: s1 =>
        if isSpace2 a b then trimLeftSpace s1
        else match s1 with
          | [] => [a, b]
          | c :: s2 =>
            if isSpace3 a b c then trimLeftSpace s2 else a :: b :: c :: s2

/-- The white-space runes at the end of `s`, dropped; `r` is `s` reversed and the
result is reversed as well. -/
def trimRightSpaceRev : GoString → GoString
  | [] => []
  | c :: r =>
    if isSpace1 c then trimRightSpaceRev r
    else match r with
      | [] => [c]
      | b :: r1 =>
        if isSpace2 b c then trimRightSpaceRev r1
        else match r1 with
          | [] => [c, b]
          | a :: r2 =>
            if isSpace3 a b c then trimRightSpaceRev r2 else c :: b :: a :: r2

/-- Go `strings.TrimSpace`: all leading and trailing white space removed, as
defined by Unicode. -/
def TrimSpace (s : GoString) : GoString :=
  (trimRightSpaceRev (trimLeftSpace s).reverse).reverse

/-- Go `strings.TrimRight(s, cutset)` for a cutset of ASCII bytes. -/
def TrimRight (s cutset : GoString) : GoString :=
  s.rdropWhile (fun c => decide (c ∈ cutset))

/-! ## Files and the bounded tail reader (`readers.go`) -/

/-- The `error` values of the embedding: the failure of a file operation, and the
failure of `json.Unmarshal` on a whole file. -/
inductive Error where
  | fileError : Error
  | jsonError : Error
  deriving DecidableEq, Repr

deriving instance DecidableEq for Except

/-- Go `(*bufio.Reader).ReadString('\n')` on the unread bytes `r`: the bytes up to
and including the first newline, the bytes left unread, and whether `io.EOF` was
returned (no newline found). -/
def readString : List Byte → GoString × List Byte × Bool
  | [] => ([], [], true)
  | c :: cs =>
    if c = NL then ([c], cs, false)
    else
      let res := readString cs
      (c :: res.1, res.2.1, res.2.2)

/-- The read loop of `tailLines` (lines 330 to 342): `r` is what is left to read,
`lines` the lines gathered so far. -/
def readLoop (r : List Byte) (lines : List GoString) : List GoString :=
  if _h : (readString r).2.2 = true then
    if TrimSpace (readString r).1 ≠ [] then lines ++ [TrimRight (readString r).1 [NL]]
    else lines
  else
    readLoop (readString r).2.1 (lines ++ [TrimRight (readString r).1 [NL]])
termination_by r.length
decreasing_by
  have hle : ∀ l : List Byte, (readString l).2.1.length ≤ l.length := by
    intro l
    induction l with
    | nil => simp [readString]
    | cons c cs ih =>
      unfold readString
      split
      · simp
      · simp only [List.length_cons]; omega
  cases r with
  | nil => exact absurd rfl _h
  | cons c cs =>
    have hcs := hle cs
    unfold readString
    split
    · simp
    · simp only [List.length_cons]; omega

/-- The constant `max` of `tailLines`: 256 KiB. -/
def tailMax : Nat := 256 * 1024

/-- Go `tailLines(f, n)`; `f` is the content of the open file.  The operations on
the open file (`Stat`, `Seek`, reading) succeed on a content that is given, so the
result is always `ok`. -/
def tailLines (f : List Byte) (n : Int) : Except Error (List GoString) :=
  if n ≤ 0 then .ok []
  else
    let size := f.length
    let start := if size > tailMax then size - tailMax else 0
    let r := f.drop start
    -- discard partial line
    let r := if start > 0 then (readString r).2.1 else r
    let lines := readLoop r []
    if (lines.length : Int) ≤ n then .ok lines
    else .ok (lines.drop (lines.length - n.toNat))

/-! ### The lines of a file, as the specification words them -/

/-- The newline-terminated segments of a content, terminator removed, paired with
the final unterminated segment (empty when the content ends in a newline). -/
def splitNL : List Byte → List GoString × GoString
  | [] => ([], [])
  | c :: cs =>
    if c = NL then ([] :: (splitNL cs).1, (splitNL cs).2)
    else match splitNL cs with
      | ([], last) => ([], c :: last)
      | (s :: ss, last) => ((c :: s) :: ss, last)

/-- The lines of a file in the words of the specification: its newline-terminated
segments with the terminator removed, plus the final unterminated segment when
that segment is not blank. -/
def fileLinesSpec (content : List Byte) : List GoString :=
  if TrimSpace (splitNL content).2 ≠ [] then (splitNL content).1 ++ [(splitNL content).2]
  else (splitNL content).1

/-- The last `k` elements of a list, in their original order. -/
def lastN {α : Type} (k : Nat) (xs : List α) : List α :=
  xs.drop (xs.length - k)

/-! ## Time (`time.Time`) -/

/-- A `time.Time`, as the instant it denotes: nanoseconds since the Unix epoch. -/
structure Time where
  unixNano : Int
  deriving DecidableEq, Repr

/-- The zero `time.Time`: January 1, year 1, 00:00:00 UTC. -/
def Time.zero : Time := ⟨-62135596800 * 1000000000⟩

/-- Go `time.UnixMilli(msec)`. -/
def UnixMilli (msec : Int) : Time := ⟨msec * 1000000⟩

/-- Go `t.After(u)`. -/
def Time.After (t u : Time) : Bool := decide (u.unixNano < t.unixNano)

/-- Go `t.Before(u)`. -/
def Time.Before (t u : Time) : Bool := decide (t.unixNano < u.unixNano)

/-- Go `t.UnixMilli()`: the milliseconds elapsed since the Unix epoch. -/
def Time.UnixMilli (t : Time) : Int := t.unixNano / 1000000

/-- The value of an `int64` expression: it wraps around. -/
def wrapInt64 (x : Int) : Int := (x + 2 ^ 63) % 2 ^ 64 - 2 ^ 63

/-! ## Entities (`types.go`) -/

/-- Go `type TaskLevel string`. -/
abbrev TaskLevel := GoString

def LevelError : TaskLevel := lit "error"
def LevelWarn : TaskLevel := lit "warn"
def LevelInfo : TaskLevel := lit "info"
def LevelDebug : TaskLevel := lit "debug"

/-- Go `type TaskSource string`. -/
abbrev TaskSource := GoString

def SourceCron : TaskSource := lit "cron"
def SourceSubagent : TaskSource := lit "subagent"
def SourceTool : TaskSource := lit "tool"

/-- Go `type Task struct`: one event of the timeline. -/
structure Task where
  At : Time
  Level : TaskLevel
  Source : TaskSource
  Title : GoString
  Detail : GoString
  deriving DecidableEq, Repr

/-- The zero value `Task{}`. -/
def Task.empty : Task := ⟨Time.zero, [], [], [], []⟩

/-- Go `type SubagentRun struct`. -/
structure SubagentRun where
  RunID : GoString
  ChildSessionKey : GoString
  Label : GoString
  Task : GoString
  Model : GoString
  CreatedAt : Time
  StartedAt : Option Time
  FinishedAt : Option Time
  deriving DecidableEq, Repr

/-- Go `type Session struct`. -/
structure Session where
  Key : GoString
  Label : GoString
  Model : GoString
  Provider : GoString
  UpdatedAt : Time
  InputTokens : Int
  OutputTokens : Int
  TotalTokens : Int
  deriving DecidableEq, Repr

/-- Go `type CronJob struct`. -/
structure CronJob where
  ID : GoString
  Name : GoString
  Enabled : Bool
  Schedule : GoString
  TZ : GoString
  NextRun : Option Time
  LastRun : Option Time
  LastStatus : GoString
  LastError : GoString
  deriving DecidableEq, Repr

/-- Go `type TokenSample struct`; the `float64` cost is the number it denotes. -/
structure TokenSample where
  At : Time
  OpenClawTotal : Int
  ClaudeCostUSD : ℚ
  deriving DecidableEq, Repr

/-! ## Record decoders (`readers.go`) -/

/-- Go `strings.ReplaceAll(s, "\r\n", "\n")`. -/
def replaceCRLF : GoString → GoString
  | [] => []
  | [a] => [a]
  | a :: b :: s =>
    if a = 13 ∧ b = NL then NL :: replaceCRLF s else a :: replaceCRLF (b :: s)

/-- Go `strings.IndexByte(s, c)`: the index of the first `c` in `s`, or -1. -/
def IndexByte : GoString → Byte → Int
  | [], _ => -1
  | a :: s, c => if a = c then 0 else if IndexByte s c ≥ 0 then IndexByte s c + 1 else -1

/-- Go `firstLine(s)`. -/
def firstLine (s : GoString) : GoString :=
  let s := replaceCRLF s
  let idx := IndexByte s NL
  if idx ≥ 0 then TrimSpace (s.take idx.toNat)
  else TrimSpace s

/-- The record a line of a cron run log is decoded into (the anonymous struct of
`ReadLatestCronRun`). -/
structure CronRunRec where
  TS : Int
  Action : GoString
  Status : GoString
  Error : GoString
  Summary : GoString
  JobID : GoString
  deriving DecidableEq, Repr

/-- The loop of `ReadLatestCronRun` (lines 174 to 203) over the lines still to
visit, newest first. -/
def cronLoop (decode : GoString → Option CronRunRec) : List GoString → Task × Bool
  | [] => (Task.empty, false)
  | l :: rest =>
    let line := TrimSpace l
    if line = [] then cronLoop decode rest
    else
      match decode line with
      | none => cronLoop decode rest
      | some rec =>
        if rec.Action ≠ lit "finished" then cronLoop decode rest
        else
          let lvl := if rec.Status = lit "error" then LevelError else LevelInfo
          let detail := if rec.Error ≠ [] then rec.Error else firstLine rec.Summary
          (⟨UnixMilli rec.TS, lvl, SourceCron, rec.JobID, detail⟩, true)

/-- Go `ReadLatestCronRun(path)`: `file` is the content of the file at `path`, or
`none` when it cannot be opened; the result is the pair `(Task, bool)` or the
error.  The index `i` runs from the last line down, so the loop visits
`lines.reverse`. -/
def ReadLatestCronRun (decode : GoString → Option CronRunRec) (file : Option (List Byte)) :
    Except Error (Task × Bool) :=
  match file with
  | none => .error Error.fileError
  | some f =>
    match tailLines f 200 with
    | .error e => .error e
    | .ok lines => .ok (cronLoop decode lines.reverse)

/-- One content block of a tool-result message. -/
structure ToolContent where
  Typ : GoString
  Text : GoString
  deriving DecidableEq, Repr

/-- The `message` object of a session log line. -/
structure ToolMessage where
  Role : GoString
  ToolName : GoString
  IsError : Bool
  Timestamp : Int
  Content : List ToolContent
  deriving DecidableEq, Repr

/-- The record a line of a session log is decoded into (the anonymous struct of
`ReadToolTasks`). -/
structure ToolRec where
  Typ : GoString
  Message : ToolMessage
  Timestamp : GoString
  deriving DecidableEq, Repr

/-- The loop of `ReadToolTasks` (lines 251 to 286) over the lines still to visit,
newest first; `tasks` are the events gathered so far.  `now k` is the reading of
`time.Now()` at its call number `k` of this run; the call is made once for every
record that is kept, so `k` is the number of events gathered before. -/
def toolLoop (decode : GoString → Option ToolRec) (now : Nat → Time) (maxTasks : Int) :
    List GoString → List Task → List Task
  | [], tasks => tasks
  | l :: rest, tasks =>
    if ¬ ((tasks.length : Int) < maxTasks) then tasks
    else
      let ln := TrimSpace l
      if ln = [] then toolLoop decode now maxTasks rest tasks
      else
        match decode ln with
        | none => toolLoop decode now maxTasks rest tasks
        | some rec =>
          if rec.Typ ≠ lit "message" ∨ rec.Message.Role ≠ lit "toolResult" then
            toolLoop decode now maxTasks rest tasks
          else
            let lvl := if rec.Message.IsError then LevelError else LevelInfo
            let time := if rec.Message.Timestamp ≠ 0 then UnixMilli rec.Message.Timestamp
              else now tasks.length
            let detail := match rec.Message.Content with
              | [] => []
              | c :: _ => firstLine c.Text
            toolLoop decode now maxTasks rest
              (tasks ++ [⟨time, lvl, SourceTool, rec.Message.ToolName, detail⟩])

/-- Go `ReadToolTasks(sessionJSONL, maxLines, maxTasks)`: `file` is the content of
the session log, or `none` when it cannot be opened.  The gathered events are
reversed to chronological order. -/
def ReadToolTasks (decode : GoString → Option ToolRec) (now : Nat → Time)
    (file : Option (List Byte)) (maxLines maxTasks : Int) : Except Error (List Task) :=
  match file with
  | none => .error Error.fileError
  | some f =>
    match tailLines f maxLines with
    | .error e => .error e
    | .ok lines => .ok (toolLoop decode now maxTasks lines.reverse []).reverse

/-! ## Whole-file decoders (`readers.go`) -/

/-- The state of one session in `sessions.json` (the anonymous struct of
`ReadSessionsJSON`); a field absent from the JSON object holds its zero value. -/
structure SessionState where
  Label : GoString
  Model : GoString
  ModelProvider : GoString
  UpdatedAt : Int
  InputTokens : Int
  OutputTokens : Int
  TotalTokens : Int
  deriving DecidableEq, Repr

/-- The loop of `ReadSessionsJSON` (lines 35 to 46) over the entries of the map
`raw`, in the order in which `range` enumerates them. -/
def sessionsLoop : List (GoString × SessionState) → List Session → List Session
  | [], out => out
  | (k, v) :: rest, out =>
    sessionsLoop rest (out ++ [⟨k, v.Label, v.Model, v.ModelProvider, UnixMilli v.UpdatedAt,
      v.InputTokens, v.OutputTokens, v.TotalTokens⟩])

/-- The comparison of `ReadSessionsJSON`: `out[i].UpdatedAt.After(out[j].UpdatedAt)`. -/
def sessionLess (a b : Session) : Bool := a.UpdatedAt.After b.UpdatedAt

/-- Go `ReadSessionsJSON(path)`: `file` is the content of the file, or `none` when it
cannot be read.  `decode` is `json.Unmarshal` into the map `raw`, given as the
entries of the map in the order in which `range` enumerates them on this run
(`none` for an error). -/
def ReadSessionsJSON (decode : List Byte → Option (List (GoString × SessionState)))
    (sortSlice : (Session → Session → Bool) → List Session → List Session)
    (file : Option (List Byte)) : Except Error (List Session) :=
  match file with
  | none => .error Error.fileError
  | some b =>
    match decode b with
    | none => .error Error.jsonError
    | some raw => .ok (sortSlice sessionLess (sessionsLoop raw []))

/-- One run in the subagent registry (the anonymous struct of `ReadSubagentRuns`);
`startedAt` and `finishedAt` are pointers, `none` when absent. -/
structure SubagentRaw where
  RunID : GoString
  ChildSessionKey : GoString
  Label : GoString
  Task : GoString
  Model : GoString
  CreatedAt : Int
  StartedAt : Option Int
  FinishedAt : Option Int
  deriving DecidableEq, Repr

/-- The loop of `ReadSubagentRuns` (lines 73 to 91) over the values of the map
`raw.Runs`, in the order in which `range` enumerates them. -/
def subagentsLoop : List SubagentRaw → List SubagentRun → List SubagentRun
  | [], out => out
  | r :: rest, out =>
    subagentsLoop rest (out ++ [⟨r.RunID, r.ChildSessionKey, r.Label, r.Task, r.Model,
      UnixMilli r.CreatedAt, r.StartedAt.map UnixMilli, r.FinishedAt.map UnixMilli⟩])

/-- The comparison of `ReadSubagentRuns`: `out[i].CreatedAt.After(out[j].CreatedAt)`. -/
def subagentLess (a b : SubagentRun) : Bool := a.CreatedAt.After b.CreatedAt

/-- Go `ReadSubagentRuns(path)`; `decode` is `json.Unmarshal`, giving the values of
the map `raw.Runs` in the order in which `range` enumerates them on this run. -/
def ReadSubagentRuns (decode : List Byte → Option (List SubagentRaw))
    (sortSlice : (SubagentRun → SubagentRun → Bool) → List SubagentRun → List SubagentRun)
    (file : Option (List Byte)) : Except Error (List SubagentRun) :=
  match file with
  | none => .error Error.fileError
  | some b =>
    match decode b with
    | none => .error Error.jsonError
    | some raw => .ok (sortSlice subagentLess (subagentsLoop raw []))

/-- The `schedule` object of a cron job. -/
structure CronScheduleRaw where
  Kind : GoString
  Expr : GoString
  TZ : GoString
  At : GoString
  EveryMs : Int
  deriving DecidableEq, Repr

/-- The `state` object of a cron job; an absent number is zero. -/
structure CronStateRaw where
  NextRunAtMs : Int
  LastRunAtMs : Int
  LastStatus : GoString
  LastError : GoString
  deriving DecidableEq, Repr

/-- One job of the cron job registry (the anonymous struct of `ReadCronJobs`). -/
structure CronJobRaw where
  ID : GoString
  Name : GoString
  Enabled : Bool
  Schedule : CronScheduleRaw
  State : CronStateRaw
  deriving DecidableEq, Repr

/-- The body of the loop of `ReadCronJobs` (lines 127 to 145) for one job.
`durationString` is Go `time.Duration.String`. -/
def cronJobOf (durationString : Int → GoString) (j : CronJobRaw) : CronJob :=
  let sched :=
    if j.Schedule.Kind = lit "cron" then j.Schedule.Expr
    else if j.Schedule.Kind = lit "at" then lit "at " ++ j.Schedule.At
    else if j.Schedule.Kind = lit "every" then
      lit "every " ++ durationString (wrapInt64 (j.Schedule.EveryMs * 1000000))
    else j.Schedule.Kind
  { ID := j.ID
    Name := j.Name
    Enabled := j.Enabled
    Schedule := sched
    TZ := j.Schedule.TZ
    NextRun := if j.State.NextRunAtMs ≠ 0 then some (UnixMilli j.State.NextRunAtMs) else none
    LastRun := if j.State.LastRunAtMs ≠ 0 then some (UnixMilli j.State.LastRunAtMs) else none
    LastStatus := j.State.LastStatus
    LastError := j.State.LastError }

/-- The loop of `ReadCronJobs` (lines 126 to 147) over the array `raw.Jobs`. -/
def cronJobsLoop (durationString : Int → GoString) :
    List CronJobRaw → List CronJob → List CronJob
  | [], out => out
  | j :: rest, out => cronJobsLoop durationString rest (out ++ [cronJobOf durationString j])

/-- The comparison of `ReadCronJobs` (lines 148 to 157): next run ascending, nil
last. -/
def cronLess (a b : CronJob) : Bool :=
  match a.NextRun with
  | none => false
  | some ta =>
    match b.NextRun with
    | none => true
    | some tb => ta.Before tb

/-- Go `ReadCronJobs(path)`; `decode` is `json.Unmarshal`, giving the array
`raw.Jobs`. -/
def ReadCronJobs (decode : List Byte → Option (List CronJobRaw))
    (durationString : Int → GoString)
    (sortSlice : (CronJob → CronJob → Bool) → List CronJob → List CronJob)
    (file : Option (List Byte)) : Except Error (List CronJob) :=
  match file with
  | none => .error Error.fileError
  | some b =>
    match decode b with
    | none => .error Error.jsonError
    | some raw => .ok (sortSlice cronLess (cronJobsLoop durationString raw []))

/-- Go `strings.Split(s, sep)` for a separator of one byte. -/
def Split : GoString → Byte → List GoString
  | [], _ => [[]]
  | c :: cs, sep =>
    if c = sep then [] :: Split cs sep
    else
      match Split cs sep with
      | [] => [[c]]
      | x :: xs => (c :: x) :: xs

/-- The record a line of the token log is decoded into (the anonymous struct of
`ReadTokenSamples`). -/
structure TokenRec where
  TS : Int
  OpenClawTotal : Int
  ClaudeCodeCostUSD : ℚ
  deriving DecidableEq, Repr

/-- The loop of `ReadTokenSamples` (lines 213 to 231) over the lines still to
visit. -/
def tokenLoop (decode : GoString → Option TokenRec) :
    List GoString → List TokenSample → List TokenSample
  | [], samples => samples
  | l :: rest, samples =>
    let ln := TrimSpace l
    if ln = [] then tokenLoop decode rest samples
    else
      match decode ln with
      | none => tokenLoop decode rest samples
      | some rec =>
        tokenLoop decode rest
          (samples ++ [⟨UnixMilli rec.TS, rec.OpenClawTotal, rec.ClaudeCodeCostUSD⟩])

/-- The comparison of `ReadTokenSamples`: `samples[i].At.Before(samples[j].At)`. -/
def tokenLess (a b : TokenSample) : Bool := a.At.Before b.At

/-- Go `ReadTokenSamples(path, max)`; `file` is the content of the file, or `none`
when it cannot be read. -/
def ReadTokenSamples (decode : GoString → Option TokenRec)
    (sortSlice : (TokenSample → TokenSample → Bool) → List TokenSample → List TokenSample)
    (file : Option (List Byte)) (max : Int) : Except Error (List TokenSample) :=
  match file with
  | none => .error Error.fileError
  | some b =>
    let lines := Split b NL
    let samples := tokenLoop decode lines []
    let samples := sortSlice tokenLess samples
    if max > 0 ∧ (samples.length : Int) > max then
      .ok (samples.drop (samples.length - max.toNat))
    else .ok samples

/-! ## Host metrics (`metrics.go`) -/

/-- Go `type CPUStat struct`: eight `uint64` counters. -/
structure CPUStat where
  User : Nat
  Nice : Nat
  System : Nat
  Idle : Nat
  IOWait : Nat
  IRQ : Nat
  SoftIRQ : Nat
  Steal : Nat
  deriving DecidableEq, Repr

/-- Addition of `uint64`. -/
def add64 (a b : Nat) : Nat := (a + b) % 2 ^ 64

/-- Subtraction of `uint64` values (both below `2 ^ 64`): it wraps around. -/
def sub64 (a b : Nat) : Nat := (a + (2 ^ 64 - b)) % 2 ^ 64

/-- Go `CPUPercent(prev, cur)`.  Every `float64` operation is the exact operation
followed by the rounding `fl`; `float64(x)` of a `uint64` is `fl x`. -/
def CPUPercent (fl : ℚ → ℚ) (prev cur : CPUStat) : ℚ :=
  let prevIdle := add64 prev.Idle prev.IOWait
  let curIdle := add64 cur.Idle cur.IOWait
  let prevNon := add64 (add64 (add64 (add64 (add64 prev.User prev.Nice) prev.System) prev.IRQ)
    prev.SoftIRQ) prev.Steal
  let curNon := add64 (add64 (add64 (add64 (add64 cur.User cur.Nice) cur.System) cur.IRQ)
    cur.SoftIRQ) cur.Steal
  let prevTotal := add64 prevIdle prevNon
  let curTotal := add64 curIdle curNon
  let totald := fl (sub64 curTotal prevTotal : ℕ)
  let idled := fl (sub64 curIdle prevIdle : ℕ)
  if totald ≤ 0 then 0
  else fl (fl (fl (totald - idled) / totald) * 100)

/-- What the embedding asks of the rounding of `float64` (round to nearest, on the
finite range): it is monotone, it leaves its own results unchanged, and 0, 1 and
100 are representable. -/
def IsRounding (fl : ℚ → ℚ) : Prop :=
  Monotone fl ∧ (∀ x, fl (fl x) = fl x) ∧ fl 0 = 0 ∧ fl 1 = 1 ∧ fl 100 = 100

/-- The integer nearest to `q`; when `q` lies halfway between two integers, the even
one of them (IEEE 754 `roundTiesToEven`, the rounding of Go's `float64` arithmetic). -/
def roundHalfEven (q : ℚ) : Int :=
  if q - ⌊q⌋ < 1 / 2 then ⌊q⌋
  else if 1 / 2 < q - ⌊q⌋ then ⌊q⌋ + 1
  else if ⌊q⌋ % 2 = 0 then ⌊q⌋
  else ⌊q⌋ + 1

/-- The binade of `x ≠ 0`: the exponent `e` with `2 ^ e ≤ |x| < 2 ^ (e + 1)`. -/
def binade (x : ℚ) : Int := Int.log 2 |x|

/-- The `float64` nearest to `x`: the significand `x / 2 ^ (e - 52)` of `x`, which
lies between `2 ^ 52` and `2 ^ 53`, is rounded to an integer.  The exponent is not
bounded here: `CPUPercent` rounds only `0` and numbers of a magnitude between
`2 ^ -64` and `2 ^ 71`, inside the normal range of `float64`, where there is neither
an overflow nor a subnormal number. -/
def roundF64 (x : ℚ) : ℚ :=
  if x = 0 then 0
  else roundHalfEven (x / 2 ^ (binade x - 52)) * 2 ^ (binade x - 52)

/-- Every counter of `cur` is at least the same counter of `prev`. -/
def CPUStat.le (prev cur : CPUStat) : Prop :=
  prev.User ≤ cur.User ∧ prev.Nice ≤ cur.Nice ∧ prev.System ≤ cur.System ∧
  prev.Idle ≤ cur.Idle ∧ prev.IOWait ≤ cur.IOWait ∧ prev.IRQ ≤ cur.IRQ ∧
  prev.SoftIRQ ≤ cur.SoftIRQ ∧ prev.Steal ≤ cur.Steal

/-- Every counter is a `uint64`. -/
def CPUStat.isU64 (s : CPUStat) : Prop :=
  s.User < 2 ^ 64 ∧ s.Nice < 2 ^ 64 ∧ s.System < 2 ^ 64 ∧ s.Idle < 2 ^ 64 ∧
  s.IOWait < 2 ^ 64 ∧ s.IRQ < 2 ^ 64 ∧ s.SoftIRQ < 2 ^ 64 ∧ s.Steal < 2 ^ 64

/-- The idle time of a sample in the words of the specification: `idle + iowait`,
as a number (no wrap-around). -/
def idleSum (s : CPUStat) : Nat := s.Idle + s.IOWait

/-- The busy time of a sample in the words of the specification:
`user + nice + system + irq + softirq + steal`, as a number. -/
def busySum (s : CPUStat) : Nat := s.User + s.Nice + s.System + s.IRQ + s.SoftIRQ + s.Steal

/-- The sum of all eight counters, as a number. -/
def CPUStat.total (s : CPUStat) : Nat := idleSum s + busySum s

/-- The idle delta of the specification. -/
def deltaIdle (prev cur : CPUStat) : ℚ := (idleSum cur : ℚ) - idleSum prev

/-- The busy delta of the specification. -/
def deltaBusy (prev cur : CPUStat) : ℚ := (busySum cur : ℚ) - busySum prev

/-- The total delta of the specification: `Δtotal = Δidle + Δbusy`. -/
def deltaTotal (prev cur : CPUStat) : ℚ := deltaIdle prev cur + deltaBusy prev cur

/-! ## The timeline merge (`model.go`) -/

/-- Go `firstN(s, n)` for `n ≥ 1` (the only call passes 90; for `n ≤ 0` and a
longer `s` the slice expression `s[:n-1]` panics). -/
def firstN (s : GoString) (n : Int) : GoString :=
  let s := TrimSpace (s.map (fun c => if c = NL then 32 else c))
  if (s.length : Int) ≤ n then s
  else s.take (n - 1).toNat ++ lit "…"

/-- The event appended for one subagent run (lines 277 to 279). -/
def subagentTask (sa : SubagentRun) : Task :=
  ⟨sa.CreatedAt, LevelInfo, SourceSubagent, lit "subagent: " ++ sa.Label, firstN sa.Task 90⟩

/-- Contract of Go `sort.Slice` for the comparison `less`: the result is a
permutation of the slice in which no element is less than an earlier one.  The
order among elements that compare equal is not determined. -/
def SortSliceSpec {α : Type} (sortSlice : (α → α → Bool) → List α → List α)
    (less : α → α → Bool) : Prop :=
  ∀ xs, (sortSlice less xs).Perm xs ∧ (sortSlice less xs).Pairwise (fun a b => less b a = false)

/-- An executable `sort.Slice`: insertion sort (the one Go runs on short slices). -/
def insertionSortSlice {α : Type} (less : α → α → Bool) (xs : List α) : List α :=
  xs.insertionSort (fun a b => less b a = false)

/-- The comparison of the merge: `tasks[i].At.After(tasks[j].At)`. -/
def taskLess (a b : Task) : Bool := a.At.After b.At

/-- The task merge of `refreshNowCmd` (lines 239 to 285): `cronTasks` are the
events appended by the cron loop, `toolTasks` the events of `ReadToolTasks` (none
when the read failed or no session log matched), `subagents` the decoded runs. -/
def refreshTasks (sortSlice : (Task → Task → Bool) → List Task → List Task)
    (cronTasks toolTasks : List Task) (subagents : List SubagentRun) : List Task :=
  let tasks := cronTasks
  let tasks := tasks ++ toolTasks
  let tasks := tasks ++ subagents.map subagentTask
  let tasks := sortSlice taskLess tasks
  if tasks.length > 40 then tasks.take 40 else tasks

/-! ## The model and its update (`model.go`) -/

/-- Go `type HostMetrics struct` (`metrics.go`); a `float64` is the number it
denotes. -/
structure HostMetrics where
  At : Time
  CPUPercent : ℚ
  MemUsedBytes : Nat
  MemTotalBytes : Nat
  Load1 : ℚ
  Load5 : ℚ
  Load15 : ℚ
  deriving DecidableEq, Repr

/-- Go `type Paths struct` (`paths.go`). -/
structure Paths where
  OpenClawRoot : GoString
  WorkspaceDir : GoString
  SessionsJSON : GoString
  SubagentRuns : GoString
  CronJobs : GoString
  CronRunsDir : GoString
  TokensJSONL : GoString
  deriving DecidableEq, Repr

/-- Go `type Config struct`; `Refresh` is a `time.Duration`, an `int64` count of
nanoseconds. -/
structure Config where
  Paths : Paths
  Refresh : Int
  deriving DecidableEq, Repr

/-- Go `type model struct`.  A map to `bool` is the function from its keys to the
value a lookup returns (`false` for a key that is not in the map); `err` is `none`
for `nil`. -/
structure Model where
  cfg : Config
  width : Int
  height : Int
  refresh : Int
  lastUpdate : Time
  err : Option Error
  prevCPU : Option CPUStat
  host : HostMetrics
  sessions : List Session
  subagents : List SubagentRun
  crons : List CronJob
  tasks : List Task
  tokenSamples : List TokenSample
  filter24h : Bool
  hideRunSessions : Bool
  primaryModelOnly : Bool
  primaryModel : GoString
  levels : TaskLevel → Bool
  sources : TaskSource → Bool

/-- Go `type refreshMsg struct`; the field `at` is `atTime`. -/
structure RefreshMsg where
  err : Option Error
  atTime : Time
  sessions : List Session
  subagents : List SubagentRun
  crons : List CronJob
  tasks : List Task
  tokenSamples : List TokenSample
  host : HostMetrics
  cpu : CPUStat
  hasCPU : Bool

/-- The messages `Update` receives: `tea.WindowSizeMsg`, `tickMsg`, `refreshMsg`,
`tea.KeyMsg` (with the text `msg.String()` of the key), and any other message. -/
inductive Msg where
  | windowSize (width height : Int)
  | tick (t : Time)
  | refresh (msg : RefreshMsg)
  | key (s : GoString)
  | other

/-- The commands `Update` returns: `nil`, `tea.Quit`, `m.refreshNowCmd()`, and the
batch of `m.refreshNowCmd()` with `tickCmd(d)`. -/
inductive Cmd where
  | nil
  | quit
  | refreshNow
  | refreshAndTick (d : Int)
  deriving DecidableEq, Repr

/-- The constant `time.Millisecond`, in nanoseconds. -/
def Millisecond : Int := 1000000

/-- The constant `time.Second`, in nanoseconds. -/
def Second : Int := 1000000000

/-- Go `New(cfg)`. -/
def New (cfg : Config) : Model :=
  { cfg := cfg
    width := 0
    height := 0
    refresh := if cfg.Refresh ≤ 0 then 2 * Second else cfg.Refresh
    lastUpdate := Time.zero
    err := none
    prevCPU := none
    host := ⟨Time.zero, 0, 0, 0, 0, 0, 0⟩
    sessions := []
    subagents := []
    crons := []
    tasks := []
    tokenSamples := []
    filter24h := false
    hideRunSessions := false
    primaryModelOnly := false
    primaryModel := []
    levels := fun k => decide (k = LevelError ∨ k = LevelWarn ∨ k = LevelInfo)
    sources := fun k => decide (k = SourceCron ∨ k = SourceSubagent ∨ k = SourceTool) }

/-- The map of `guessPrimaryModel` (lines 339 to 344) after one more model id. -/
def countModel (k : GoString) : List (GoString × Nat) → List (GoString × Nat)
  | [] => [(k, 1)]
  | (x, n) :: rest => if x = k then (x, n + 1) :: rest else (x, n) :: countModel k rest

/-- The map of `guessPrimaryModel` (lines 339 to 344): the sessions of each
non-empty model id, counted. -/
def countModels : List Session → List (GoString × Nat) → List (GoString × Nat)
  | [], m => m
  | sess :: rest, m =>
    if sess.Model ≠ [] then countModels rest (countModel sess.Model m) else countModels rest m

/-- The loop of `guessPrimaryModel` (lines 345 to 351) over the entries of the map,
in the order of enumeration. -/
def bestModel : List (GoString × Nat) → GoString × Nat → GoString × Nat
  | [], best => best
  | (k, n) :: rest, best => if n > best.2 then bestModel rest (k, n) else bestModel rest best

/-- Go `guessPrimaryModel(s)`; `range` is the order in which `range` enumerates
the entries of the map of counts on this run. -/
def guessPrimaryModel (range : List (GoString × Nat) → List (GoString × Nat))
    (s : List Session) : GoString :=
  match s.find? (fun sess => decide (sess.Key = lit "agent:main:main" ∧ sess.Model ≠ [])) with
  | some sess => sess.Model
  | none => (bestModel (range (countModels s [])) ([], 0)).1

/-- Go `m[k] = !m[k]` on a map to `bool`. -/
def toggle (f : GoString → Bool) (k : GoString) : GoString → Bool :=
  Function.update f k (!f k)

/-- Go `model.Update(msg)`: the new model and the command. -/
def Update (range : List (GoString × Nat) → List (GoString × Nat)) (m : Model) :
    Msg → Model × Cmd
  | Msg.windowSize w h => ({ m with width := w, height := h }, Cmd.nil)
  | Msg.tick _ => (m, Cmd.refreshAndTick m.refresh)
  | Msg.refresh msg =>
    let m := { m with lastUpdate := msg.atTime }
    match msg.err with
    | some e => ({ m with err := some e }, Cmd.nil)
    | none =>
      let m := { m with
        err := none
        sessions := msg.sessions
        subagents := msg.subagents
        crons := msg.crons
        tasks := msg.tasks
        tokenSamples := msg.tokenSamples
        host := msg.host }
      let m := if msg.hasCPU then { m with prevCPU := some msg.cpu } else m
      let m := if m.primaryModel = [] then
          { m with primaryModel := guessPrimaryModel range m.sessions }
        else m
      (m, Cmd.nil)
  | Msg.key s =>
    if s = lit "q" ∨ s = lit "ctrl+c" then (m, Cmd.quit)
    else if s = lit "r" then (m, Cmd.refreshNow)
    else if s = lit "+" then
      if m.refresh > 500 * Millisecond then
        ({ m with refresh := wrapInt64 (m.refresh - 500 * Millisecond) }, Cmd.nil)
      else (m, Cmd.nil)
    else if s = lit "-" then
      ({ m with refresh := wrapInt64 (m.refresh + 500 * Millisecond) }, Cmd.nil)
    else if s = lit "1" then ({ m with filter24h := !m.filter24h }, Cmd.nil)
    else if s = lit "2" then ({ m with hideRunSessions := !m.hideRunSessions }, Cmd.nil)
    else if s = lit "3" then ({ m with primaryModelOnly := !m.primaryModelOnly }, Cmd.nil)
    else if s = lit "e" then
      ({ m with levels := toggle m.levels LevelError }, Cmd.nil)
    else if s = lit "w" then
      ({ m with levels := toggle m.levels LevelWarn }, Cmd.nil)
    else if s = lit "i" then
      ({ m with levels := toggle m.levels LevelInfo }, Cmd.nil)
    else if s = lit "d" then
      ({ m with levels := toggle m.levels LevelDebug }, Cmd.nil)
    else if s = lit "c" then
      ({ m with sources := toggle m.sources SourceCron }, Cmd.nil)
    else if s = lit "s" then
      ({ m with sources := toggle m.sources SourceSubagent }, Cmd.nil)
    else if s = lit "t" then
      ({ m with sources := toggle m.sources SourceTool }, Cmd.nil)
    else (m, Cmd.nil)
  | Msg.other => (m, Cmd.nil)

/-- The model states reachable from `New cfg` by a sequence of `Update` messages. -/
inductive Reachable (range : List (GoString × Nat) → List (GoString × Nat)) (cfg : Config) :
    Model → Prop where
  | init : Reachable range cfg (New cfg)
  | step (m : Model) (msg : Msg) : Reachable range cfg m →
      Reachable range cfg (Update range m msg).1

/-- The model states reachable from `New cfg` by a sequence of `Update` messages in
which the key `"-"` is pressed only while the interval plus 500 ms is an `int64`
value. -/
inductive ReachableInRange (range : List (GoString × Nat) → List (GoString × Nat))
    (cfg : Config) : Model → Prop where
  | init : ReachableInRange range cfg (New cfg)
  | step (m : Model) (msg : Msg) : ReachableInRange range cfg m →
      (msg = Msg.key (lit "-") → m.refresh + 500 * Millisecond < 2 ^ 63) →
      ReachableInRange range cfg (Update range m msg).1

/-! ### Specification-side notions for the decoders -/

/-- A file made of the given lines, each one terminated by a newline. -/
def joinLines (lines : List GoString) : List Byte :=
  (lines.map (fun l => l ++ [NL])).flatten

/-- The tool-result record of a line in the words of the specification: the line
decodes and has `type == "message"` and `message.role == "toolResult"`. -/
def toolRecOf (decode : GoString → Option ToolRec) (l : GoString) : Option ToolRec :=
  if TrimSpace l = [] then none
  else
    match decode (TrimSpace l) with
    | none => none
    | some rec =>
      if rec.Typ = lit "message" ∧ rec.Message.Role = lit "toolResult" then some rec else none

/-- The event of a tool-result record in the words of the specification: severity
`error` if `message.isError` else `info`; detail the first line of the text of the
first content block, or empty; timestamp the record's, or the current time
`current` if that is zero. -/
def toolEventSpec (current : Time) (rec : ToolRec) : Task :=
  { At := if rec.Message.Timestamp = 0 then current else UnixMilli rec.Message.Timestamp
    Level := if rec.Message.IsError then LevelError else LevelInfo
    Source := SourceTool
    Title := rec.Message.ToolName
    Detail := match rec.Message.Content with
      | [] => []
      | c :: _ => firstLine c.Text }

/-- The session of one entry of the registry in the words of the specification: the
key and the fields copied, the update time read as Unix milliseconds. -/
def sessionOfSpec (e : GoString × SessionState) : Session :=
  { Key := e.1
    Label := e.2.Label
    Model := e.2.Model
    Provider := e.2.ModelProvider
    UpdatedAt := UnixMilli e.2.UpdatedAt
    InputTokens := e.2.InputTokens
    OutputTokens := e.2.OutputTokens
    TotalTokens := e.2.TotalTokens }

/-- The run of one entry of the subagent registry in the words of the
specification: the fields copied, the times read as Unix milliseconds, an absent
`startedAt` or `finishedAt` unset. -/
def subagentOfSpec (r : SubagentRaw) : SubagentRun :=
  { RunID := r.RunID
    ChildSessionKey := r.ChildSessionKey
    Label := r.Label
    Task := r.Task
    Model := r.Model
    CreatedAt := UnixMilli r.CreatedAt
    StartedAt := r.StartedAt.map UnixMilli
    FinishedAt := r.FinishedAt.map UnixMilli }

/-- The task text in the words of the specification: newlines replaced by spaces
and surrounding white space trimmed. -/
def cleanTextSpec (s : GoString) : GoString :=
  TrimSpace (s.map (fun c => if c = NL then 32 else c))

/-- The sample of a line of the token log in the words of the specification: the
line is not blank and parses. -/
def tokenSampleSpec (decode : GoString → Option TokenRec) (l : GoString) : Option TokenSample :=
  if TrimSpace l = [] then none
  else
    match decode (TrimSpace l) with
    | none => none
    | some rec => some ⟨UnixMilli rec.TS, rec.OpenClawTotal, rec.ClaudeCodeCostUSD⟩

/-- The tool-result records among the last `maxLines` lines of a file, in file
order. -/
def toolRecords (decode : GoString → Option ToolRec) (f : List Byte) (maxLines : Int) :
    List ToolRec :=
  (lastN maxLines.toNat (fileLinesSpec f)).filterMap (toolRecOf decode)

/-! ### Sample data -/

/-- A line of a cron run log: a run that started. -/
def lineCronStarted : GoString :=
  lit "\x7b\"ts\":1700000000000,\"jobId\":\"j1\",\"action\":\"started\"\x7d"

/-- What `json.Unmarshal` decodes `lineCronStarted` into. -/
def recCronStarted : CronRunRec :=
  ⟨1700000000000, lit "started", [], [], [], lit "j1"⟩

/-- A line of a cron run log: a run that finished with status `ok`. -/
def lineCronFinished : GoString :=
  lit ("\x7b\"ts\":1700000005000,\"jobId\":\"j1\",\"action\":\"finished\"," ++
    "\"status\":\"ok\",\"summary\":\"done\\nmore\"\x7d")

/-- What `json.Unmarshal` decodes `lineCronFinished` into. -/
def recCronFinished : CronRunRec :=
  ⟨1700000005000, lit "finished", lit "ok", [], lit "done\nmore", lit "j1"⟩

/-- A line that is not JSON. -/
def lineGarbage : GoString := lit "not json"

/-- A decoder of cron run log lines that agrees with `json.Unmarshal` on the sample
lines (and on every line that is not JSON). -/
def sampleCronDecode (line : GoString) : Option CronRunRec :=
  if line = lineCronStarted then some recCronStarted
  else if line = lineCronFinished then some recCronFinished
  else none

/-- A line of a session log: a tool result. -/
def lineToolOk : GoString :=
  lit ("\x7b\"type\":\"message\",\"message\":\x7b\"role\":\"toolResult\"," ++
    "\"toolName\":\"exec\",\"isError\":false,\"timestamp\":1700000000000," ++
    "\"content\":[\x7b\"type\":\"text\",\"text\":\"ok\"\x7d]\x7d\x7d")

/-- What `json.Unmarshal` decodes `lineToolOk` into. -/
def recToolOk : ToolRec :=
  ⟨lit "message", ⟨lit "toolResult", lit "exec", false, 1700000000000,
    [⟨lit "text", lit "ok"⟩]⟩, []⟩

/-- A line of a session log: a failed tool result with a text of two lines. -/
def lineToolBoom : GoString :=
  lit ("\x7b\"type\":\"message\",\"message\":\x7b\"role\":\"toolResult\"," ++
    "\"toolName\":\"write\",\"isError\":true,\"timestamp\":1700000001000," ++
    "\"content\":[\x7b\"type\":\"text\",\"text\":\"boom\\nmore\"\x7d]\x7d\x7d")

/-- What `json.Unmarshal` decodes `lineToolBoom` into. -/
def recToolBoom : ToolRec :=
  ⟨lit "message", ⟨lit "toolResult", lit "write", true, 1700000001000,
    [⟨lit "text", lit "boom\nmore"⟩]⟩, []⟩

/-- A line of a session log: a tool result whose timestamp is zero. -/
def lineToolNoTime : GoString :=
  lit ("\x7b\"type\":\"message\",\"message\":\x7b\"role\":\"toolResult\"," ++
    "\"toolName\":\"read\",\"timestamp\":0\x7d\x7d")

/-- What `json.Unmarshal` decodes `lineToolNoTime` into. -/
def recToolNoTime : ToolRec :=
  ⟨lit "message", ⟨lit "toolResult", lit "read", false, 0, []⟩, []⟩

/-- A decoder of session log lines that agrees with `json.Unmarshal` on the sample
lines (and on every line that is not JSON). -/
def sampleToolDecode (line : GoString) : Option ToolRec :=
  if line = lineToolOk then some recToolOk
  else if line = lineToolBoom then some recToolBoom
  else if line = lineToolNoTime then some recToolNoTime
  else none

/-- A clock: readings of `time.Now()` in the year 2027, one nanosecond apart. -/
def sampleClock (k : Nat) : Time := ⟨1800000000000000000 + k⟩

/-- A cron event. -/
def sampleCronTask : Task :=
  ⟨UnixMilli 1700000000000, LevelInfo, SourceCron, lit "cron: backup", lit "done"⟩

/-- A tool-result event. -/
def sampleToolTask : Task :=
  ⟨UnixMilli 1700000001000, LevelError, SourceTool, lit "write", lit "boom"⟩

/-- A subagent run. -/
def sampleRun : SubagentRun :=
  ⟨lit "r1", lit "agent:main:sub:1", lit "research", lit "look\nit up", lit "m1",
    UnixMilli 1700000000500, none, none⟩

/-- A line of a cron run log: a run that finished with an error of two lines. -/
def lineCronFailed : GoString :=
  lit ("\x7b\"ts\":1700000009000,\"jobId\":\"j1\",\"action\":\"finished\"," ++
    "\"status\":\"error\",\"error\":\"exit 1\\nstack trace\"\x7d")

/-- What `json.Unmarshal` decodes `lineCronFailed` into. -/
def recCronFailed : CronRunRec :=
  ⟨1700000009000, lit "finished", lit "error", lit "exit 1\nstack trace", [], lit "j1"⟩

/-- The sample decoder of cron run log lines, extended to `lineCronFailed`. -/
def sampleCronDecodeFailed (line : GoString) : Option CronRunRec :=
  if line = lineCronFailed then some recCronFailed else sampleCronDecode line

/-- A line of the token log. -/
def lineTokenLate : GoString :=
  lit ("\x7b\"ts\":1700003600000,\"openclaw\":\x7b\"total\":20\x7d," ++
    "\"claudeCode\":\x7b\"costUSD\":2.5\x7d\x7d")

/-- A line of the token log, with an earlier timestamp. -/
def lineTokenEarly : GoString :=
  lit ("\x7b\"ts\":1700000000000,\"openclaw\":\x7b\"total\":10\x7d," ++
    "\"claudeCode\":\x7b\"costUSD\":1.5\x7d\x7d")

/-- A decoder of token log lines that agrees with `json.Unmarshal` on the sample
lines (and on every line that is not JSON). -/
def sampleTokenDecode (line : GoString) : Option TokenRec :=
  if line = lineTokenLate then some ⟨1700003600000, 20, 5 / 2⟩
  else if line = lineTokenEarly then some ⟨1700000000000, 10, 3 / 2⟩
  else none

/-- The session registry of the test `TestReadSessionsJSON`. -/
def sampleSessionsFile : List Byte :=
  lit ("\x7b\"agent:main:main\":\x7b\"label\":\"Main\",\"model\":\"gpt-5.2\"," ++
    "\"modelProvider\":\"openai-codex\",\"updatedAt\":1700000000000,\"inputTokens\":1," ++
    "\"outputTokens\":2,\"totalTokens\":3\x7d,\"agent:main:cron:1\":\x7b\"label\":\"Cron\"," ++
    "\"model\":\"gpt-5.2\",\"modelProvider\":\"openai-codex\",\"updatedAt\":1600000000000\x7d\x7d")

/-- The entry of `sampleSessionsFile` for the main session. -/
def sampleEntryMain : GoString × SessionState :=
  (lit "agent:main:main", ⟨lit "Main", lit "gpt-5.2", lit "openai-codex", 1700000000000, 1, 2, 3⟩)

/-- The entry of `sampleSessionsFile` for the cron session; its token counts are
absent from the file. -/
def sampleEntryCron : GoString × SessionState :=
  (lit "agent:main:cron:1",
    ⟨lit "Cron", lit "gpt-5.2", lit "openai-codex", 1600000000000, 0, 0, 0⟩)

/-- A decoder of session registries that agrees with `json.Unmarshal` on
`sampleSessionsFile`; `mainFirst` tells which of the two entries of the map `range`
enumerates first. -/
def sampleSessionsDecode (mainFirst : Bool) (b : List Byte) :
    Option (List (GoString × SessionState)) :=
  if b = sampleSessionsFile then
    some (if mainFirst then [sampleEntryMain, sampleEntryCron]
      else [sampleEntryCron, sampleEntryMain])
  else none

/-- A session registry of two sessions updated at the same millisecond. -/
def sampleTiedFile : List Byte :=
  lit ("\x7b\"agent:main:a\":\x7b\"updatedAt\":1700000000000\x7d," ++
    "\"agent:main:b\":\x7b\"updatedAt\":1700000000000\x7d\x7d")

/-- A decoder of session registries that agrees with `json.Unmarshal` on
`sampleTiedFile`; `aFirst` tells which of the two entries of the map `range`
enumerates first. -/
def sampleTiedDecode (aFirst : Bool) (b : List Byte) :
    Option (List (GoString × SessionState)) :=
  if b = sampleTiedFile then
    some (if aFirst then
        [(lit "agent:main:a", ⟨[], [], [], 1700000000000, 0, 0, 0⟩),
          (lit "agent:main:b", ⟨[], [], [], 1700000000000, 0, 0, 0⟩)]
      else
        [(lit "agent:main:b", ⟨[], [], [], 1700000000000, 0, 0, 0⟩),
          (lit "agent:main:a", ⟨[], [], [], 1700000000000, 0, 0, 0⟩)])
  else none

/-- A cron job registry of two jobs: `job-b`, which runs every minute and has no
next run stored, then `job-a` of the test `TestReadCronJobs`. -/
def sampleCronJobsFile : List Byte :=
  lit ("\x7b\"version\":1,\"jobs\":[\x7b\"id\":\"b\",\"name\":\"job-b\",\"enabled\":false," ++
    "\"schedule\":\x7b\"kind\":\"every\",\"everyMs\":60000\x7d,\"state\":\x7b\x7d\x7d," ++
    "\x7b\"id\":\"a\",\"name\":\"job-a\",\"enabled\":true," ++
    "\"schedule\":\x7b\"kind\":\"cron\",\"expr\":\"* * * * *\",\"tz\":\"UTC\"\x7d," ++
    "\"state\":\x7b\"nextRunAtMs\":1700000000000,\"lastRunAtMs\":1690000000000," ++
    "\"lastStatus\":\"ok\"\x7d\x7d]\x7d")

/-- What `json.Unmarshal` decodes the first job of `sampleCronJobsFile` into. -/
def sampleJobB : CronJobRaw :=
  ⟨lit "b", lit "job-b", false, ⟨lit "every", [], [], [], 60000⟩, ⟨0, 0, [], []⟩⟩

/-- What `json.Unmarshal` decodes the second job of `sampleCronJobsFile` into. -/
def sampleJobA : CronJobRaw :=
  ⟨lit "a", lit "job-a", true, ⟨lit "cron", lit "* * * * *", lit "UTC", [], 0⟩,
    ⟨1700000000000, 1690000000000, lit "ok", []⟩⟩

/-- A decoder of cron job registries that agrees with `json.Unmarshal` on
`sampleCronJobsFile`. -/
def sampleCronJobsDecode (b : List Byte) : Option (List CronJobRaw) :=
  if b = sampleCronJobsFile then some [sampleJobB, sampleJobA] else none

/-- A stand-in for `time.Duration.String` that agrees with it on one minute. -/
def sampleDurationString (d : Int) : GoString :=
  if d = 60000000000 then lit "1m0s" else []

/-- A configuration with the default interval of two seconds. -/
def sampleConfig : Config :=
  ⟨⟨lit "/home/u/.openclaw", lit "/home/u/.openclaw/workspace", lit "sessions.json",
    lit "runs.json", lit "jobs.json", lit "runs", lit "tokens.jsonl"⟩, 2 * Second⟩

/-- A configuration with the largest interval a `time.Duration` holds. -/
def sampleConfigMax : Config :=
  ⟨sampleConfig.Paths, 9223372036854775807⟩

/-- A refresh result that carries an error: the session registry was not JSON. -/
def sampleRefreshFailed : RefreshMsg :=
  ⟨some Error.jsonError, UnixMilli 1700000000000, [], [], [], [], [],
    ⟨UnixMilli 1700000000000, 0, 0, 0, 0, 0, 0⟩, ⟨150, 0, 0, 120, 0, 0, 0, 0⟩, true⟩

/-- A task text of 46 two-byte characters (92 bytes). -/
def sampleAccentedTask : String := String.mk (List.replicate 46 'é')

/-- A subagent registry of two runs. -/
def sampleRunsFile : List Byte :=
  lit ("\x7b\"version\":1,\"runs\":\x7b\"r1\":\x7b\"runId\":\"r1\"," ++
    "\"childSessionKey\":\"agent:main:sub:1\",\"label\":\"research\",\"task\":\"look it up\"," ++
    "\"model\":\"m1\",\"createdAt\":1700000000500\x7d,\"r2\":\x7b\"runId\":\"r2\"," ++
    "\"label\":\"build\",\"task\":\"make\",\"model\":\"m1\",\"createdAt\":1700000000900," ++
    "\"startedAt\":1700000001000\x7d\x7d\x7d")

/-- What `json.Unmarshal` decodes the run `r1` of `sampleRunsFile` into. -/
def sampleRunRaw1 : SubagentRaw :=
  ⟨lit "r1", lit "agent:main:sub:1", lit "research", lit "look it up", lit "m1",
    1700000000500, none, none⟩

/-- What `json.Unmarshal` decodes the run `r2` of `sampleRunsFile` into. -/
def sampleRunRaw2 : SubagentRaw :=
  ⟨lit "r2", [], lit "build", lit "make", lit "m1", 1700000000900, some 1700000001000, none⟩

/-- A decoder of subagent registries that agrees with `json.Unmarshal` on
`sampleRunsFile`; `r1First` tells which of the two entries of the map `range`
enumerates first. -/
def sampleRunsDecode (r1First : Bool) (b : List Byte) : Option (List SubagentRaw) :=
  if b = sampleRunsFile then
    some (if r1First then [sampleRunRaw1, sampleRunRaw2] else [sampleRunRaw2, sampleRunRaw1])
  else none

/-- A second clock: the readings of `sampleClock` five seconds later. -/
def sampleClockLater (k : Nat) : Time := ⟨1800000005000000000 + k⟩

/-! ## Lemmas on the tail reader -/

theorem readString_eof {r : List Byte} (h : (readString r).2.2 = true) :
    readString r = (r, [], true) ∧ NL ∉ r := by
  induction r with
  | nil => simp [readString]
  | cons c cs ih =>
    unfold readString at h ⊢
    by_cases hc : c = NL
    · simp [hc] at h
    · simp only [hc, if_false] at h ⊢
      obtain ⟨h1, h2⟩ := ih h
      refine ⟨?_, ?_⟩
      · rw [h1]
      · simp only [List.mem_cons, not_or]
        exact ⟨fun e => hc e.symm, h2⟩

theorem readString_line {r : List Byte} (h : (readString r).2.2 = false) :
    ∃ l, NL ∉ l ∧ (readString r).1 = l ++ [NL] ∧ r = l ++ NL :: (readString r).2.1 := by
  induction r with
  | nil => simp [readString] at h
  | cons c cs ih =>
    unfold readString at h ⊢
    by_cases hc : c = NL
    · simp only [hc, if_true]
      exact ⟨[], by simp, by simp, by simp⟩
    · simp only [hc, if_false] at h ⊢
      obtain ⟨l, h1, h2, h3⟩ := ih h
      refine ⟨c :: l, ?_, ?_, ?_⟩
      · simp only [List.mem_cons, not_or]
        exact ⟨fun e => hc e.symm, h1⟩
      · simp [h2]
      · simp only [List.cons_append, List.cons.injEq, true_and]
        exact h3

theorem splitNL_of_not_mem {r : List Byte} (h : NL ∉ r) : splitNL r = ([], r) := by
  induction r with
  | nil => simp [splitNL]
  | cons c cs ih =>
    simp only [List.mem_cons, not_or] at h
    have hc : ¬ c = NL := fun e => h.1 e.symm
    unfold splitNL
    simp only [hc, if_false]
    rw [ih h.2]

theorem splitNL_append {l : List Byte} (rest : List Byte) (h : NL ∉ l) :
    splitNL (l ++ NL :: rest) = (l :: (splitNL rest).1, (splitNL rest).2) := by
  induction l with
  | nil => simp [splitNL]
  | cons c cs ih =>
    simp only [List.mem_cons, not_or] at h
    have hc : ¬ c = NL := fun e => h.1 e.symm
    rw [List.cons_append, splitNL, if_neg hc, ih h.2]

theorem TrimRight_of_not_mem {l : GoString} (h : NL ∉ l) : TrimRight l [NL] = l := by
  unfold TrimRight
  rw [List.rdropWhile_eq_self_iff]
  intro hl
  have := List.getLast_mem hl
  simp only [List.mem_singleton, decide_eq_true_eq]
  intro e
  exact h (e ▸ this)

theorem TrimRight_line {l : GoString} (h : NL ∉ l) : TrimRight (l ++ [NL]) [NL] = l := by
  have h0 := TrimRight_of_not_mem h
  unfold TrimRight at h0 ⊢
  rw [List.rdropWhile_concat]
  simpa using h0

theorem fileLinesSpec_of_not_mem {r : List Byte} (h : NL ∉ r) :
    fileLinesSpec r = if TrimSpace r ≠ [] then [r] else [] := by
  unfold fileLinesSpec
  rw [splitNL_of_not_mem h]
  simp

theorem fileLinesSpec_append {l : List Byte} (rest : List Byte) (h : NL ∉ l) :
    fileLinesSpec (l ++ NL :: rest) = l :: fileLinesSpec rest := by
  unfold fileLinesSpec
  rw [splitNL_append rest h]
  by_cases hb : TrimSpace (splitNL rest).2 = [] <;> simp [hb]

/-- The read loop appends to the lines gathered so far the lines of what is left
to read. -/
theorem readLoop_eq (r : List Byte) (lines : List GoString) :
    readLoop r lines = lines ++ fileLinesSpec r := by
  induction r, lines using readLoop.induct with
  | case1 r lines h hb =>
    obtain ⟨h1, h2⟩ := readString_eof h
    rw [readLoop, dif_pos h, if_pos hb, fileLinesSpec_of_not_mem h2]
    rw [h1] at hb ⊢
    rw [if_pos hb, TrimRight_of_not_mem h2]
  | case2 r lines h hb =>
    obtain ⟨h1, h2⟩ := readString_eof h
    rw [readLoop, dif_pos h, if_neg hb, fileLinesSpec_of_not_mem h2]
    rw [h1] at hb
    rw [if_neg hb, List.append_nil]
  | case3 r lines h ih =>
    have hf : (readString r).2.2 = false := by simpa using h
    obtain ⟨l, h1, h2, h3⟩ := readString_line hf
    rw [readLoop, dif_neg h, ih, h2, TrimRight_line h1]
    conv_rhs => rw [h3, fileLinesSpec_append _ h1]
    simp

theorem lastN_length {α : Type} (k : Nat) (xs : List α) :
    (lastN k xs).length = min k xs.length := by
  unfold lastN
  rw [List.length_drop]
  omega

theorem lastN_min {α : Type} (k : Nat) (xs : List α) :
    lastN (min k xs.length) xs = lastN k xs := by
  unfold lastN
  congr 1
  omega

theorem lastN_of_length_le {α : Type} {k : Nat} {xs : List α} (h : xs.length ≤ k) :
    lastN k xs = xs := by
  unfold lastN
  rw [Nat.sub_eq_zero_of_le h, List.drop_zero]

/-- What `tailLines` returns, for every file: the last `n` of the lines that the
read loop finds in the bytes left after the seek and the discarded fragment. -/
theorem tailLines_eq (f : List Byte) (n : Int) (hn : 0 < n) :
    tailLines f n = .ok (lastN n.toNat (fileLinesSpec
      (if f.length > tailMax then (readString (f.drop (f.length - tailMax))).2.1 else f))) := by
  have hn0 : ¬ n ≤ 0 := not_le.mpr hn
  unfold tailLines
  simp only [hn0, if_false, readLoop_eq, List.nil_append]
  by_cases hs : f.length > tailMax
  · have hpos : f.length - tailMax > 0 := by omega
    simp only [hs, if_true, hpos]
    split
    · rename_i hle
      rw [lastN_of_length_le (by omega)]
    · rfl
  · simp only [hs, if_false, gt_iff_lt, lt_self_iff_false, List.drop_zero]
    split
    · rename_i hle
      rw [lastN_of_length_le (by omega)]
    · rfl

theorem tailLines_small (f : List Byte) (n : Int) (hsize : f.length ≤ tailMax) (hn : 0 < n) :
    tailLines f n = .ok (lastN n.toNat (fileLinesSpec f)) := by
  rw [tailLines_eq f n hn, if_neg (by omega)]

/-! ## C1: the tail of a file that fits the window -/

/-- C1: for a file content of at most 262144 bytes and `n > 0`, `tailLines` returns
without error exactly the last `min n m` of the `m` lines of the file, in their
original order, the lines being the newline-terminated segments with the
terminator removed plus a final unterminated segment that is not blank; the
result has at most `n` lines. -/
theorem C1_tailLines_within_window (f : List Byte) (n : Int)
    (hsize : f.length ≤ 262144) (hn : 0 < n) :
    ∃ lines, tailLines f n = .ok lines ∧
      lines = lastN (min n.toNat (fileLinesSpec f).length) (fileLinesSpec f) ∧
      (lines.length : Int) ≤ n := by
  refine ⟨_, tailLines_small f n hsize hn, (lastN_min _ _).symm, ?_⟩
  rw [lastN_length]
  omega

theorem C1_tailLines_within_window_witness :
    ∃ lines, tailLines (lit "a\nbb\n\nccc") 2 = .ok lines ∧
      lines = lastN (min (2 : Int).toNat (fileLinesSpec (lit "a\nbb\n\nccc")).length)
        (fileLinesSpec (lit "a\nbb\n\nccc")) ∧
      (lines.length : Int) ≤ 2 :=
  C1_tailLines_within_window (lit "a\nbb\n\nccc") 2 (by decide) (by decide)

/-! ## C2: the tail of a file larger than the window -/

theorem fileLinesSpec_nil : fileLinesSpec [] = [] := by decide

/-- A content either has no newline or splits at its first newline. -/
theorem split_first_newline (r : List Byte) :
    NL ∉ r ∨ ∃ l rest, NL ∉ l ∧ r = l ++ NL :: rest := by
  cases h : (readString r).2.2 with
  | true => exact Or.inl (readString_eof h).2
  | false =>
    obtain ⟨l, h1, _, h3⟩ := readString_line h
    exact Or.inr ⟨l, _, h1, h3⟩

/-- Every line found in `r` is a whole line: when `r` follows a newline, the line
starts right after a newline and runs to the next newline or to the end. -/
theorem mem_fileLinesSpec (k : Nat) :
    ∀ (r : List Byte), r.length ≤ k → ∀ (ln : GoString), ln ∈ fileLinesSpec r →
    ∀ a : List Byte, ∃ pre post, a ++ NL :: r = pre ++ NL :: (ln ++ post) ∧
      a.length ≤ pre.length ∧ NL ∉ ln ∧ (post = [] ∨ ∃ q, post = NL :: q) := by
  induction k with
  | zero =>
    intro r hr ln hln a
    have : r = [] := List.length_eq_zero.mp (Nat.le_zero.mp hr)
    subst this
    rw [fileLinesSpec_nil] at hln
    cases hln
  | succ k ih =>
    intro r hr ln hln a
    rcases split_first_newline r with h | ⟨l, rest, h1, h2⟩
    · rw [fileLinesSpec_of_not_mem h] at hln
      split at hln
      · have e : ln = r := by simpa using hln
        subst e
        exact ⟨a, [], by simp, le_refl _, h, Or.inl rfl⟩
      · cases hln
    · subst h2
      rw [fileLinesSpec_append rest h1, List.mem_cons] at hln
      rcases hln with e | hmem
      · subst e
        exact ⟨a, NL :: rest, by simp, le_refl _, h1, Or.inr ⟨rest, rfl⟩⟩
      · have hlen : rest.length ≤ k := by
          simp only [List.length_append, List.length_cons] at hr
          omega
        obtain ⟨pre, post, e, hle, hnl, hpost⟩ := ih rest hlen ln hmem (a ++ NL :: l)
        refine ⟨pre, post, ?_, ?_, hnl, hpost⟩
        · rw [← e]; simp
        · simp only [List.length_append, List.length_cons] at hle
          omega

/-- C2: for a file content longer than 262144 bytes and `n > 0`, every line that
`tailLines` returns is a whole line of the file: it starts immediately after a
newline byte of the file, holds no newline and runs to the next newline or to the
end of the file; and it lies inside the last 262144 bytes of the file. -/
theorem C2_tailLines_beyond_window (f : List Byte) (n : Int)
    (hsize : f.length > 262144) (hn : 0 < n) :
    ∃ lines, tailLines f n = .ok lines ∧
      ∀ ln ∈ lines, ∃ pre post, f = pre ++ NL :: (ln ++ post) ∧ NL ∉ ln ∧
        (post = [] ∨ ∃ q, post = NL :: q) ∧ f.length - 262144 ≤ pre.length + 1 := by
  have hs : f.length > tailMax := hsize
  refine ⟨_, tailLines_eq f n hn, ?_⟩
  rw [if_pos hs]
  intro ln hln
  have hmem : ln ∈ fileLinesSpec (readString (f.drop (f.length - tailMax))).2.1 :=
    List.mem_of_mem_drop hln
  cases h : (readString (f.drop (f.length - tailMax))).2.2 with
  | true =>
    rw [(readString_eof h).1, fileLinesSpec_nil] at hmem
    cases hmem
  | false =>
    obtain ⟨l, _, _, h3⟩ := readString_line h
    obtain ⟨pre, post, e, hle, hnl, hpost⟩ :=
      mem_fileLinesSpec _ _ (le_refl _) ln hmem (f.take (f.length - tailMax) ++ l)
    refine ⟨pre, post, ?_, hnl, hpost, ?_⟩
    · rw [← e, List.append_assoc, ← h3, List.take_append_drop]
    · have : (f.take (f.length - tailMax)).length = f.length - tailMax := by
        rw [List.length_take]; omega
      simp only [List.length_append] at hle
      have ht : tailMax = 262144 := rfl
      omega

theorem C2_tailLines_beyond_window_witness :
    ∃ lines, tailLines (List.replicate 262145 NL) 3 = .ok lines ∧
      ∀ ln ∈ lines, ∃ pre post, List.replicate 262145 NL = pre ++ NL :: (ln ++ post) ∧ NL ∉ ln ∧
        (post = [] ∨ ∃ q, post = NL :: q) ∧
        (List.replicate 262145 NL).length - 262144 ≤ pre.length + 1 :=
  C2_tailLines_beyond_window (List.replicate 262145 NL) 3
    (by rw [List.length_replicate]; decide) (by decide)

/-! ## C3, C4, C5: the CPU percentage -/

theorem isRounding_id : IsRounding id :=
  ⟨monotone_id, fun _ => rfl, rfl, rfl, rfl⟩

theorem sums_of_fit (s : CPUStat) (h : s.total < 2 ^ 64) :
    add64 s.Idle s.IOWait = idleSum s ∧
    add64 (add64 (add64 (add64 (add64 s.User s.Nice) s.System) s.IRQ) s.SoftIRQ) s.Steal
      = busySum s ∧
    add64 (idleSum s) (busySum s) = idleSum s + busySum s := by
  unfold CPUStat.total at h
  simp only [add64, idleSum, busySum] at h ⊢
  omega

theorem sub64_of_le {a b : Nat} (h : b ≤ a) (ha : a < 2 ^ 64) : sub64 a b = a - b := by
  simp only [sub64]
  omega

/-- When the counters did not go back and their sum fits 64 bits, the code computes
with the deltas of the specification. -/
theorem CPUPercent_of_fit (fl : ℚ → ℚ) (prev cur : CPUStat)
    (hle : prev.le cur) (hfit : cur.total < 2 ^ 64) :
    CPUPercent fl prev cur =
      if fl (deltaTotal prev cur) ≤ 0 then 0
      else fl (fl (fl (fl (deltaTotal prev cur) - fl (deltaIdle prev cur))
        / fl (deltaTotal prev cur)) * 100) := by
  obtain ⟨h1, h2, h3, h4, h5, h6, h7, h8⟩ := hle
  have hi : idleSum prev ≤ idleSum cur := by simp only [idleSum]; omega
  have hb : busySum prev ≤ busySum cur := by simp only [busySum]; omega
  have hfitp : prev.total < 2 ^ 64 := by
    simp only [CPUStat.total] at hfit ⊢; omega
  obtain ⟨c1, c2, c3⟩ := sums_of_fit cur hfit
  obtain ⟨p1, p2, p3⟩ := sums_of_fit prev hfitp
  have hic : idleSum cur < 2 ^ 64 := by simp only [CPUStat.total] at hfit; omega
  have et : ((sub64 (idleSum cur + busySum cur) (idleSum prev + busySum prev) : ℕ) : ℚ)
      = deltaTotal prev cur := by
    have hfit2 : idleSum cur + busySum cur < 2 ^ 64 := hfit
    have hle2 : idleSum prev + busySum prev ≤ idleSum cur + busySum cur := by omega
    rw [sub64_of_le hle2 hfit2, Nat.cast_sub hle2]
    simp only [deltaTotal, deltaIdle, deltaBusy, Nat.cast_add]
    ring
  have ei : ((sub64 (idleSum cur) (idleSum prev) : ℕ) : ℚ) = deltaIdle prev cur := by
    rw [sub64_of_le hi hic, Nat.cast_sub hi]
    rfl
  unfold CPUPercent
  simp only [c1, c2, c3, p1, p2, p3, et, ei]

/-- C3 (amended): for two samples of `uint64` counters in which no counter of `cur`
is below the same counter of `prev`, and the eight counters of `cur` sum to less
than `2 ^ 64`, `CPUPercent prev cur` lies in the closed interval from 0 to 100,
under every rounding of the `float64` operations. -/
theorem C3_CPUPercent_range (fl : ℚ → ℚ) (hfl : IsRounding fl) (prev cur : CPUStat)
    (hle : prev.le cur) (hfit : cur.total < 2 ^ 64) :
    0 ≤ CPUPercent fl prev cur ∧ CPUPercent fl prev cur ≤ 100 := by
  obtain ⟨hmono, hidem, h0, h1, h100⟩ := hfl
  rw [CPUPercent_of_fit fl prev cur hle hfit]
  split
  · exact ⟨le_refl _, by norm_num⟩
  · rename_i hpos
    have hT : 0 < fl (deltaTotal prev cur) := not_le.mp hpos
    have hI0 : 0 ≤ deltaIdle prev cur := by
      have : idleSum prev ≤ idleSum cur := by
        obtain ⟨_, _, _, h4, h5, _, _, _⟩ := hle
        simp only [idleSum]; omega
      simp only [deltaIdle, sub_nonneg, Nat.cast_le]
      exact this
    have hIT : deltaIdle prev cur ≤ deltaTotal prev cur := by
      have : busySum prev ≤ busySum cur := by
        obtain ⟨_, _, _, _, _, _, _, _⟩ := hle
        simp only [busySum]; omega
      have hq : (busySum prev : ℚ) ≤ busySum cur := Nat.cast_le.mpr this
      simp only [deltaTotal, deltaBusy]
      linarith
    have a0 : 0 ≤ fl (deltaIdle prev cur) := h0 ▸ hmono hI0
    have a1 : fl (deltaIdle prev cur) ≤ fl (deltaTotal prev cur) := hmono hIT
    have b0 : 0 ≤ fl (fl (deltaTotal prev cur) - fl (deltaIdle prev cur)) :=
      h0 ▸ hmono (sub_nonneg.mpr a1)
    have b1 : fl (fl (deltaTotal prev cur) - fl (deltaIdle prev cur))
        ≤ fl (deltaTotal prev cur) := by
      have := hmono (show fl (deltaTotal prev cur) - fl (deltaIdle prev cur)
        ≤ fl (deltaTotal prev cur) by linarith)
      rwa [hidem] at this
    have c0 : 0 ≤ fl (fl (fl (deltaTotal prev cur) - fl (deltaIdle prev cur))
        / fl (deltaTotal prev cur)) := h0 ▸ hmono (div_nonneg b0 hT.le)
    have c1 : fl (fl (fl (deltaTotal prev cur) - fl (deltaIdle prev cur))
        / fl (deltaTotal prev cur)) ≤ 1 := h1 ▸ hmono ((div_le_one hT).mpr b1)
    constructor
    · exact h0 ▸ hmono (mul_nonneg c0 (by norm_num))
    · have := hmono (show fl (fl (fl (deltaTotal prev cur) - fl (deltaIdle prev cur))
        / fl (deltaTotal prev cur)) * 100 ≤ 100 by linarith)
      rwa [h100] at this

theorem C3_CPUPercent_range_witness :
    0 ≤ CPUPercent id ⟨100, 0, 0, 100, 0, 0, 0, 0⟩ ⟨150, 0, 0, 120, 0, 0, 0, 0⟩ ∧
    CPUPercent id ⟨100, 0, 0, 100, 0, 0, 0, 0⟩ ⟨150, 0, 0, 120, 0, 0, 0, 0⟩ ≤ 100 :=
  C3_CPUPercent_range id isRounding_id ⟨100, 0, 0, 100, 0, 0, 0, 0⟩ ⟨150, 0, 0, 120, 0, 0, 0, 0⟩
    (by simp [CPUStat.le]) (by simp [CPUStat.total, idleSum, busySum])

/-- C3 as stated fails: with `prev` all zero and `cur` having `Idle = 2 ^ 64 - 1` and
`User = 2`, all counters are `uint64` values that did not go back, the sum of the
counters of `cur` wraps around, and the result is negative. -/
theorem C3_counterexample :
    CPUStat.le ⟨0, 0, 0, 0, 0, 0, 0, 0⟩ ⟨2, 0, 0, 2 ^ 64 - 1, 0, 0, 0, 0⟩ ∧
    CPUStat.isU64 ⟨0, 0, 0, 0, 0, 0, 0, 0⟩ ∧ CPUStat.isU64 ⟨2, 0, 0, 2 ^ 64 - 1, 0, 0, 0, 0⟩ ∧
    ¬ (0 ≤ CPUPercent id ⟨0, 0, 0, 0, 0, 0, 0, 0⟩ ⟨2, 0, 0, 2 ^ 64 - 1, 0, 0, 0, 0⟩ ∧
       CPUPercent id ⟨0, 0, 0, 0, 0, 0, 0, 0⟩ ⟨2, 0, 0, 2 ^ 64 - 1, 0, 0, 0, 0⟩ ≤ 100) := by
  refine ⟨by simp [CPUStat.le], by simp [CPUStat.isU64], by simp [CPUStat.isU64], ?_⟩
  norm_num [CPUPercent, add64, sub64]

/-- C4 (the code at the failing input): after a counter reset from `User = 100` to
`User = 50` the total of `cur` is below the total of `prev`, the unsigned
difference wraps around to `2 ^ 64 - 50`, the test `totald <= 0` does not fire, and
`CPUPercent` returns 100 instead of 0, under every rounding. -/
theorem C4_CPUPercent_counter_reset (fl : ℚ → ℚ) (hfl : IsRounding fl) :
    CPUStat.total ⟨50, 0, 0, 0, 0, 0, 0, 0⟩ ≤ CPUStat.total ⟨100, 0, 0, 0, 0, 0, 0, 0⟩ ∧
    CPUPercent fl ⟨100, 0, 0, 0, 0, 0, 0, 0⟩ ⟨50, 0, 0, 0, 0, 0, 0, 0⟩ = 100 := by
  obtain ⟨hmono, hidem, h0, h1, h100⟩ := hfl
  refine ⟨by simp [CPUStat.total, idleSum, busySum], ?_⟩
  have ha : (100 : ℚ) ≤ fl 18446744073709551566 := by
    have := hmono (show (100 : ℚ) ≤ 18446744073709551566 by norm_num)
    rwa [h100] at this
  have hpos : ¬ fl 18446744073709551566 ≤ 0 := by linarith
  have hne : fl 18446744073709551566 ≠ 0 := by linarith
  simp only [CPUPercent, add64, sub64]
  norm_num [h0, hidem, hpos, hne, h1, h100]

theorem C4_CPUPercent_counter_reset_witness :
    CPUStat.total ⟨50, 0, 0, 0, 0, 0, 0, 0⟩ ≤ CPUStat.total ⟨100, 0, 0, 0, 0, 0, 0, 0⟩ ∧
    CPUPercent id ⟨100, 0, 0, 0, 0, 0, 0, 0⟩ ⟨50, 0, 0, 0, 0, 0, 0, 0⟩ = 100 :=
  C4_CPUPercent_counter_reset id isRounding_id

/-! ### The rounding of `float64` -/

theorem binade_eq {x : ℚ} {e : Int} (h1 : (2 : ℚ) ^ e ≤ |x|) (h2 : |x| < (2 : ℚ) ^ (e + 1)) :
    binade x = e := by
  have hx : 0 < |x| := lt_of_lt_of_le (zpow_pos (by norm_num) e) h1
  have a : e ≤ Int.log 2 |x| := (Int.zpow_le_iff_le_log (by norm_num) hx).mp (by exact_mod_cast h1)
  have b : Int.log 2 |x| < e + 1 := (Int.lt_zpow_iff_log_lt (by norm_num) hx).mp (by exact_mod_cast h2)
  unfold binade
  omega

theorem roundHalfEven_of_floor {q : ℚ} {f : Int} (h1 : (f : ℚ) ≤ q) (h2 : q < f + 1) :
    roundHalfEven q =
      if q - f < 1 / 2 then f
      else if 1 / 2 < q - f then f + 1
      else if f % 2 = 0 then f
      else f + 1 := by
  have hf : ⌊q⌋ = f := Int.floor_eq_iff.mpr ⟨h1, h2⟩
  unfold roundHalfEven
  rw [hf]

theorem roundF64_eval {x : ℚ} (e k : Int) (h1 : (2 : ℚ) ^ e ≤ |x|) (h2 : |x| < (2 : ℚ) ^ (e + 1))
    (hk : roundHalfEven (x / 2 ^ (e - 52)) = k) : roundF64 x = k * 2 ^ (e - 52) := by
  have hx : x ≠ 0 := by
    intro h
    rw [h, abs_zero] at h1
    exact absurd h1 (not_le.mpr (zpow_pos (by norm_num) e))
  unfold roundF64
  rw [if_neg hx, binade_eq h1 h2, hk]

theorem roundHalfEven_intCast (k : Int) : roundHalfEven (k : ℚ) = k := by
  unfold roundHalfEven
  rw [Int.floor_intCast]
  norm_num

theorem roundHalfEven_mono {p q : ℚ} (h : p ≤ q) : roundHalfEven p ≤ roundHalfEven q := by
  have hfl : ⌊p⌋ ≤ ⌊q⌋ := Int.floor_mono h
  rcases eq_or_lt_of_le hfl with he | hl
  · unfold roundHalfEven
    rw [← he]
    split_ifs <;> first | omega | (exfalso; linarith)
  · have h1 : roundHalfEven p ≤ ⌊p⌋ + 1 := by
      unfold roundHalfEven
      split_ifs <;> omega
    have h2 : ⌊q⌋ ≤ roundHalfEven q := by
      unfold roundHalfEven
      split_ifs <;> omega
    omega

theorem roundHalfEven_neg (q : ℚ) : roundHalfEven (-q) = -roundHalfEven q := by
  by_cases hq : (⌊q⌋ : ℚ) = q
  · rw [← hq, ← Int.cast_neg, roundHalfEven_intCast, roundHalfEven_intCast]
  · have h1 : (⌊q⌋ : ℚ) < q := lt_of_le_of_ne (Int.floor_le q) hq
    have h2 := Int.lt_floor_add_one q
    have hf : ⌊-q⌋ = -⌊q⌋ - 1 :=
      Int.floor_eq_iff.mpr ⟨by push_cast; linarith, by push_cast; linarith⟩
    unfold roundHalfEven
    rw [hf]
    push_cast
    split_ifs <;> first | omega | (exfalso; linarith)

theorem binade_le {x : ℚ} (hx : x ≠ 0) : (2 : ℚ) ^ binade x ≤ |x| := by
  have := Int.zpow_log_le_self (b := 2) (by norm_num) (abs_pos.mpr hx)
  unfold binade
  exact_mod_cast this

theorem lt_binade (x : ℚ) : |x| < (2 : ℚ) ^ (binade x + 1) := by
  have := Int.lt_zpow_succ_log_self (b := 2) (by norm_num) |x|
  unfold binade
  exact_mod_cast this

theorem two_zpow_52 (e : Int) : (2 : ℚ) ^ e = 4503599627370496 * 2 ^ (e - 52) := by
  have h := zpow_add₀ (two_ne_zero : (2 : ℚ) ≠ 0) 52 (e - 52)
  rw [show (52 : Int) + (e - 52) = e by ring] at h
  rw [h]
  norm_num

theorem two_zpow_53 (e : Int) : (2 : ℚ) ^ (e + 1) = 9007199254740992 * 2 ^ (e - 52) := by
  have h := zpow_add₀ (two_ne_zero : (2 : ℚ) ≠ 0) 53 (e - 52)
  rw [show (53 : Int) + (e - 52) = e + 1 by ring] at h
  rw [h]
  norm_num

/-- The significand of a positive number lies between `2 ^ 52` and `2 ^ 53`. -/
theorem significand_bounds {x : ℚ} (hx : 0 < x) :
    (4503599627370496 : Int) ≤ roundHalfEven (x / 2 ^ (binade x - 52)) ∧
    roundHalfEven (x / 2 ^ (binade x - 52)) ≤ (9007199254740992 : Int) := by
  have hs : (0 : ℚ) < 2 ^ (binade x - 52) := zpow_pos (by norm_num) _
  have h1 := binade_le hx.ne'
  have h2 := lt_binade x
  rw [abs_of_pos hx] at h1 h2
  rw [two_zpow_52] at h1
  rw [two_zpow_53] at h2
  constructor
  · have := roundHalfEven_mono (p := ((4503599627370496 : Int) : ℚ))
      (q := x / 2 ^ (binade x - 52)) (by rw [le_div_iff₀ hs]; exact_mod_cast h1)
    rwa [roundHalfEven_intCast] at this
  · have := roundHalfEven_mono (q := ((9007199254740992 : Int) : ℚ))
      (p := x / 2 ^ (binade x - 52)) (by rw [div_le_iff₀ hs]; exact_mod_cast h2.le)
    rwa [roundHalfEven_intCast] at this

theorem roundF64_bounds {x : ℚ} (hx : 0 < x) :
    (2 : ℚ) ^ binade x ≤ roundF64 x ∧ roundF64 x ≤ 2 ^ (binade x + 1) := by
  have hs : (0 : ℚ) < 2 ^ (binade x - 52) := zpow_pos (by norm_num) _
  obtain ⟨h1, h2⟩ := significand_bounds hx
  unfold roundF64
  rw [if_neg hx.ne', two_zpow_52, two_zpow_53]
  constructor
  · exact mul_le_mul_of_nonneg_right (by exact_mod_cast h1) hs.le
  · exact mul_le_mul_of_nonneg_right (by exact_mod_cast h2) hs.le

theorem roundF64_pos {x : ℚ} (hx : 0 < x) : 0 < roundF64 x :=
  lt_of_lt_of_le (zpow_pos (by norm_num) _) (roundF64_bounds hx).1

theorem roundF64_neg (x : ℚ) : roundF64 (-x) = -roundF64 x := by
  unfold roundF64 binade
  by_cases hx : x = 0
  · simp [hx]
  · rw [if_neg hx, if_neg (neg_ne_zero.mpr hx), abs_neg, neg_div, roundHalfEven_neg]
    push_cast
    ring

theorem roundF64_mono_pos {x y : ℚ} (hx : 0 < x) (hxy : x ≤ y) : roundF64 x ≤ roundF64 y := by
  have hy : 0 < y := lt_of_lt_of_le hx hxy
  have he : binade x ≤ binade y := by
    unfold binade
    rw [abs_of_pos hx, abs_of_pos hy]
    exact Int.log_mono_right hx hxy
  rcases eq_or_lt_of_le he with h | h
  · have hs : (0 : ℚ) < 2 ^ (binade x - 52) := zpow_pos (by norm_num) _
    unfold roundF64
    rw [if_neg hx.ne', if_neg hy.ne', ← h]
    refine mul_le_mul_of_nonneg_right ?_ hs.le
    exact_mod_cast roundHalfEven_mono (div_le_div_of_nonneg_right hxy hs.le)
  · refine le_trans (roundF64_bounds hx).2 (le_trans ?_ (roundF64_bounds hy).1)
    exact zpow_le_zpow_right₀ (by norm_num) (by omega)

theorem roundF64_monotone : Monotone roundF64 := by
  intro x y hxy
  rcases lt_trichotomy x 0 with hx | hx | hx
  · have hnx : roundF64 x < 0 := by
      have := roundF64_pos (neg_pos.mpr hx)
      rw [roundF64_neg] at this
      linarith
    rcases lt_trichotomy y 0 with hy | hy | hy
    · have := roundF64_mono_pos (neg_pos.mpr hy) (neg_le_neg hxy)
      rw [roundF64_neg, roundF64_neg] at this
      linarith
    · rw [hy]
      simpa [roundF64] using hnx.le
    · exact le_trans hnx.le (roundF64_pos hy).le
  · rw [hx] at hxy ⊢
    rcases eq_or_lt_of_le hxy with hy | hy
    · rw [← hy]
    · simpa [roundF64] using (roundF64_pos hy).le
  · exact roundF64_mono_pos hx hxy

/-- A number with a significand of 53 bits is a `float64`. -/
theorem roundF64_repr (k e : Int) (h1 : 4503599627370496 ≤ k) (h2 : k < 9007199254740992) :
    roundF64 ((k : ℚ) * 2 ^ (e - 52)) = k * 2 ^ (e - 52) := by
  have hs : (0 : ℚ) < 2 ^ (e - 52) := zpow_pos (by norm_num) _
  have hk : (0 : ℚ) < k := by exact_mod_cast (by omega : (0 : Int) < k)
  have hpos : (0 : ℚ) < k * 2 ^ (e - 52) := mul_pos hk hs
  refine roundF64_eval e k ?_ ?_ ?_
  · rw [abs_of_pos hpos, two_zpow_52]
    exact mul_le_mul_of_nonneg_right (by exact_mod_cast h1) hs.le
  · rw [abs_of_pos hpos, two_zpow_53]
    exact mul_lt_mul_of_pos_right (by exact_mod_cast h2) hs
  · rw [mul_div_cancel_right₀ _ hs.ne', roundHalfEven_intCast]

theorem roundF64_idem_pos {x : ℚ} (hx : 0 < x) : roundF64 (roundF64 x) = roundF64 x := by
  obtain ⟨h1, h2⟩ := significand_bounds hx
  have e : roundF64 x = roundHalfEven (x / 2 ^ (binade x - 52)) * 2 ^ (binade x - 52) := by
    unfold roundF64
    rw [if_neg hx.ne']
  rcases eq_or_lt_of_le h2 with h | h
  · have e2 : roundF64 x = ((4503599627370496 : Int) : ℚ) * 2 ^ (binade x + 1 - 52) := by
      rw [e, h]
      have := two_zpow_53 (binade x)
      have := two_zpow_52 (binade x + 1)
      push_cast
      linarith
    rw [e2]
    exact roundF64_repr _ _ (by norm_num) (by norm_num)
  · rw [e]
    exact roundF64_repr _ _ h1 h

theorem roundF64_idem (x : ℚ) : roundF64 (roundF64 x) = roundF64 x := by
  rcases lt_trichotomy x 0 with hx | hx | hx
  · have := roundF64_idem_pos (neg_pos.mpr hx)
    rw [roundF64_neg, roundF64_neg] at this
    linarith
  · rw [hx]
    simp [roundF64]
  · exact roundF64_idem_pos hx

theorem roundF64_values :
    roundF64 70 = 70 ∧ roundF64 20 = 20 ∧ roundF64 50 = 50 ∧
    roundF64 (5 / 7) = 6433713753386423 / 9007199254740992 ∧
    roundF64 (6433713753386423 / 9007199254740992 * 100) = 5026338869833143 / 70368744177664 := by
  refine ⟨?_, ?_, ?_, ?_, ?_⟩
  · rw [roundF64_eval 6 (70 * 2 ^ 46) (by norm_num) (by norm_num)
      (by rw [roundHalfEven_of_floor (f := 70 * 2 ^ 46) (by norm_num) (by norm_num)]; norm_num)]
    norm_num
  · rw [roundF64_eval 4 (20 * 2 ^ 48) (by norm_num) (by norm_num)
      (by rw [roundHalfEven_of_floor (f := 20 * 2 ^ 48) (by norm_num) (by norm_num)]; norm_num)]
    norm_num
  · rw [roundF64_eval 5 (50 * 2 ^ 47) (by norm_num) (by norm_num)
      (by rw [roundHalfEven_of_floor (f := 50 * 2 ^ 47) (by norm_num) (by norm_num)]; norm_num)]
    norm_num
  · rw [roundF64_eval (-1) 6433713753386423 (by norm_num [abs_of_pos])
      (by norm_num [abs_of_pos])
      (by rw [roundHalfEven_of_floor (f := 6433713753386422) (by norm_num) (by norm_num)]
          norm_num)]
    norm_num
  · rw [roundF64_eval 6 5026338869833143 (by norm_num [abs_of_pos])
      (by norm_num [abs_of_pos])
      (by rw [roundHalfEven_of_floor (f := 5026338869833142) (by norm_num) (by norm_num)]
          norm_num)]
    norm_num

theorem roundF64_values_wrap :
    roundF64 1 = 1 ∧ roundF64 100 = 100 ∧ roundF64 18446744073709551617 = 18446744073709551616 ∧
    roundF64 18446744073709551615 = 18446744073709551616 ∧
    roundF64 (1 - 18446744073709551616) = -18446744073709551616 ∧
    roundF64 (-18446744073709551616 / 1) = -18446744073709551616 ∧
    roundF64 (-18446744073709551616 * 100) = -1844674407370955161600 := by
  refine ⟨?_, ?_, ?_, ?_, ?_, ?_, ?_⟩
  · rw [roundF64_eval 0 (2 ^ 52) (by norm_num) (by norm_num)
      (by rw [roundHalfEven_of_floor (f := 2 ^ 52) (by norm_num) (by norm_num)]; norm_num)]
    norm_num
  · rw [roundF64_eval 6 (100 * 2 ^ 46) (by norm_num) (by norm_num)
      (by rw [roundHalfEven_of_floor (f := 100 * 2 ^ 46) (by norm_num) (by norm_num)]; norm_num)]
    norm_num
  · rw [roundF64_eval 64 (2 ^ 52) (by norm_num) (by norm_num)
      (by rw [roundHalfEven_of_floor (f := 2 ^ 52) (by norm_num) (by norm_num)]; norm_num)]
    norm_num
  · rw [roundF64_eval 63 (2 ^ 53) (by norm_num) (by norm_num)
      (by rw [roundHalfEven_of_floor (f := 2 ^ 53 - 1) (by norm_num) (by norm_num)]; norm_num)]
    norm_num
  · rw [roundF64_eval 63 (-2 ^ 53) (by norm_num [abs_of_neg]) (by norm_num [abs_of_neg])
      (by rw [roundHalfEven_of_floor (f := -2 ^ 53) (by norm_num) (by norm_num)]; norm_num)]
    norm_num
  · rw [roundF64_eval 64 (-2 ^ 52) (by norm_num [abs_of_neg]) (by norm_num [abs_of_neg])
      (by rw [roundHalfEven_of_floor (f := -2 ^ 52) (by norm_num) (by norm_num)]; norm_num)]
    norm_num
  · rw [roundF64_eval 70 (-(100 * 2 ^ 46)) (by norm_num [abs_of_neg]) (by norm_num [abs_of_neg])
      (by rw [roundHalfEven_of_floor (f := -(100 * 2 ^ 46)) (by norm_num) (by norm_num)]
          norm_num)]
    norm_num

/-- When no counter went back and the total delta fits 64 bits, the wrap-arounds of
the sums cancel in the differences, and the code computes with the deltas of the
specification. -/
theorem CPUPercent_of_delta_fit (fl : ℚ → ℚ) (prev cur : CPUStat)
    (hle : prev.le cur) (hfit : deltaTotal prev cur < 2 ^ 64) :
    CPUPercent fl prev cur =
      if fl (deltaTotal prev cur) ≤ 0 then 0
      else fl (fl (fl (fl (deltaTotal prev cur) - fl (deltaIdle prev cur))
        / fl (deltaTotal prev cur)) * 100) := by
  obtain ⟨h1, h2, h3, h4, h5, h6, h7, h8⟩ := hle
  have hi : idleSum prev ≤ idleSum cur := by simp only [idleSum]; omega
  have hb : busySum prev ≤ busySum cur := by simp only [busySum]; omega
  have hN : (idleSum cur + busySum cur) - (idleSum prev + busySum prev) < 2 ^ 64 := by
    have hq : (((idleSum cur + busySum cur) - (idleSum prev + busySum prev) : ℕ) : ℚ)
        = deltaTotal prev cur := by
      rw [Nat.cast_sub (by omega)]
      simp only [deltaTotal, deltaIdle, deltaBusy, Nat.cast_add]
      ring
    have : (((idleSum cur + busySum cur) - (idleSum prev + busySum prev) : ℕ) : ℚ)
        < ((2 ^ 64 : ℕ) : ℚ) := by
      rw [hq]
      exact_mod_cast hfit
    exact_mod_cast this
  have et : sub64
      (add64 (add64 cur.Idle cur.IOWait)
        (add64 (add64 (add64 (add64 (add64 cur.User cur.Nice) cur.System) cur.IRQ)
          cur.SoftIRQ) cur.Steal))
      (add64 (add64 prev.Idle prev.IOWait)
        (add64 (add64 (add64 (add64 (add64 prev.User prev.Nice) prev.System) prev.IRQ)
          prev.SoftIRQ) prev.Steal))
      = (idleSum cur + busySum cur) - (idleSum prev + busySum prev) := by
    simp only [add64, sub64, idleSum, busySum] at hN hi hb ⊢
    omega
  have ei : sub64 (add64 cur.Idle cur.IOWait) (add64 prev.Idle prev.IOWait)
      = idleSum cur - idleSum prev := by
    simp only [add64, sub64, idleSum, busySum] at hN hi hb ⊢
    omega
  have qt : (((idleSum cur + busySum cur) - (idleSum prev + busySum prev) : ℕ) : ℚ)
      = deltaTotal prev cur := by
    rw [Nat.cast_sub (by omega)]
    simp only [deltaTotal, deltaIdle, deltaBusy, Nat.cast_add]
    ring
  have qi : ((idleSum cur - idleSum prev : ℕ) : ℚ) = deltaIdle prev cur := by
    rw [Nat.cast_sub hi]
    rfl
  unfold CPUPercent
  simp only [et, ei, qt, qi]

theorem isRounding_roundF64 : IsRounding roundF64 :=
  ⟨roundF64_monotone, roundF64_idem, by simp [roundF64], roundF64_values_wrap.1,
    roundF64_values_wrap.2.1⟩

theorem roundHalfEven_err (q : ℚ) : |(roundHalfEven q : ℚ) - q| ≤ 1 / 2 := by
  have h1 := Int.floor_le q
  have h2 := Int.lt_floor_add_one q
  unfold roundHalfEven
  split_ifs <;> rw [abs_le] <;> constructor <;> push_cast <;> linarith

/-- The rounding to `float64` has a relative error of at most `2 ^ -53`. -/
theorem roundF64_err (x : ℚ) : |roundF64 x - x| ≤ 1 / 2 ^ 53 * |x| := by
  by_cases hx : x = 0
  · simp [roundF64, hx]
  · have hs : (0 : ℚ) < 2 ^ (binade x - 52) := zpow_pos (by norm_num) _
    have hq := roundHalfEven_err (x / 2 ^ (binade x - 52))
    have hb := binade_le hx
    rw [two_zpow_52] at hb
    have e : roundF64 x - x
        = ((roundHalfEven (x / 2 ^ (binade x - 52)) : ℚ) - x / 2 ^ (binade x - 52))
          * 2 ^ (binade x - 52) := by
      unfold roundF64
      rw [if_neg hx, sub_mul, div_mul_cancel₀ _ hs.ne']
    rw [e, abs_mul, abs_of_pos hs]
    have := mul_le_mul_of_nonneg_right hq hs.le
    linarith

/-- The error of a rounded evaluation of `(T - I) / T * 100`, every rounding having
a relative error of at most `u`. -/
theorem formula_error (u T I a b d q p : ℚ) (hu0 : 0 ≤ u) (hu : u ≤ 1 / 4)
    (hT : 0 < T) (hI : 0 ≤ I) (hIT : I ≤ T)
    (ha : |a - T| ≤ u * |T|) (hb : |b - I| ≤ u * |I|)
    (hd : |d - (a - b)| ≤ u * |a - b|) (hq : |q - d / a| ≤ u * |d / a|)
    (hp : |p - q * 100| ≤ u * |q * 100|)
    (hb0 : 0 ≤ b) (hba : b ≤ a) (hd0 : 0 ≤ d) (hda : d ≤ a) (hq0 : 0 ≤ q) (hq1 : q ≤ 1) :
    |p - (T - I) / T * 100| ≤ 600 * u := by
  rw [abs_of_pos hT, abs_le] at ha
  rw [abs_of_nonneg hI, abs_le] at hb
  have huT : 0 ≤ u * T := mul_nonneg hu0 hT.le
  have huT4 : 0 ≤ (1 / 4 - u) * T := mul_nonneg (by linarith) hT.le
  have huuT : 0 ≤ u * (u * T) := mul_nonneg hu0 huT
  have huT4u : 0 ≤ u * ((1 / 4 - u) * T) := mul_nonneg hu0 huT4
  have huTI : 0 ≤ u * (T - I) := mul_nonneg hu0 (by linarith)
  have ha0 : 0 < a := by linarith
  have hr0 : 0 ≤ d / a := div_nonneg hd0 ha0.le
  have hr1 : d / a ≤ 1 := (div_le_one ha0).mpr hda
  rw [abs_of_nonneg (sub_nonneg.mpr hba), abs_le] at hd
  rw [abs_of_nonneg hr0, abs_le] at hq
  rw [abs_of_nonneg (mul_nonneg hq0 (by norm_num)), abs_le] at hp
  have huq : u * (q * 100) ≤ 100 * u := by
    have := mul_le_of_le_one_right hu0 hq1
    linarith
  have hur : u * (d / a) ≤ u := mul_le_of_le_one_right hu0 hr1
  have hub : u * (a - b) ≤ u * a := mul_le_mul_of_nonneg_left (by linarith) hu0
  have hx1 : d / a - (a - b) / a ≤ u := by
    rw [← sub_div, div_le_iff₀ ha0]
    linarith
  have hx2 : -u ≤ d / a - (a - b) / a := by
    rw [← sub_div, le_div_iff₀ ha0]
    linarith
  have ey : (T - I) / T = 1 - I / T := by
    rw [sub_div, div_self hT.ne']
  have ez : (a - b) / a = 1 - b / a := by
    rw [sub_div, div_self ha0.ne']
  have hw0 : 0 ≤ I / T := div_nonneg hI hT.le
  have hwT : I / T * T = I := div_mul_cancel₀ _ hT.ne'
  generalize I / T = w at hw0 hwT ey ⊢
  have huwT : u * (w * T) = u * I := by rw [hwT]
  have hz1 : b / a ≤ w + 3 * u := by
    rw [div_le_iff₀ ha0]
    have h1 : 0 ≤ (w + 3 * u) * (a - (T - u * T)) :=
      mul_nonneg (by linarith) (by linarith)
    linarith
  have hz2 : w - 3 * u ≤ b / a := by
    rw [le_div_iff₀ ha0]
    by_cases hc : w - 3 * u ≤ 0
    · have := mul_nonneg (neg_nonneg.mpr hc) ha0.le
      linarith
    · have h1 : 0 ≤ (w - 3 * u) * (T + u * T - a) :=
        mul_nonneg (by linarith) (by linarith)
      linarith
  rw [abs_le, ey]
  rw [ez] at hx1 hx2
  constructor <;> linarith

theorem deltaIdle_bounds {prev cur : CPUStat} (hle : prev.le cur) :
    0 ≤ deltaIdle prev cur ∧ deltaIdle prev cur ≤ deltaTotal prev cur := by
  obtain ⟨h1, h2, h3, h4, h5, h6, h7, h8⟩ := hle
  have hi : ((idleSum prev : ℕ) : ℚ) ≤ idleSum cur := by
    exact_mod_cast (by simp only [idleSum]; omega : idleSum prev ≤ idleSum cur)
  have hb : ((busySum prev : ℕ) : ℚ) ≤ busySum cur := by
    exact_mod_cast (by simp only [busySum]; omega : busySum prev ≤ busySum cur)
  simp only [deltaTotal, deltaIdle, deltaBusy]
  constructor <;> linarith

/-- C5 (amended): for two samples in which no counter of `cur` is below the same
counter of `prev` and `0 < Δtotal < 2 ^ 64`, `CPUPercent prev cur` is
`(Δtotal - Δidle) / Δtotal * 100` evaluated in `float64`: the two deltas are
converted to `float64` and the subtraction, the division and the multiplication are
each rounded to the nearest `float64`; this value lies within `2 ^ -43` of the exact
`(Δtotal - Δidle) / Δtotal * 100`.  For `prev = {User:100, Idle:100}` and
`cur = {User:150, Idle:120}` the result is the `float64`
`5026338869833143 / 2 ^ 46`, printed `71.42857142857143`, which lies within
`2 ^ -48` of `500/7`. -/
theorem C5_CPUPercent_formula (prev cur : CPUStat)
    (hle : prev.le cur) (hpos : 0 < deltaTotal prev cur) (hfit : deltaTotal prev cur < 2 ^ 64) :
    CPUPercent roundF64 prev cur
      = roundF64 (roundF64 (roundF64 (roundF64 (deltaTotal prev cur)
          - roundF64 (deltaIdle prev cur)) / roundF64 (deltaTotal prev cur)) * 100) ∧
    |CPUPercent roundF64 prev cur
      - (deltaTotal prev cur - deltaIdle prev cur) / deltaTotal prev cur * 100| ≤ 1 / 2 ^ 43 ∧
    CPUPercent roundF64 ⟨100, 0, 0, 100, 0, 0, 0, 0⟩ ⟨150, 0, 0, 120, 0, 0, 0, 0⟩
      = 5026338869833143 / 2 ^ 46 ∧
    |CPUPercent roundF64 ⟨100, 0, 0, 100, 0, 0, 0, 0⟩ ⟨150, 0, 0, 120, 0, 0, 0, 0⟩ - 500 / 7|
      < 1 / 2 ^ 48 := by
  have hgen : CPUPercent roundF64 prev cur
      = roundF64 (roundF64 (roundF64 (roundF64 (deltaTotal prev cur)
          - roundF64 (deltaIdle prev cur)) / roundF64 (deltaTotal prev cur)) * 100) := by
    rw [CPUPercent_of_delta_fit roundF64 prev cur hle hfit,
      if_neg (not_le.mpr (roundF64_pos hpos))]
  have hex : CPUPercent roundF64 ⟨100, 0, 0, 100, 0, 0, 0, 0⟩ ⟨150, 0, 0, 120, 0, 0, 0, 0⟩
      = 5026338869833143 / 2 ^ 46 := by
    obtain ⟨v70, v20, v50, v57, vp⟩ := roundF64_values
    have e1 : CPUPercent roundF64 ⟨100, 0, 0, 100, 0, 0, 0, 0⟩ ⟨150, 0, 0, 120, 0, 0, 0, 0⟩
        = if roundF64 70 ≤ 0 then 0
          else roundF64 (roundF64 (roundF64 (roundF64 70 - roundF64 20) / roundF64 70) * 100) := by
      norm_num [CPUPercent, add64, sub64]
    rw [e1, v70, v20, if_neg (by norm_num), show (70 : ℚ) - 20 = 50 by norm_num, v50,
      show (50 : ℚ) / 70 = 5 / 7 by norm_num, v57, vp]
    norm_num
  refine ⟨hgen, ?_, hex, ?_⟩
  · obtain ⟨hI0, hIT⟩ := deltaIdle_bounds hle
    obtain ⟨hmono, hidem, h0, h1, _⟩ := isRounding_roundF64
    have hb0 : 0 ≤ roundF64 (deltaIdle prev cur) := by
      have := hmono hI0
      rwa [h0] at this
    have hba : roundF64 (deltaIdle prev cur) ≤ roundF64 (deltaTotal prev cur) := hmono hIT
    have ha0 : 0 < roundF64 (deltaTotal prev cur) := roundF64_pos hpos
    have hd0 : 0 ≤ roundF64 (roundF64 (deltaTotal prev cur) - roundF64 (deltaIdle prev cur)) := by
      have := hmono (sub_nonneg.mpr hba)
      rwa [h0] at this
    have hda : roundF64 (roundF64 (deltaTotal prev cur) - roundF64 (deltaIdle prev cur))
        ≤ roundF64 (deltaTotal prev cur) := by
      have := hmono (show roundF64 (deltaTotal prev cur) - roundF64 (deltaIdle prev cur)
        ≤ roundF64 (deltaTotal prev cur) by linarith)
      rwa [hidem] at this
    have hq0 : 0 ≤ roundF64 (roundF64 (roundF64 (deltaTotal prev cur)
        - roundF64 (deltaIdle prev cur)) / roundF64 (deltaTotal prev cur)) := by
      have := hmono (div_nonneg hd0 ha0.le)
      rwa [h0] at this
    have hq1 : roundF64 (roundF64 (roundF64 (deltaTotal prev cur)
        - roundF64 (deltaIdle prev cur)) / roundF64 (deltaTotal prev cur)) ≤ 1 := by
      have := hmono ((div_le_one ha0).mpr hda)
      rwa [h1] at this
    rw [hgen]
    have := formula_error (1 / 2 ^ 53) _ _ _ _ _ _ _ (by norm_num) (by norm_num) hpos hI0 hIT
      (roundF64_err _) (roundF64_err _) (roundF64_err _) (roundF64_err _) (roundF64_err _)
      hb0 hba hd0 hda hq0 hq1
    refine le_trans this ?_
    norm_num
  · rw [hex, abs_lt]
    constructor <;> norm_num

theorem C5_CPUPercent_formula_witness :
    CPUPercent roundF64 ⟨1, 2, 3, 4, 5, 6, 7, 8⟩ ⟨10, 20, 30, 40, 50, 60, 70, 80⟩
      = roundF64 (roundF64 (roundF64 (roundF64
            (deltaTotal ⟨1, 2, 3, 4, 5, 6, 7, 8⟩ ⟨10, 20, 30, 40, 50, 60, 70, 80⟩)
          - roundF64 (deltaIdle ⟨1, 2, 3, 4, 5, 6, 7, 8⟩ ⟨10, 20, 30, 40, 50, 60, 70, 80⟩))
          / roundF64 (deltaTotal ⟨1, 2, 3, 4, 5, 6, 7, 8⟩ ⟨10, 20, 30, 40, 50, 60, 70, 80⟩))
          * 100) ∧
    |CPUPercent roundF64 ⟨1, 2, 3, 4, 5, 6, 7, 8⟩ ⟨10, 20, 30, 40, 50, 60, 70, 80⟩
      - (deltaTotal ⟨1, 2, 3, 4, 5, 6, 7, 8⟩ ⟨10, 20, 30, 40, 50, 60, 70, 80⟩
          - deltaIdle ⟨1, 2, 3, 4, 5, 6, 7, 8⟩ ⟨10, 20, 30, 40, 50, 60, 70, 80⟩)
        / deltaTotal ⟨1, 2, 3, 4, 5, 6, 7, 8⟩ ⟨10, 20, 30, 40, 50, 60, 70, 80⟩ * 100|
      ≤ 1 / 2 ^ 43 ∧
    CPUPercent roundF64 ⟨100, 0, 0, 100, 0, 0, 0, 0⟩ ⟨150, 0, 0, 120, 0, 0, 0, 0⟩
      = 5026338869833143 / 2 ^ 46 ∧
    |CPUPercent roundF64 ⟨100, 0, 0, 100, 0, 0, 0, 0⟩ ⟨150, 0, 0, 120, 0, 0, 0, 0⟩ - 500 / 7|
      < 1 / 2 ^ 48 :=
  C5_CPUPercent_formula ⟨1, 2, 3, 4, 5, 6, 7, 8⟩ ⟨10, 20, 30, 40, 50, 60, 70, 80⟩
    (by simp [CPUStat.le])
    (by norm_num [deltaTotal, deltaIdle, deltaBusy, idleSum, busySum])
    (by norm_num [deltaTotal, deltaIdle, deltaBusy, idleSum, busySum])

/-- C5 as stated fails, in two ways.  First, the code computes in `float64`: for
`prev = {User:100, Idle:100}` and `cur = {User:150, Idle:120}`, where no counter
went back and `Δtotal = 70 > 0`, the result is the `float64`
`5026338869833143 / 2 ^ 46`, not `(70 - 20) / 70 * 100 = 500/7`, which is no
`float64`.  Second, the sums of the code wrap around: with `prev` all zero and `cur`
having `Idle = 2 ^ 64 - 1` and `User = 2`, no counter went back and
`Δtotal = 2 ^ 64 + 1 > 0`, but the result is `-100 * 2 ^ 64`, while
`(Δtotal - Δidle) / Δtotal * 100` is `200 / (2 ^ 64 + 1)` exactly and `0` when
evaluated in `float64`. -/
theorem C5_counterexample :
    (CPUStat.le ⟨100, 0, 0, 100, 0, 0, 0, 0⟩ ⟨150, 0, 0, 120, 0, 0, 0, 0⟩ ∧
      0 < deltaTotal ⟨100, 0, 0, 100, 0, 0, 0, 0⟩ ⟨150, 0, 0, 120, 0, 0, 0, 0⟩ ∧
      (deltaTotal ⟨100, 0, 0, 100, 0, 0, 0, 0⟩ ⟨150, 0, 0, 120, 0, 0, 0, 0⟩
          - deltaIdle ⟨100, 0, 0, 100, 0, 0, 0, 0⟩ ⟨150, 0, 0, 120, 0, 0, 0, 0⟩)
        / deltaTotal ⟨100, 0, 0, 100, 0, 0, 0, 0⟩ ⟨150, 0, 0, 120, 0, 0, 0, 0⟩ * 100 = 500 / 7 ∧
      CPUPercent roundF64 ⟨100, 0, 0, 100, 0, 0, 0, 0⟩ ⟨150, 0, 0, 120, 0, 0, 0, 0⟩ ≠ 500 / 7) ∧
    (CPUStat.le ⟨0, 0, 0, 0, 0, 0, 0, 0⟩ ⟨2, 0, 0, 2 ^ 64 - 1, 0, 0, 0, 0⟩ ∧
      CPUStat.isU64 ⟨0, 0, 0, 0, 0, 0, 0, 0⟩ ∧
      CPUStat.isU64 ⟨2, 0, 0, 2 ^ 64 - 1, 0, 0, 0, 0⟩ ∧
      0 < deltaTotal ⟨0, 0, 0, 0, 0, 0, 0, 0⟩ ⟨2, 0, 0, 2 ^ 64 - 1, 0, 0, 0, 0⟩ ∧
      CPUPercent roundF64 ⟨0, 0, 0, 0, 0, 0, 0, 0⟩ ⟨2, 0, 0, 2 ^ 64 - 1, 0, 0, 0, 0⟩
        = -(100 * 2 ^ 64) ∧
      (deltaTotal ⟨0, 0, 0, 0, 0, 0, 0, 0⟩ ⟨2, 0, 0, 2 ^ 64 - 1, 0, 0, 0, 0⟩
          - deltaIdle ⟨0, 0, 0, 0, 0, 0, 0, 0⟩ ⟨2, 0, 0, 2 ^ 64 - 1, 0, 0, 0, 0⟩)
        / deltaTotal ⟨0, 0, 0, 0, 0, 0, 0, 0⟩ ⟨2, 0, 0, 2 ^ 64 - 1, 0, 0, 0, 0⟩ * 100
        = 200 / (2 ^ 64 + 1) ∧
      roundF64 (roundF64 (roundF64
            (roundF64 (deltaTotal ⟨0, 0, 0, 0, 0, 0, 0, 0⟩ ⟨2, 0, 0, 2 ^ 64 - 1, 0, 0, 0, 0⟩)
          - roundF64 (deltaIdle ⟨0, 0, 0, 0, 0, 0, 0, 0⟩ ⟨2, 0, 0, 2 ^ 64 - 1, 0, 0, 0, 0⟩))
          / roundF64 (deltaTotal ⟨0, 0, 0, 0, 0, 0, 0, 0⟩ ⟨2, 0, 0, 2 ^ 64 - 1, 0, 0, 0, 0⟩))
          * 100) = 0) := by
  obtain ⟨v70, v20, v50, v57, vp⟩ := roundF64_values
  obtain ⟨v1, _, vbig1, vbig, vneg, vdiv, vmul⟩ := roundF64_values_wrap
  refine ⟨⟨by simp [CPUStat.le], ?_, ?_, ?_⟩,
    ⟨by simp [CPUStat.le], by simp [CPUStat.isU64], by simp [CPUStat.isU64], ?_, ?_, ?_, ?_⟩⟩
  · norm_num [deltaTotal, deltaIdle, deltaBusy, idleSum, busySum]
  · norm_num [deltaTotal, deltaIdle, deltaBusy, idleSum, busySum]
  · have e1 : CPUPercent roundF64 ⟨100, 0, 0, 100, 0, 0, 0, 0⟩ ⟨150, 0, 0, 120, 0, 0, 0, 0⟩
        = if roundF64 70 ≤ 0 then 0
          else roundF64 (roundF64 (roundF64 (roundF64 70 - roundF64 20) / roundF64 70) * 100) := by
      norm_num [CPUPercent, add64, sub64]
    rw [e1, v70, v20, if_neg (by norm_num), show (70 : ℚ) - 20 = 50 by norm_num, v50,
      show (50 : ℚ) / 70 = 5 / 7 by norm_num, v57, vp]
    norm_num
  · norm_num [deltaTotal, deltaIdle, deltaBusy, idleSum, busySum]
  · have e1 : CPUPercent roundF64 ⟨0, 0, 0, 0, 0, 0, 0, 0⟩ ⟨2, 0, 0, 2 ^ 64 - 1, 0, 0, 0, 0⟩
        = if roundF64 1 ≤ 0 then 0
          else roundF64 (roundF64 (roundF64 (roundF64 1 - roundF64 18446744073709551615)
            / roundF64 1) * 100) := by
      norm_num [CPUPercent, add64, sub64]
    rw [e1, v1, vbig, if_neg (by norm_num), vneg, vdiv, vmul]
    norm_num
  · norm_num [deltaTotal, deltaIdle, deltaBusy, idleSum, busySum]
  · have e1 : deltaTotal ⟨0, 0, 0, 0, 0, 0, 0, 0⟩ ⟨2, 0, 0, 2 ^ 64 - 1, 0, 0, 0, 0⟩
        = 18446744073709551617 := by
      norm_num [deltaTotal, deltaIdle, deltaBusy, idleSum, busySum]
    have e2 : deltaIdle ⟨0, 0, 0, 0, 0, 0, 0, 0⟩ ⟨2, 0, 0, 2 ^ 64 - 1, 0, 0, 0, 0⟩
        = 18446744073709551615 := by
      norm_num [deltaTotal, deltaIdle, deltaBusy, idleSum, busySum]
    rw [e1, e2, vbig1, vbig]
    simp [roundF64]

/-! ## C6: the merged task list -/

theorem taskLess_eq_false {a b : Task} :
    taskLess b a = false ↔ b.At.unixNano ≤ a.At.unixNano := by
  simp [taskLess, Time.After]

/-- Insertion sort meets the contract of `sort.Slice` for the comparison of the
merge. -/
theorem insertionSortSlice_spec : SortSliceSpec insertionSortSlice taskLess := by
  intro xs
  haveI : IsTotal Task (fun a b => taskLess b a = false) :=
    ⟨fun a b => by simp only [taskLess_eq_false]; exact le_total _ _⟩
  haveI : IsTrans Task (fun a b => taskLess b a = false) :=
    ⟨fun a b c hab hbc => by
      simp only [taskLess_eq_false] at hab hbc ⊢
      exact le_trans hbc hab⟩
  exact ⟨List.perm_insertionSort _ xs, List.sorted_insertionSort _ xs⟩

theorem refreshTasks_eq (sortSlice : (Task → Task → Bool) → List Task → List Task)
    (cronTasks toolTasks : List Task) (subagents : List SubagentRun) :
    refreshTasks sortSlice cronTasks toolTasks subagents
      = (sortSlice taskLess (cronTasks ++ toolTasks ++ subagents.map subagentTask)).take 40 := by
  unfold refreshTasks
  simp only
  split
  · rfl
  · rename_i h
    rw [List.take_of_length_le (by omega)]

/-- C6: the published task list is a sub-multiset of the concatenation of the cron,
tool-result and subagent events, of length `min 40 total`; its timestamps are
non-increasing along the list; and every event left out has a timestamp not later
than the timestamp of any event kept. -/
theorem C6_merged_tasks (sortSlice : (Task → Task → Bool) → List Task → List Task)
    (hsort : SortSliceSpec sortSlice taskLess)
    (cronTasks toolTasks : List Task) (subagents : List SubagentRun) :
    (refreshTasks sortSlice cronTasks toolTasks subagents).Subperm
      (cronTasks ++ toolTasks ++ subagents.map subagentTask) ∧
    (refreshTasks sortSlice cronTasks toolTasks subagents).length
      = min 40 (cronTasks ++ toolTasks ++ subagents.map subagentTask).length ∧
    (refreshTasks sortSlice cronTasks toolTasks subagents).Pairwise
      (fun a b => b.At.unixNano ≤ a.At.unixNano) ∧
    ∃ dropped, (refreshTasks sortSlice cronTasks toolTasks subagents ++ dropped).Perm
        (cronTasks ++ toolTasks ++ subagents.map subagentTask) ∧
      ∀ d ∈ dropped, ∀ k ∈ refreshTasks sortSlice cronTasks toolTasks subagents,
        d.At.unixNano ≤ k.At.unixNano := by
  rw [refreshTasks_eq]
  obtain ⟨hperm, hsorted⟩ := hsort (cronTasks ++ toolTasks ++ subagents.map subagentTask)
  have hsorted2 : (sortSlice taskLess
      (cronTasks ++ toolTasks ++ subagents.map subagentTask)).Pairwise
      (fun a b => b.At.unixNano ≤ a.At.unixNano) :=
    hsorted.imp (fun h => taskLess_eq_false.mp h)
  refine ⟨?_, ?_, ?_, ?_⟩
  · exact (List.take_sublist _ _).subperm.trans hperm.subperm
  · rw [List.length_take, hperm.length_eq]
  · exact hsorted2.sublist (List.take_sublist _ _)
  · refine ⟨(sortSlice taskLess
      (cronTasks ++ toolTasks ++ subagents.map subagentTask)).drop 40, ?_, ?_⟩
    · rw [List.take_append_drop]
      exact hperm
    · intro d hd k hk
      have := hsorted2
      rw [← List.take_append_drop 40 (sortSlice taskLess
        (cronTasks ++ toolTasks ++ subagents.map subagentTask)), List.pairwise_append] at this
      exact this.2.2 k hk d hd

theorem C6_merged_tasks_witness :
    (refreshTasks insertionSortSlice [sampleCronTask] [sampleToolTask] [sampleRun]).Subperm
      ([sampleCronTask] ++ [sampleToolTask] ++ [sampleRun].map subagentTask) ∧
    (refreshTasks insertionSortSlice [sampleCronTask] [sampleToolTask] [sampleRun]).length
      = min 40 ([sampleCronTask] ++ [sampleToolTask] ++ [sampleRun].map subagentTask).length ∧
    (refreshTasks insertionSortSlice [sampleCronTask] [sampleToolTask] [sampleRun]).Pairwise
      (fun a b => b.At.unixNano ≤ a.At.unixNano) ∧
    ∃ dropped,
      (refreshTasks insertionSortSlice [sampleCronTask] [sampleToolTask] [sampleRun]
          ++ dropped).Perm
        ([sampleCronTask] ++ [sampleToolTask] ++ [sampleRun].map subagentTask) ∧
      ∀ d ∈ dropped,
        ∀ k ∈ refreshTasks insertionSortSlice [sampleCronTask] [sampleToolTask] [sampleRun],
        d.At.unixNano ≤ k.At.unixNano :=
  C6_merged_tasks insertionSortSlice insertionSortSlice_spec
    [sampleCronTask] [sampleToolTask] [sampleRun]

/-! ## Lemmas on the record decoders -/

theorem joinLines_nil : joinLines [] = [] := rfl

theorem joinLines_cons (l : GoString) (ls : List GoString) :
    joinLines (l :: ls) = l ++ NL :: joinLines ls := by
  simp [joinLines]

theorem joinLines_append (xs ys : List GoString) :
    joinLines (xs ++ ys) = joinLines xs ++ joinLines ys := by
  simp [joinLines]

theorem fileLinesSpec_joinLines {lines : List GoString} (h : ∀ l ∈ lines, NL ∉ l) :
    fileLinesSpec (joinLines lines) = lines := by
  induction lines with
  | nil => exact fileLinesSpec_nil
  | cons l ls ih =>
    rw [joinLines_cons, fileLinesSpec_append _ (h l (List.mem_cons_self _ _)),
      ih (fun x hx => h x (List.mem_cons_of_mem _ hx))]

theorem length_joinLines_insert (xs ys : List GoString) (b : GoString) :
    (joinLines (xs ++ ys)).length ≤ (joinLines (xs ++ b :: ys)).length := by
  rw [joinLines_append, joinLines_append, joinLines_cons]
  simp only [List.length_append, List.length_cons]
  omega

theorem ReadLatestCronRun_small (decode : GoString → Option CronRunRec) (f : List Byte)
    (hsize : f.length ≤ tailMax) :
    ReadLatestCronRun decode (some f)
      = .ok (cronLoop decode (lastN 200 (fileLinesSpec f)).reverse) := by
  unfold ReadLatestCronRun
  simp only
  rw [tailLines_small f 200 hsize (by decide)]
  rfl

theorem ReadToolTasks_small (decode : GoString → Option ToolRec) (now : Nat → Time)
    (f : List Byte) (maxLines maxTasks : Int) (hsize : f.length ≤ tailMax)
    (hn : 0 < maxLines) :
    ReadToolTasks decode now (some f) maxLines maxTasks
      = .ok (toolLoop decode now maxTasks
          (lastN maxLines.toNat (fileLinesSpec f)).reverse []).reverse := by
  unfold ReadToolTasks
  simp only
  rw [tailLines_small f maxLines hsize hn]

/-- A line whose trimmed text does not decode is passed over by the cron loop. -/
theorem cronLoop_skip (decode : GoString → Option CronRunRec) {bad : GoString}
    (hbad : decode (TrimSpace bad) = none) (xs ys : List GoString) :
    cronLoop decode (xs ++ bad :: ys) = cronLoop decode (xs ++ ys) := by
  induction xs with
  | nil =>
    simp only [List.nil_append]
    rw [cronLoop]
    simp only [hbad]
    split <;> rfl
  | cons x xs ih =>
    simp only [List.cons_append]
    rw [cronLoop, cronLoop, ih]

/-- Once `maxTasks` events are gathered the tool loop stops. -/
theorem toolLoop_full (decode : GoString → Option ToolRec) (now : Nat → Time)
    (maxTasks : Int) (ls : List GoString) (tasks : List Task)
    (h : ¬ ((tasks.length : Int) < maxTasks)) :
    toolLoop decode now maxTasks ls tasks = tasks := by
  cases ls with
  | nil => rfl
  | cons l rest => rw [toolLoop, if_pos h]

/-- A line whose trimmed text does not decode is passed over by the tool loop. -/
theorem toolLoop_skip (decode : GoString → Option ToolRec) (now : Nat → Time)
    (maxTasks : Int) {bad : GoString} (hbad : decode (TrimSpace bad) = none)
    (xs ys : List GoString) (tasks : List Task) :
    toolLoop decode now maxTasks (xs ++ bad :: ys) tasks
      = toolLoop decode now maxTasks (xs ++ ys) tasks := by
  induction xs generalizing tasks with
  | nil =>
    simp only [List.nil_append]
    by_cases h : (tasks.length : Int) < maxTasks
    · rw [toolLoop, if_neg (not_not.mpr h)]
      simp only [hbad]
      split <;> rfl
    · rw [toolLoop_full _ _ _ _ _ h, toolLoop_full _ _ _ _ _ h]
  | cons x xs ih =>
    simp only [List.cons_append]
    rw [toolLoop, toolLoop]
    simp only [ih]

/-! ### The sample lines under the loops -/

theorem length_joinLines (ls : List GoString) :
    (joinLines ls).length = (ls.map (fun l => l.length + 1)).sum := by
  induction ls with
  | nil => rfl
  | cons l ls ih =>
    rw [joinLines_cons]
    simp only [List.length_append, List.length_cons, List.map_cons, List.sum_cons, ih]
    omega

theorem cronLoop_cons_started (rest : List GoString) :
    cronLoop sampleCronDecode (lineCronStarted :: rest) = cronLoop sampleCronDecode rest := by
  have h1 : TrimSpace lineCronStarted = lineCronStarted := by decide
  have h2 : ¬ lineCronStarted = [] := by decide
  have h3 : sampleCronDecode lineCronStarted = some recCronStarted := by decide
  have h4 : recCronStarted.Action ≠ lit "finished" := by decide
  rw [cronLoop]
  simp only [h1, h2, h3, h4, if_false, if_true, ne_eq, not_false_eq_true]

theorem cronLoop_started (n : Nat) (rest : List GoString) :
    cronLoop sampleCronDecode (List.replicate n lineCronStarted ++ rest)
      = cronLoop sampleCronDecode rest := by
  induction n with
  | zero => rfl
  | succ n ih => rw [List.replicate_succ, List.cons_append, cronLoop_cons_started, ih]

theorem cronLoop_cons_finished (rest : List GoString) :
    cronLoop sampleCronDecode (lineCronFinished :: rest)
      = (⟨UnixMilli 1700000005000, LevelInfo, SourceCron, lit "j1", lit "done"⟩, true) := by
  have h1 : TrimSpace lineCronFinished = lineCronFinished := by decide
  have h2 : ¬ lineCronFinished = [] := by decide
  have h3 : sampleCronDecode lineCronFinished = some recCronFinished := by decide
  have h4 : ¬ recCronFinished.Action ≠ lit "finished" := by decide
  have h5 : ¬ recCronFinished.Status = lit "error" := by decide
  have h6 : ¬ recCronFinished.Error ≠ [] := by decide
  have h7 : firstLine recCronFinished.Summary = lit "done" := by decide
  have h8 : recCronFinished.TS = 1700000005000 := rfl
  have h9 : recCronFinished.JobID = lit "j1" := rfl
  rw [cronLoop]
  simp only [h1, h2, h3, h4, h5, h6, h7, h8, h9, if_false]

theorem sample_lines_no_newline :
    NL ∉ lineCronStarted ∧ NL ∉ lineCronFinished ∧ NL ∉ lineGarbage := by decide

theorem sample_lines_length :
    lineCronStarted.length = 52 ∧ lineCronFinished.length = 90 ∧ lineGarbage.length = 8 := by
  decide

/-! ## C7: one malformed line -/

/-- C7 (amended): for a file made of newline-terminated lines, inserting one
malformed line (its trimmed text does not decode) at any position does not change
what `ReadLatestCronRun` and `ReadToolTasks` return, and no error is returned,
provided the file with the line inserted fits the 262144-byte window and has at
most as many lines as the decoder reads from the tail (200 for
`ReadLatestCronRun`, `maxLines` for `ReadToolTasks`). -/
theorem C7_malformed_line_skipped
    (decodeCron : GoString → Option CronRunRec) (preC postC : List GoString) (badC : GoString)
    (decodeTool : GoString → Option ToolRec) (now : Nat → Time)
    (preT postT : List GoString) (badT : GoString) (maxLines maxTasks : Int)
    (hlinesC : ∀ l ∈ preC ++ badC :: postC, NL ∉ l)
    (hbadC : decodeCron (TrimSpace badC) = none)
    (hsizeC : (joinLines (preC ++ badC :: postC)).length ≤ 262144)
    (hcountC : (preC ++ badC :: postC).length ≤ 200)
    (hlinesT : ∀ l ∈ preT ++ badT :: postT, NL ∉ l)
    (hbadT : decodeTool (TrimSpace badT) = none)
    (hsizeT : (joinLines (preT ++ badT :: postT)).length ≤ 262144)
    (hcountT : ((preT ++ badT :: postT).length : Int) ≤ maxLines) :
    (∃ r, ReadLatestCronRun decodeCron (some (joinLines (preC ++ postC))) = .ok r ∧
      ReadLatestCronRun decodeCron (some (joinLines (preC ++ badC :: postC))) = .ok r) ∧
    (∃ r, ReadToolTasks decodeTool now (some (joinLines (preT ++ postT))) maxLines maxTasks
        = .ok r ∧
      ReadToolTasks decodeTool now (some (joinLines (preT ++ badT :: postT))) maxLines maxTasks
        = .ok r) := by
  constructor
  · have hlines0 : ∀ l ∈ preC ++ postC, NL ∉ l := by
      intro l hl
      apply hlinesC l
      simp only [List.mem_append, List.mem_cons] at hl ⊢
      tauto
    have hsize0 : (joinLines (preC ++ postC)).length ≤ tailMax :=
      le_trans (length_joinLines_insert preC postC badC) hsizeC
    have hcount0 : (preC ++ postC).length ≤ 200 := by
      simp only [List.length_append, List.length_cons] at hcountC ⊢
      omega
    refine ⟨_, ReadLatestCronRun_small decodeCron _ hsize0, ?_⟩
    rw [ReadLatestCronRun_small decodeCron _ hsizeC, fileLinesSpec_joinLines hlinesC,
      fileLinesSpec_joinLines hlines0, lastN_of_length_le hcountC, lastN_of_length_le hcount0]
    simp only [List.reverse_append, List.reverse_cons, List.append_assoc, List.singleton_append]
    rw [cronLoop_skip decodeCron hbadC]
  · have hlines0 : ∀ l ∈ preT ++ postT, NL ∉ l := by
      intro l hl
      apply hlinesT l
      simp only [List.mem_append, List.mem_cons] at hl ⊢
      tauto
    have hsize0 : (joinLines (preT ++ postT)).length ≤ tailMax :=
      le_trans (length_joinLines_insert preT postT badT) hsizeT
    have hpos : 0 < maxLines := by
      simp only [List.length_append, List.length_cons] at hcountT
      omega
    have hcount1 : (preT ++ badT :: postT).length ≤ maxLines.toNat := by omega
    have hcount0 : (preT ++ postT).length ≤ maxLines.toNat := by
      simp only [List.length_append, List.length_cons] at hcount1 ⊢
      omega
    refine ⟨_, ReadToolTasks_small decodeTool now _ maxLines maxTasks hsize0 hpos, ?_⟩
    rw [ReadToolTasks_small decodeTool now _ maxLines maxTasks hsizeT hpos,
      fileLinesSpec_joinLines hlinesT, fileLinesSpec_joinLines hlines0,
      lastN_of_length_le hcount1, lastN_of_length_le hcount0]
    simp only [List.reverse_append, List.reverse_cons, List.append_assoc, List.singleton_append]
    rw [toolLoop_skip decodeTool now maxTasks hbadT]

set_option maxRecDepth 8192 in
theorem C7_malformed_line_skipped_witness :
    (∃ r, ReadLatestCronRun sampleCronDecode
        (some (joinLines ([lineCronFinished] ++ [lineCronStarted]))) = .ok r ∧
      ReadLatestCronRun sampleCronDecode
        (some (joinLines ([lineCronFinished] ++ lineGarbage :: [lineCronStarted]))) = .ok r) ∧
    (∃ r, ReadToolTasks sampleToolDecode sampleClock
        (some (joinLines ([lineToolOk] ++ [lineToolBoom]))) 400 25 = .ok r ∧
      ReadToolTasks sampleToolDecode sampleClock
        (some (joinLines ([lineToolOk] ++ lineGarbage :: [lineToolBoom]))) 400 25 = .ok r) :=
  C7_malformed_line_skipped sampleCronDecode [lineCronFinished] [lineCronStarted] lineGarbage
    sampleToolDecode sampleClock [lineToolOk] [lineToolBoom] lineGarbage 400 25
    (by decide) (by decide) (by decide) (by decide)
    (by decide) (by decide) (by decide) (by decide)

theorem cronLoop_cons_garbage (rest : List GoString) :
    cronLoop sampleCronDecode (lineGarbage :: rest) = cronLoop sampleCronDecode rest :=
  cronLoop_skip sampleCronDecode (by decide) [] rest

/-- The cron run log of the counterexamples: one finished run followed by `n` lines
of runs that started, and then the lines `extra`. -/
theorem sample_cron_log (n : Nat) (extra : List GoString)
    (hextra : ∀ l ∈ extra, NL ∉ l)
    (hsize : (joinLines (lineCronFinished :: List.replicate n lineCronStarted ++ extra)).length
      ≤ tailMax) :
    ReadLatestCronRun sampleCronDecode
        (some (joinLines (lineCronFinished :: List.replicate n lineCronStarted ++ extra)))
      = .ok (cronLoop sampleCronDecode
          (lastN 200 (lineCronFinished :: List.replicate n lineCronStarted ++ extra)).reverse) := by
  rw [ReadLatestCronRun_small sampleCronDecode _ hsize, fileLinesSpec_joinLines]
  intro l hl
  simp only [List.cons_append, List.mem_cons, List.mem_append, List.mem_replicate] at hl
  rcases hl with e | ⟨_, e⟩ | h
  · exact e ▸ sample_lines_no_newline.2.1
  · exact e ▸ sample_lines_no_newline.1
  · exact hextra l h

set_option maxRecDepth 65536 in
/-- C7 as stated fails for both decoders.  A cron run log of 200 valid lines whose
first line is the only finished run decodes to that run; with one malformed line
appended it has 201 lines, the tail of 200 lines no longer holds the first line,
and the decoder reports no run.  A session log of one tool-result line read with
`maxLines = 1` decodes to one event; with one malformed line appended it decodes
to none. -/
theorem C7_counterexample :
    (∀ l ∈ lineCronFinished :: List.replicate 199 lineCronStarted,
      sampleCronDecode (TrimSpace l) ≠ none) ∧
    sampleCronDecode (TrimSpace lineGarbage) = none ∧
    ReadLatestCronRun sampleCronDecode
        (some (joinLines (lineCronFinished :: List.replicate 199 lineCronStarted ++ [])))
      = .ok (⟨UnixMilli 1700000005000, LevelInfo, SourceCron, lit "j1", lit "done"⟩, true) ∧
    ReadLatestCronRun sampleCronDecode
        (some (joinLines (lineCronFinished :: List.replicate 199 lineCronStarted
          ++ [lineGarbage])))
      = .ok (Task.empty, false) ∧
    sampleToolDecode (TrimSpace lineToolOk) ≠ none ∧
    sampleToolDecode (TrimSpace lineGarbage) = none ∧
    ReadToolTasks sampleToolDecode sampleClock (some (joinLines ([lineToolOk] ++ []))) 1 25
      = .ok [⟨UnixMilli 1700000000000, LevelInfo, SourceTool, lit "exec", lit "ok"⟩] ∧
    ReadToolTasks sampleToolDecode sampleClock
        (some (joinLines ([lineToolOk] ++ [lineGarbage]))) 1 25
      = .ok [] := by
  obtain ⟨hs, hf, hg⟩ := sample_lines_length
  refine ⟨?_, by decide, ?_, ?_, by decide, by decide, ?_, ?_⟩
  · intro l hl
    simp only [List.mem_cons, List.mem_replicate] at hl
    rcases hl with e | ⟨_, e⟩
    · subst e; decide
    · subst e; decide
  · rw [sample_cron_log 199 [] (by simp)]
    · have e : lastN 200 (lineCronFinished :: List.replicate 199 lineCronStarted ++ [])
          = lineCronFinished :: List.replicate 199 lineCronStarted :=
        lastN_of_length_le (by simp)
      rw [e, List.reverse_cons, List.reverse_replicate, cronLoop_started,
        cronLoop_cons_finished]
    · rw [length_joinLines]
      simp [hs, hf, tailMax]
  · rw [sample_cron_log 199 [lineGarbage] (by simp [sample_lines_no_newline.2.2])]
    · have e : lastN 200 (lineCronFinished :: List.replicate 199 lineCronStarted
          ++ [lineGarbage]) = List.replicate 199 lineCronStarted ++ [lineGarbage] := by
        simp [lastN]
      rw [e, List.reverse_append, List.reverse_replicate, List.reverse_singleton,
        List.singleton_append, cronLoop_cons_garbage,
        ← List.append_nil (List.replicate 199 lineCronStarted), cronLoop_started]
      rfl
    · rw [length_joinLines]
      simp [hs, hf, hg, tailMax]
  · rw [ReadToolTasks_small _ _ _ _ _ (by decide) (by decide)]
    decide
  · rw [ReadToolTasks_small _ _ _ _ _ (by decide) (by decide)]
    decide

/-! ## C8: the latest finished cron run -/

/-- Lines that do not decode to a finished run are passed over by the cron loop. -/
theorem cronLoop_skip_all (decode : GoString → Option CronRunRec) (xs ys : List GoString)
    (h : ∀ l ∈ xs, ∀ r, decode (TrimSpace l) = some r → r.Action ≠ lit "finished") :
    cronLoop decode (xs ++ ys) = cronLoop decode ys := by
  induction xs with
  | nil => rfl
  | cons x xs ih =>
    have ih2 := ih (fun l hl => h l (List.mem_cons_of_mem _ hl))
    have hx := h x (List.mem_cons_self _ _)
    rw [List.cons_append, cronLoop]
    simp only
    split
    · exact ih2
    · split
      · exact ih2
      · rename_i rec hrec
        rw [if_pos (hx rec hrec)]
        exact ih2

/-- A line that decodes to a finished run ends the cron loop with its event. -/
theorem cronLoop_hit (decode : GoString → Option CronRunRec) (hempty : decode [] = none)
    (ln : GoString) (rest : List GoString) (rec : CronRunRec)
    (hrec : decode (TrimSpace ln) = some rec) (hfin : rec.Action = lit "finished") :
    cronLoop decode (ln :: rest)
      = (⟨UnixMilli rec.TS, if rec.Status = lit "error" then LevelError else LevelInfo,
          SourceCron, rec.JobID,
          if rec.Error ≠ [] then rec.Error else firstLine rec.Summary⟩, true) := by
  have hne : ¬ TrimSpace ln = [] := by
    intro e
    rw [e, hempty] at hrec
    cases hrec
  rw [cronLoop]
  simp only [hne, if_false, hrec, hfin, ne_eq, not_true_eq_false]

set_option maxRecDepth 8192 in
/-- C8 (amended): for a cron run log that fits the tail window, `ReadLatestCronRun`
returns `(event, true)` with no error, the event being built from the last line,
among the last 200 lines of the file, that parses and has action `"finished"`:
time the record's `ts` in Unix milliseconds, source cron, level error if status
is `"error"` and info otherwise, detail the record's error if non-empty and
otherwise the first line of its summary; when no parseable line among the last
200 has action `"finished"` it returns `(Task{}, false)` with no error.  For the
3-line log whose second line is the only finished record, with status `"ok"`, the
event is that record with level info. -/
theorem C8_latest_cron_run (decode : GoString → Option CronRunRec)
    (hempty : decode [] = none) (f : List Byte) (hsize : f.length ≤ 262144) :
    (∀ pre ln post rec, lastN 200 (fileLinesSpec f) = pre ++ ln :: post →
      decode (TrimSpace ln) = some rec → rec.Action = lit "finished" →
      (∀ l ∈ post, ∀ r, decode (TrimSpace l) = some r → r.Action ≠ lit "finished") →
      ReadLatestCronRun decode (some f)
        = .ok (⟨UnixMilli rec.TS, if rec.Status = lit "error" then LevelError else LevelInfo,
            SourceCron, rec.JobID,
            if rec.Error ≠ [] then rec.Error else firstLine rec.Summary⟩, true)) ∧
    ((∀ l ∈ lastN 200 (fileLinesSpec f), ∀ r, decode (TrimSpace l) = some r →
        r.Action ≠ lit "finished") →
      ReadLatestCronRun decode (some f) = .ok (Task.empty, false)) ∧
    ReadLatestCronRun sampleCronDecode
        (some (joinLines [lineCronStarted, lineCronFinished, lineCronStarted]))
      = .ok (⟨UnixMilli 1700000005000, LevelInfo, SourceCron, lit "j1", lit "done"⟩, true) := by
  refine ⟨?_, ?_, ?_⟩
  · intro pre ln post rec hsplit hrec hfin hpost
    rw [ReadLatestCronRun_small decode f hsize, hsplit, List.reverse_append,
      List.reverse_cons, List.append_assoc, List.singleton_append,
      cronLoop_skip_all decode _ _ (fun l hl => hpost l (List.mem_reverse.mp hl)),
      cronLoop_hit decode hempty ln _ rec hrec hfin]
  · intro hnone
    rw [ReadLatestCronRun_small decode f hsize,
      ← List.append_nil (lastN 200 (fileLinesSpec f)).reverse,
      cronLoop_skip_all decode _ _ (fun l hl => hnone l (List.mem_reverse.mp hl))]
    rfl
  · rw [ReadLatestCronRun_small _ _ (by decide)]
    decide

set_option maxRecDepth 8192 in
theorem C8_latest_cron_run_witness :
    (∀ pre ln post rec,
      lastN 200 (fileLinesSpec (joinLines [lineCronFinished, lineGarbage])) = pre ++ ln :: post →
      sampleCronDecode (TrimSpace ln) = some rec → rec.Action = lit "finished" →
      (∀ l ∈ post, ∀ r, sampleCronDecode (TrimSpace l) = some r → r.Action ≠ lit "finished") →
      ReadLatestCronRun sampleCronDecode (some (joinLines [lineCronFinished, lineGarbage]))
        = .ok (⟨UnixMilli rec.TS, if rec.Status = lit "error" then LevelError else LevelInfo,
            SourceCron, rec.JobID,
            if rec.Error ≠ [] then rec.Error else firstLine rec.Summary⟩, true)) ∧
    ((∀ l ∈ lastN 200 (fileLinesSpec (joinLines [lineCronFinished, lineGarbage])),
        ∀ r, sampleCronDecode (TrimSpace l) = some r → r.Action ≠ lit "finished") →
      ReadLatestCronRun sampleCronDecode (some (joinLines [lineCronFinished, lineGarbage]))
        = .ok (Task.empty, false)) ∧
    ReadLatestCronRun sampleCronDecode
        (some (joinLines [lineCronStarted, lineCronFinished, lineCronStarted]))
      = .ok (⟨UnixMilli 1700000005000, LevelInfo, SourceCron, lit "j1", lit "done"⟩, true) :=
  C8_latest_cron_run sampleCronDecode (by decide)
    (joinLines [lineCronFinished, lineGarbage]) (by decide)

set_option maxRecDepth 65536 in
/-- C8 as stated fails: a log of 201 lines, the first one the only finished run and
the other 200 runs that started, fits the tail window; its last (and only) line
that parses with action `"finished"` is the first line, but the decoder reads the
last 200 lines only and returns `(Task{}, false)`. -/
theorem C8_counterexample :
    (joinLines (lineCronFinished :: List.replicate 200 lineCronStarted ++ [])).length
      ≤ 262144 ∧
    fileLinesSpec (joinLines (lineCronFinished :: List.replicate 200 lineCronStarted ++ []))
      = lineCronFinished :: List.replicate 200 lineCronStarted ∧
    sampleCronDecode (TrimSpace lineCronFinished) = some recCronFinished ∧
    recCronFinished.Action = lit "finished" ∧
    (∀ l ∈ List.replicate 200 lineCronStarted,
      ∀ r, sampleCronDecode (TrimSpace l) = some r → r.Action ≠ lit "finished") ∧
    ReadLatestCronRun sampleCronDecode
        (some (joinLines (lineCronFinished :: List.replicate 200 lineCronStarted ++ [])))
      = .ok (Task.empty, false) := by
  obtain ⟨hs, hf, hg⟩ := sample_lines_length
  have hsize : (joinLines (lineCronFinished :: List.replicate 200 lineCronStarted
      ++ [])).length ≤ 262144 := by
    rw [length_joinLines]
    simp [hs, hf]
  refine ⟨hsize, ?_, by decide, by decide, ?_, ?_⟩
  · rw [List.append_nil]
    apply fileLinesSpec_joinLines
    intro l hl
    simp only [List.mem_cons, List.mem_replicate] at hl
    rcases hl with e | ⟨_, e⟩
    · exact e ▸ sample_lines_no_newline.2.1
    · exact e ▸ sample_lines_no_newline.1
  · intro l hl r hr
    have e : l = lineCronStarted := (List.mem_replicate.mp hl).2
    subst e
    have h3 : sampleCronDecode (TrimSpace lineCronStarted) = some recCronStarted := by decide
    rw [h3] at hr
    cases hr
    decide
  · rw [sample_cron_log 200 [] (by simp) hsize]
    have e : lastN 200 (lineCronFinished :: List.replicate 200 lineCronStarted ++ [])
        = List.replicate 200 lineCronStarted := by
      simp [lastN]
    rw [e, List.reverse_replicate, ← List.append_nil (List.replicate 200 lineCronStarted),
      cronLoop_started]
    rfl

/-! ## C9, C10: the tool-result events -/

/-- One step of the tool loop, in terms of the record of the line. -/
theorem toolLoop_cons (decode : GoString → Option ToolRec) (now : Nat → Time)
    (maxTasks : Int) (l : GoString) (rest : List GoString) (tasks : List Task)
    (h : (tasks.length : Int) < maxTasks) :
    toolLoop decode now maxTasks (l :: rest) tasks
      = match toolRecOf decode l with
        | none => toolLoop decode now maxTasks rest tasks
        | some rec =>
          toolLoop decode now maxTasks rest (tasks ++ [toolEventSpec (now tasks.length) rec]) := by
  rw [toolLoop, if_neg (not_not.mpr h)]
  unfold toolRecOf toolEventSpec
  simp only
  by_cases hb : TrimSpace l = []
  · simp only [hb, if_true]
  · simp only [hb, if_false]
    cases hd : decode (TrimSpace l) with
    | none => rfl
    | some rec =>
      simp only
      by_cases hk : rec.Typ = lit "message" ∧ rec.Message.Role = lit "toolResult"
      · have hk2 : ¬ (rec.Typ ≠ lit "message" ∨ rec.Message.Role ≠ lit "toolResult") := by
          simp [hk.1, hk.2]
        rw [if_neg hk2, if_pos hk]
        simp only
        by_cases hz : rec.Message.Timestamp = 0
        · simp [hz]
        · simp [hz]
      · have hk2 : rec.Typ ≠ lit "message" ∨ rec.Message.Role ≠ lit "toolResult" := by
          by_contra hcon
          simp only [not_or, ne_eq, not_not] at hcon
          exact hk hcon
        rw [if_pos hk2, if_neg hk]

/-- The tool loop appends the events of the first records it meets, up to the
budget that `maxTasks` leaves. -/
theorem toolLoop_spec (decode : GoString → Option ToolRec) (now : Nat → Time)
    (maxTasks : Int) (lines : List GoString) :
    ∀ tasks : List Task, ∃ evs,
      toolLoop decode now maxTasks lines tasks = tasks ++ evs ∧
      List.Forall₂ (fun ev rec => ∃ k, ev = toolEventSpec (now k) rec) evs
        ((lines.filterMap (toolRecOf decode)).take (maxTasks.toNat - tasks.length)) := by
  induction lines with
  | nil =>
    intro tasks
    exact ⟨[], by simp [toolLoop], by simp⟩
  | cons l rest ih =>
    intro tasks
    by_cases h : (tasks.length : Int) < maxTasks
    · rw [toolLoop_cons decode now maxTasks l rest tasks h]
      cases hr : toolRecOf decode l with
      | none =>
        obtain ⟨evs, h1, h2⟩ := ih tasks
        refine ⟨evs, h1, ?_⟩
        rw [List.filterMap_cons, hr]
        exact h2
      | some rec =>
        obtain ⟨evs, h1, h2⟩ := ih (tasks ++ [toolEventSpec (now tasks.length) rec])
        refine ⟨toolEventSpec (now tasks.length) rec :: evs, ?_, ?_⟩
        · simp only [h1, List.append_assoc, List.singleton_append]
        · rw [List.filterMap_cons, hr]
          have hb : maxTasks.toNat - tasks.length = (maxTasks.toNat - (tasks.length + 1)) + 1 := by
            omega
          simp only [hb, List.take_succ_cons]
          refine List.Forall₂.cons ⟨_, rfl⟩ ?_
          simpa using h2
    · refine ⟨[], ?_, ?_⟩
      · rw [toolLoop_full decode now maxTasks _ tasks h, List.append_nil]
      · have hb : maxTasks.toNat - tasks.length = 0 := by omega
        rw [hb, List.take_zero]
        exact List.Forall₂.nil

theorem forall₂_exists_right {α β : Type} {R : α → β → Prop} {l1 : List α} {l2 : List β}
    (h : List.Forall₂ R l1 l2) : ∀ x ∈ l1, ∃ y ∈ l2, R x y := by
  induction h with
  | nil => intro x hx; cases hx
  | cons hab _ ih =>
    intro x hx
    rcases List.mem_cons.mp hx with e | hmem
    · exact ⟨_, List.mem_cons_self _ _, e ▸ hab⟩
    · obtain ⟨y, hy, hR⟩ := ih x hmem
      exact ⟨y, List.mem_cons_of_mem _ hy, hR⟩

/-- Events of records with non-zero, non-decreasing timestamps have non-decreasing
times. -/
theorem pairwise_events {now : Nat → Time} {evs : List Task} {kept : List ToolRec}
    (h : List.Forall₂ (fun ev rec => ∃ k, ev = toolEventSpec (now k) rec) evs kept)
    (hnz : ∀ r ∈ kept, r.Message.Timestamp ≠ 0)
    (hp : kept.Pairwise (fun a b => a.Message.Timestamp ≤ b.Message.Timestamp)) :
    evs.Pairwise (fun a b => a.At.unixNano ≤ b.At.unixNano) := by
  induction h with
  | nil => exact List.Pairwise.nil
  | @cons ev rec evs1 kept1 hab htl ih =>
    rw [List.pairwise_cons] at hp ⊢
    refine ⟨?_, ih (fun r hr => hnz r (List.mem_cons_of_mem _ hr)) hp.2⟩
    intro b hb
    obtain ⟨r2, hr2, k2, e2⟩ := forall₂_exists_right htl b hb
    obtain ⟨k1, e1⟩ := hab
    have z1 := hnz rec (List.mem_cons_self _ _)
    have z2 := hnz r2 (List.mem_cons_of_mem _ hr2)
    have hle := hp.1 r2 hr2
    rw [e1, e2]
    simp only [toolEventSpec, z1, z2, if_false, UnixMilli]
    omega

theorem tailLines_ok (f : List Byte) (n : Int) : ∃ lines, tailLines f n = .ok lines := by
  by_cases hn : 0 < n
  · exact ⟨_, tailLines_eq f n hn⟩
  · exact ⟨[], by unfold tailLines; rw [if_pos (not_lt.mp hn)]⟩

theorem toolRecOf_some {decode : GoString → Option ToolRec} {ln : GoString} {rec : ToolRec}
    (h : toolRecOf decode ln = some rec) :
    decode (TrimSpace ln) = some rec ∧ rec.Typ = lit "message" ∧
      rec.Message.Role = lit "toolResult" := by
  unfold toolRecOf at h
  split at h
  · cases h
  · split at h
    · cases h
    · rename_i r hr
      split at h
      · rename_i hk
        cases h
        exact ⟨hr, hk.1, hk.2⟩
      · cases h

set_option maxRecDepth 8192 in
/-- C9: every event returned by `ReadToolTasks` comes from a line (of those the tail
reader returned) that decodes to a record with type `"message"` and role
`"toolResult"`, and has source tool, title the record's `toolName`, level error if
`isError` and info otherwise, time `message.timestamp` in Unix milliseconds when
that is non-zero, and detail the first line of the text of the first content
block, or the empty string when there is no content block; for the record with
`isError` true and first content text `"boom\nmore"` the detail is `"boom"` and the
level is error. -/
theorem C9_tool_event_fields (decode : GoString → Option ToolRec) (now : Nat → Time)
    (f : List Byte) (maxLines maxTasks : Int) :
    (∃ lines evs, tailLines f maxLines = .ok lines ∧
      ReadToolTasks decode now (some f) maxLines maxTasks = .ok evs ∧
      ∀ ev ∈ evs, ∃ ln ∈ lines, ∃ rec, decode (TrimSpace ln) = some rec ∧
        rec.Typ = lit "message" ∧ rec.Message.Role = lit "toolResult" ∧
        ev.Source = SourceTool ∧ ev.Title = rec.Message.ToolName ∧
        ev.Level = (if rec.Message.IsError then LevelError else LevelInfo) ∧
        (rec.Message.Timestamp ≠ 0 → ev.At = UnixMilli rec.Message.Timestamp) ∧
        (rec.Message.Content = [] → ev.Detail = []) ∧
        (∀ c cs, rec.Message.Content = c :: cs → ev.Detail = firstLine c.Text)) ∧
    ReadToolTasks sampleToolDecode sampleClock (some (joinLines [lineToolBoom])) 400 25
      = .ok [⟨UnixMilli 1700000001000, LevelError, SourceTool, lit "write", lit "boom"⟩] ∧
    firstLine (lit "boom\nmore") = lit "boom" := by
  refine ⟨?_, ?_, by decide⟩
  · obtain ⟨lines, hlines⟩ := tailLines_ok f maxLines
    obtain ⟨evs, h1, h2⟩ := toolLoop_spec decode now maxTasks lines.reverse []
    refine ⟨lines, evs.reverse, hlines, ?_, ?_⟩
    · unfold ReadToolTasks
      simp only [hlines, h1, List.nil_append]
    · intro ev hev
      obtain ⟨rec, hrec, k, e⟩ := forall₂_exists_right h2 ev (List.mem_reverse.mp hev)
      have hrec2 := List.mem_of_mem_take hrec
      rw [List.mem_filterMap] at hrec2
      obtain ⟨ln, hln, hof⟩ := hrec2
      obtain ⟨hd, ht, hr⟩ := toolRecOf_some hof
      refine ⟨ln, List.mem_reverse.mp hln, rec, hd, ht, hr, ?_⟩
      subst e
      refine ⟨rfl, rfl, rfl, ?_, ?_, ?_⟩
      · intro hz
        simp only [toolEventSpec, hz, if_false]
      · intro hc
        simp only [toolEventSpec, hc]
      · intro c cs hc
        simp only [toolEventSpec, hc]
  · rw [ReadToolTasks_small _ _ _ _ _ (by decide) (by decide)]
    decide

/-- C10 (amended): for a session log that fits the tail window and `maxLines > 0`,
`maxTasks > 0`, `ReadToolTasks` returns, with no error, the events of the last
`min maxTasks m` tool-result records among the last `maxLines` lines of the file
(`m` the number of those records), in file order, oldest first; the result has at
most `maxTasks` events; and when those records carry non-zero, non-decreasing
timestamps, the timestamps of the result are non-decreasing. -/
theorem C10_tool_tasks_window (decode : GoString → Option ToolRec) (now : Nat → Time)
    (f : List Byte) (maxLines maxTasks : Int)
    (hsize : f.length ≤ 262144) (hl : 0 < maxLines) (ht : 0 < maxTasks) :
    ∃ evs, ReadToolTasks decode now (some f) maxLines maxTasks = .ok evs ∧
      List.Forall₂ (fun ev rec => ∃ k, ev = toolEventSpec (now k) rec) evs
        (lastN (min maxTasks.toNat (toolRecords decode f maxLines).length)
          (toolRecords decode f maxLines)) ∧
      (evs.length : Int) ≤ maxTasks ∧
      ((∀ r ∈ toolRecords decode f maxLines, r.Message.Timestamp ≠ 0) →
        (toolRecords decode f maxLines).Pairwise
          (fun a b => a.Message.Timestamp ≤ b.Message.Timestamp) →
        evs.Pairwise (fun a b => a.At.unixNano ≤ b.At.unixNano)) := by
  obtain ⟨evs, h1, h2⟩ := toolLoop_spec decode now maxTasks
    (lastN maxLines.toNat (fileLinesSpec f)).reverse []
  have h3 : List.Forall₂ (fun ev rec => ∃ k, ev = toolEventSpec (now k) rec) evs.reverse
      (lastN (min maxTasks.toNat (toolRecords decode f maxLines).length)
        (toolRecords decode f maxLines)) := by
    rw [lastN_min]
    apply List.forall₂_reverse_iff.mp
    rw [List.reverse_reverse]
    simpa [List.take_reverse, toolRecords, lastN] using h2
  refine ⟨evs.reverse, ?_, h3, ?_, ?_⟩
  · rw [ReadToolTasks_small decode now f maxLines maxTasks hsize hl, h1, List.nil_append]
  · have := h3.length_eq
    rw [lastN_length] at this
    omega
  · intro hnz hp
    refine pairwise_events h3 ?_ ?_
    · intro r hr
      exact hnz r (List.mem_of_mem_drop hr)
    · exact hp.sublist (List.drop_sublist _ _)

set_option maxRecDepth 8192 in
theorem C10_tool_tasks_window_witness :
    ∃ evs, ReadToolTasks sampleToolDecode sampleClock
        (some (joinLines [lineToolOk, lineGarbage, lineToolBoom])) 400 25 = .ok evs ∧
      List.Forall₂ (fun ev rec => ∃ k, ev = toolEventSpec (sampleClock k) rec) evs
        (lastN (min (25 : Int).toNat (toolRecords sampleToolDecode
            (joinLines [lineToolOk, lineGarbage, lineToolBoom]) 400).length)
          (toolRecords sampleToolDecode (joinLines [lineToolOk, lineGarbage, lineToolBoom]) 400)) ∧
      (evs.length : Int) ≤ 25 ∧
      ((∀ r ∈ toolRecords sampleToolDecode (joinLines [lineToolOk, lineGarbage, lineToolBoom]) 400,
          r.Message.Timestamp ≠ 0) →
        (toolRecords sampleToolDecode
          (joinLines [lineToolOk, lineGarbage, lineToolBoom]) 400).Pairwise
          (fun a b => a.Message.Timestamp ≤ b.Message.Timestamp) →
        evs.Pairwise (fun a b => a.At.unixNano ≤ b.At.unixNano)) :=
  C10_tool_tasks_window sampleToolDecode sampleClock
    (joinLines [lineToolOk, lineGarbage, lineToolBoom]) 400 25
    (by decide) (by decide) (by decide)

set_option maxRecDepth 8192 in
/-- C10 as stated fails: in the session log of two tool results, the first with
timestamp 0 and the second with timestamp 1700000000000, the records carry
non-decreasing timestamps, but the event of the first takes the current time and
the timestamps of the result decrease. -/
theorem C10_counterexample :
    (joinLines [lineToolNoTime, lineToolOk]).length ≤ 262144 ∧
    toolRecords sampleToolDecode (joinLines [lineToolNoTime, lineToolOk]) 400
      = [recToolNoTime, recToolOk] ∧
    [recToolNoTime, recToolOk].Pairwise
      (fun a b => a.Message.Timestamp ≤ b.Message.Timestamp) ∧
    ReadToolTasks sampleToolDecode sampleClock
        (some (joinLines [lineToolNoTime, lineToolOk])) 400 25
      = .ok [⟨sampleClock 1, LevelInfo, SourceTool, lit "read", []⟩,
          ⟨UnixMilli 1700000000000, LevelInfo, SourceTool, lit "exec", lit "ok"⟩] ∧
    ¬ [(⟨sampleClock 1, LevelInfo, SourceTool, lit "read", []⟩ : Task),
        ⟨UnixMilli 1700000000000, LevelInfo, SourceTool, lit "exec", lit "ok"⟩].Pairwise
      (fun a b => a.At.unixNano ≤ b.At.unixNano) := by
  refine ⟨by decide, by decide, by decide, ?_, by decide⟩
  rw [ReadToolTasks_small _ _ _ _ _ (by decide) (by decide)]
  decide

/-! ## C11: single-line details -/

theorem trimLeftSpace_subset_aux (n : Nat) :
    ∀ s : GoString, s.length ≤ n → ∀ x ∈ trimLeftSpace s, x ∈ s := by
  induction n with
  | zero =>
    intro s hs x hx
    have : s = [] := List.length_eq_zero.mp (Nat.le_zero.mp hs)
    subst this
    simp [trimLeftSpace] at hx
  | succ n ih =>
    intro s hs x hx
    rw [trimLeftSpace.eq_def] at hx
    split at hx
    · cases hx
    · rename_i a s1
      simp only [List.length_cons] at hs
      split at hx
      · exact List.mem_cons_of_mem _ (ih s1 (by omega) x hx)
      · split at hx
        · exact hx
        · rename_i b s2
          simp only [List.length_cons] at hs
          split at hx
          · exact List.mem_cons_of_mem _ (List.mem_cons_of_mem _ (ih s2 (by omega) x hx))
          · split at hx
            · exact hx
            · rename_i c s3
              simp only [List.length_cons] at hs
              split at hx
              · exact List.mem_cons_of_mem _ (List.mem_cons_of_mem _
                  (List.mem_cons_of_mem _ (ih s3 (by omega) x hx)))
              · exact hx

theorem trimRightSpaceRev_subset_aux (n : Nat) :
    ∀ s : GoString, s.length ≤ n → ∀ x ∈ trimRightSpaceRev s, x ∈ s := by
  induction n with
  | zero =>
    intro s hs x hx
    have : s = [] := List.length_eq_zero.mp (Nat.le_zero.mp hs)
    subst this
    simp [trimRightSpaceRev] at hx
  | succ n ih =>
    intro s hs x hx
    rw [trimRightSpaceRev.eq_def] at hx
    split at hx
    · cases hx
    · rename_i a s1
      simp only [List.length_cons] at hs
      split at hx
      · exact List.mem_cons_of_mem _ (ih s1 (by omega) x hx)
      · split at hx
        · exact hx
        · rename_i b s2
          simp only [List.length_cons] at hs
          split at hx
          · exact List.mem_cons_of_mem _ (List.mem_cons_of_mem _ (ih s2 (by omega) x hx))
          · split at hx
            · exact hx
            · rename_i c s3
              simp only [List.length_cons] at hs
              split at hx
              · exact List.mem_cons_of_mem _ (List.mem_cons_of_mem _
                  (List.mem_cons_of_mem _ (ih s3 (by omega) x hx)))
              · exact hx

theorem TrimSpace_subset (s : GoString) : ∀ x ∈ TrimSpace s, x ∈ s := by
  intro x hx
  unfold TrimSpace at hx
  rw [List.mem_reverse] at hx
  have h1 := trimRightSpaceRev_subset_aux _ _ (le_refl _) x hx
  rw [List.mem_reverse] at h1
  exact trimLeftSpace_subset_aux _ _ (le_refl _) x h1

theorem IndexByte_neg {s : GoString} {c : Byte} (h : IndexByte s c < 0) : c ∉ s := by
  induction s with
  | nil => simp
  | cons a s ih =>
    rw [IndexByte] at h
    split at h
    · omega
    · rename_i hne
      split at h
      · omega
      · rename_i hneg
        simp only [List.mem_cons, not_or]
        exact ⟨fun e => hne e.symm, ih (by omega)⟩

theorem IndexByte_take (s : GoString) (c : Byte) : c ∉ s.take (IndexByte s c).toNat := by
  induction s with
  | nil => simp
  | cons a s ih =>
    rw [IndexByte]
    split
    · simp
    · rename_i hne
      split
      · rename_i hpos
        have e : (IndexByte s c + 1).toNat = (IndexByte s c).toNat + 1 := by omega
        rw [e, List.take_succ_cons]
        simp only [List.mem_cons, not_or]
        exact ⟨fun e => hne e.symm, ih⟩
      · simp

theorem firstLine_no_newline (s : GoString) : NL ∉ firstLine s := by
  unfold firstLine
  simp only
  split
  · intro h
    exact IndexByte_take _ _ (TrimSpace_subset _ _ h)
  · rename_i hneg
    intro h
    exact IndexByte_neg (by omega) (TrimSpace_subset _ _ h)

theorem firstN_no_newline (s : GoString) (n : Int) : NL ∉ firstN s n := by
  have hmap : NL ∉ s.map (fun c => if c = NL then 32 else c) := by
    intro h
    rw [List.mem_map] at h
    obtain ⟨c, _, hc⟩ := h
    split at hc
    · cases hc
    · rename_i hne
      exact hne hc
  have htrim : NL ∉ TrimSpace (s.map (fun c => if c = NL then 32 else c)) :=
    fun h => hmap (TrimSpace_subset _ _ h)
  unfold firstN
  simp only
  split
  · exact htrim
  · intro h
    rw [List.mem_append] at h
    rcases h with h | h
    · exact htrim (List.mem_of_mem_take h)
    · revert h
      decide

/-- The detail of the result of the cron loop holds no newline, or is the error
field of a finished record, used as it is. -/
theorem cronLoop_detail (decode : GoString → Option CronRunRec) (lines : List GoString) :
    NL ∉ (cronLoop decode lines).1.Detail ∨
    ∃ ln ∈ lines, ∃ rec, decode (TrimSpace ln) = some rec ∧ rec.Action = lit "finished" ∧
      rec.Error ≠ [] ∧ (cronLoop decode lines).1.Detail = rec.Error := by
  induction lines with
  | nil => exact Or.inl (by simp [cronLoop, Task.empty])
  | cons l rest ih =>
    have hrest : NL ∉ (cronLoop decode rest).1.Detail ∨
        ∃ ln ∈ l :: rest, ∃ rec, decode (TrimSpace ln) = some rec ∧
          rec.Action = lit "finished" ∧ rec.Error ≠ [] ∧
          (cronLoop decode rest).1.Detail = rec.Error := by
      rcases ih with h | ⟨ln, hln, rec, h⟩
      · exact Or.inl h
      · exact Or.inr ⟨ln, List.mem_cons_of_mem _ hln, rec, h⟩
    rw [cronLoop]
    simp only
    split
    · exact hrest
    · split
      · exact hrest
      · rename_i rec hrec
        split
        · exact hrest
        · rename_i hfin
          simp only [ne_eq, not_not] at hfin
          by_cases herr : rec.Error = []
          · left
            simp only [herr, ne_eq, not_true_eq_false, if_false]
            exact firstLine_no_newline _
          · right
            refine ⟨l, List.mem_cons_self _ _, rec, hrec, hfin, herr, ?_⟩
            simp only [ne_eq, herr, not_false_eq_true, if_true]

/-- C11 (amended): the detail of the event returned by `ReadLatestCronRun` holds no
newline, unless it is the non-empty error field of the finished record, which is
used as it is; the detail of every event returned by `ReadToolTasks`, and of the
creation event of every subagent run, holds no newline. -/
theorem C11_single_line_detail (decodeCron : GoString → Option CronRunRec)
    (decodeTool : GoString → Option ToolRec) (now : Nat → Time)
    (fCron fTool : List Byte) (maxLines maxTasks : Int) (sa : SubagentRun) :
    (∃ lines t ok, tailLines fCron 200 = .ok lines ∧
      ReadLatestCronRun decodeCron (some fCron) = .ok (t, ok) ∧
      (NL ∉ t.Detail ∨
        ∃ ln ∈ lines, ∃ rec, decodeCron (TrimSpace ln) = some rec ∧
          rec.Action = lit "finished" ∧ rec.Error ≠ [] ∧ t.Detail = rec.Error)) ∧
    (∃ evs, ReadToolTasks decodeTool now (some fTool) maxLines maxTasks = .ok evs ∧
      ∀ ev ∈ evs, NL ∉ ev.Detail) ∧
    NL ∉ (subagentTask sa).Detail := by
  refine ⟨?_, ?_, firstN_no_newline _ _⟩
  · obtain ⟨lines, hlines⟩ := tailLines_ok fCron 200
    refine ⟨lines, (cronLoop decodeCron lines.reverse).1, (cronLoop decodeCron lines.reverse).2,
      hlines, ?_, ?_⟩
    · unfold ReadLatestCronRun
      simp only [hlines]
    · rcases cronLoop_detail decodeCron lines.reverse with h | ⟨ln, hln, rec, h⟩
      · exact Or.inl h
      · exact Or.inr ⟨ln, List.mem_reverse.mp hln, rec, h⟩
  · obtain ⟨lines, hlines⟩ := tailLines_ok fTool maxLines
    obtain ⟨evs, h1, h2⟩ := toolLoop_spec decodeTool now maxTasks lines.reverse []
    refine ⟨evs.reverse, ?_, ?_⟩
    · unfold ReadToolTasks
      simp only [hlines, h1, List.nil_append]
    · intro ev hev
      obtain ⟨rec, _, k, e⟩ := forall₂_exists_right h2 ev (List.mem_reverse.mp hev)
      subst e
      simp only [toolEventSpec]
      split
      · simp
      · exact firstLine_no_newline _

set_option maxRecDepth 8192 in
/-- C11 as stated fails: for a cron run log whose finished record has the error
`"exit 1\nstack trace"`, the detail of the event of `ReadLatestCronRun` is that
text, with its newline. -/
theorem C11_counterexample :
    sampleCronDecodeFailed (TrimSpace lineCronFailed) = some recCronFailed ∧
    ReadLatestCronRun sampleCronDecodeFailed (some (joinLines [lineCronStarted, lineCronFailed]))
      = .ok (⟨UnixMilli 1700000009000, LevelError, SourceCron, lit "j1",
          lit "exit 1\nstack trace"⟩, true) ∧
    NL ∈ lit "exit 1\nstack trace" := by
  refine ⟨by decide, ?_, by decide⟩
  rw [ReadLatestCronRun_small _ _ (by decide)]
  decide

/-! ## C12: the token samples -/

/-- Insertion sort meets the contract of `sort.Slice` for every comparison that is
a strict weak ordering. -/
theorem insertionSortSlice_spec_of {α : Type} (less : α → α → Bool)
    (hasymm : ∀ a b, less a b = true → less b a = false)
    (htrans : ∀ a b c, less b a = false → less c b = false → less c a = false) :
    SortSliceSpec insertionSortSlice less := by
  intro xs
  haveI : IsTotal α (fun a b => less b a = false) :=
    ⟨fun a b => by
      cases h : less b a with
      | false => exact Or.inl rfl
      | true => exact Or.inr (hasymm b a h)⟩
  haveI : IsTrans α (fun a b => less b a = false) :=
    ⟨fun a b c hab hbc => htrans a b c hab hbc⟩
  exact ⟨List.perm_insertionSort _ xs, List.sorted_insertionSort _ xs⟩

theorem tokenLess_eq_false {a b : TokenSample} :
    tokenLess b a = false ↔ a.At.unixNano ≤ b.At.unixNano := by
  simp [tokenLess, Time.Before]

theorem insertionSortSlice_spec_token : SortSliceSpec insertionSortSlice tokenLess := by
  apply insertionSortSlice_spec_of
  · intro a b h
    simp only [tokenLess, Time.Before, decide_eq_true_eq, decide_eq_false_iff_not] at h ⊢
    omega
  · intro a b c h1 h2
    simp only [tokenLess_eq_false] at h1 h2 ⊢
    omega

theorem tokenLoop_eq (decode : GoString → Option TokenRec) (lines : List GoString) :
    ∀ samples, tokenLoop decode lines samples
      = samples ++ lines.filterMap (tokenSampleSpec decode) := by
  induction lines with
  | nil => intro samples; simp [tokenLoop]
  | cons l rest ih =>
    intro samples
    rw [tokenLoop, List.filterMap_cons]
    by_cases hb : TrimSpace l = []
    · have e : tokenSampleSpec decode l = none := by simp [tokenSampleSpec, hb]
      simp only [hb, if_true, e, ih]
    · cases hd : decode (TrimSpace l) with
      | none =>
        have e : tokenSampleSpec decode l = none := by simp [tokenSampleSpec, hb, hd]
        simp only [hb, if_false, e, ih]
      | some rec =>
        have e : tokenSampleSpec decode l
            = some ⟨UnixMilli rec.TS, rec.OpenClawTotal, rec.ClaudeCodeCostUSD⟩ := by
          simp [tokenSampleSpec, hb, hd]
        simp only [hb, if_false, e, ih, List.append_assoc, List.singleton_append]

/-- C12: for every token log content and every `max`, `ReadTokenSamples` returns
with no error; the samples it decodes are those of exactly the non-blank lines that
parse (a malformed line adds nothing and leaves the samples of the other lines as
they are), ordered by non-decreasing timestamp; when `max > 0` and more than `max`
samples were decoded the result is the last `max` elements of that sorted list,
and otherwise the whole sorted list. -/
theorem C12_token_samples (decode : GoString → Option TokenRec)
    (sortSlice : (TokenSample → TokenSample → Bool) → List TokenSample → List TokenSample)
    (hsort : SortSliceSpec sortSlice tokenLess) (f : List Byte) (max : Int) :
    ∃ sorted out, ReadTokenSamples decode sortSlice (some f) max = .ok out ∧
      sorted.Perm ((Split f NL).filterMap (tokenSampleSpec decode)) ∧
      sorted.Pairwise (fun a b => a.At.unixNano ≤ b.At.unixNano) ∧
      out = (if 0 < max ∧ max < (sorted.length : Int) then lastN max.toNat sorted else sorted) ∧
      ∀ (pre post : List GoString) (bad : GoString), decode (TrimSpace bad) = none →
        (pre ++ bad :: post).filterMap (tokenSampleSpec decode)
          = (pre ++ post).filterMap (tokenSampleSpec decode) := by
  obtain ⟨hperm, hsorted⟩ := hsort (tokenLoop decode (Split f NL) [])
  refine ⟨sortSlice tokenLess (tokenLoop decode (Split f NL) []), _, ?_, ?_, ?_, rfl, ?_⟩
  · unfold ReadTokenSamples
    simp only [gt_iff_lt, lastN]
    split <;> rfl
  · rw [tokenLoop_eq, List.nil_append] at hperm ⊢
    exact hperm
  · exact hsorted.imp (fun h => tokenLess_eq_false.mp h)
  · intro pre post bad hbad
    have : tokenSampleSpec decode bad = none := by
      unfold tokenSampleSpec
      split
      · rfl
      · rw [hbad]
    simp [List.filterMap_append, List.filterMap_cons, this]

theorem C12_token_samples_witness :
    ∃ sorted out, ReadTokenSamples sampleTokenDecode insertionSortSlice
        (some (joinLines [lineTokenLate, lineGarbage, lineTokenEarly])) 1 = .ok out ∧
      sorted.Perm ((Split (joinLines [lineTokenLate, lineGarbage, lineTokenEarly]) NL).filterMap
        (tokenSampleSpec sampleTokenDecode)) ∧
      sorted.Pairwise (fun a b => a.At.unixNano ≤ b.At.unixNano) ∧
      out = (if 0 < (1 : Int) ∧ (1 : Int) < (sorted.length : Int) then
        lastN (1 : Int).toNat sorted else sorted) ∧
      ∀ (pre post : List GoString) (bad : GoString), sampleTokenDecode (TrimSpace bad) = none →
        (pre ++ bad :: post).filterMap (tokenSampleSpec sampleTokenDecode)
          = (pre ++ post).filterMap (tokenSampleSpec sampleTokenDecode) :=
  C12_token_samples sampleTokenDecode insertionSortSlice insertionSortSlice_spec_token
    (joinLines [lineTokenLate, lineGarbage, lineTokenEarly]) 1

/-! ## C13: the session list -/

theorem sessionLess_eq_false {a b : Session} :
    sessionLess b a = false ↔ b.UpdatedAt.unixNano ≤ a.UpdatedAt.unixNano := by
  simp [sessionLess, Time.After]

theorem insertionSortSlice_spec_session : SortSliceSpec insertionSortSlice sessionLess := by
  apply insertionSortSlice_spec_of
  · intro a b h
    simp only [sessionLess, Time.After, decide_eq_true_eq, decide_eq_false_iff_not] at h ⊢
    omega
  · intro a b c h1 h2
    simp only [sessionLess_eq_false] at h1 h2 ⊢
    omega

theorem sessionsLoop_eq (raw : List (GoString × SessionState)) :
    ∀ out, sessionsLoop raw out = out ++ raw.map sessionOfSpec := by
  induction raw with
  | nil => intro out; simp [sessionsLoop]
  | cons e rest ih =>
    intro out
    obtain ⟨k, v⟩ := e
    rw [sessionsLoop, ih]
    simp [sessionOfSpec]

/-- A list sorted by non-increasing key, with pairwise distinct keys, is determined
by its elements. -/
theorem sorted_perm_unique {α : Type} (key : α → Int) :
    ∀ {l₁ l₂ : List α}, l₁.Perm l₂ →
      l₁.Pairwise (fun a b => key b ≤ key a) → l₂.Pairwise (fun a b => key b ≤ key a) →
      l₁.Pairwise (fun a b => key a ≠ key b) → l₁ = l₂ := by
  intro l₁
  induction l₁ with
  | nil => intro l₂ hp _ _ _; exact hp.nil_eq
  | cons a t ih =>
    intro l₂ hp h₁ h₂ hd
    have hd₂ : l₂.Pairwise (fun a b => key a ≠ key b) :=
      (hp.pairwise_iff (fun h => Ne.symm h)).mp hd
    cases l₂ with
    | nil => exact absurd hp.symm.nil_eq (by simp)
    | cons x v =>
      have hx : x ∈ a :: t := hp.symm.subset (List.mem_cons_self _ _)
      have ha : a ∈ x :: v := hp.subset (List.mem_cons_self _ _)
      have hxa : x = a := by
        rcases List.mem_cons.mp hx with e | hxt
        · exact e
        · rcases List.mem_cons.mp ha with e | hav
          · exact e.symm
          · have k1 : key x ≤ key a := (List.pairwise_cons.mp h₁).1 x hxt
            have k2 : key a ≤ key x := (List.pairwise_cons.mp h₂).1 a hav
            have k3 : key x ≠ key a := (List.pairwise_cons.mp hd₂).1 a hav
            exact absurd (le_antisymm k1 k2) k3
      subst hxa
      rw [ih hp.cons_inv h₁.tail h₂.tail hd.tail]

theorem ReadSessionsJSON_eq (decode : List Byte → Option (List (GoString × SessionState)))
    (sortSlice : (Session → Session → Bool) → List Session → List Session)
    (f : List Byte) (raw : List (GoString × SessionState)) (hdec : decode f = some raw) :
    ReadSessionsJSON decode sortSlice (some f)
      = .ok (sortSlice sessionLess (raw.map sessionOfSpec)) := by
  unfold ReadSessionsJSON
  simp only [hdec, sessionsLoop_eq, List.nil_append]

/-- C13: for a well-formed session registry, `ReadSessionsJSON` returns one session
for each entry of the decoded map (one per key), with the key and the fields copied
(a numeric field absent from the file is zero in the decoded entry, and stays so),
arranged so that `UpdatedAt` is non-increasing along the list; for a registry of
`"agent:main:main"` updated at 1700000000000 and a second session updated at
1600000000000 the result has length 2 and its first element is
`"agent:main:main"`, in whichever order the map is enumerated. -/
theorem C13_sessions_sorted (decode : List Byte → Option (List (GoString × SessionState)))
    (sortSlice : (Session → Session → Bool) → List Session → List Session)
    (hsort : SortSliceSpec sortSlice sessionLess)
    (f : List Byte) (raw : List (GoString × SessionState)) (hdec : decode f = some raw) :
    ∃ out, ReadSessionsJSON decode sortSlice (some f) = .ok out ∧
      out.Perm (raw.map sessionOfSpec) ∧
      out.Pairwise (fun a b => b.UpdatedAt.unixNano ≤ a.UpdatedAt.unixNano) ∧
      ∀ (k2 : GoString) (s1 s2 : SessionState),
        s1.UpdatedAt = 1700000000000 → s2.UpdatedAt = 1600000000000 →
        raw = [(lit "agent:main:main", s1), (k2, s2)] ∨
          raw = [(k2, s2), (lit "agent:main:main", s1)] →
        out.length = 2 ∧ out.head?.map Session.Key = some (lit "agent:main:main") := by
  obtain ⟨hperm, hsorted⟩ := hsort (raw.map sessionOfSpec)
  have hsorted2 := hsorted.imp (fun h => sessionLess_eq_false.mp h)
  refine ⟨_, ReadSessionsJSON_eq decode sortSlice f raw hdec, hperm, hsorted2, ?_⟩
  intro k2 s1 s2 h1 h2 hraw
  have hp2 : (sortSlice sessionLess (raw.map sessionOfSpec)).Perm
      [sessionOfSpec (lit "agent:main:main", s1), sessionOfSpec (k2, s2)] := by
    rcases hraw with e | e
    · rw [e] at hperm ⊢
      exact hperm
    · rw [e] at hperm ⊢
      exact hperm.trans (List.Perm.swap _ _ _)
  have huniq := sorted_perm_unique (fun s : Session => s.UpdatedAt.unixNano) hp2.symm
    (by simp [sessionOfSpec, UnixMilli, h1, h2])
    hsorted2
    (by simp [sessionOfSpec, UnixMilli, h1, h2])
  rw [← huniq]
  simp [sessionOfSpec]
set_option maxRecDepth 8192 in
theorem C13_sessions_sorted_witness :
    ∃ out, ReadSessionsJSON (sampleSessionsDecode false) insertionSortSlice
        (some sampleSessionsFile) = .ok out ∧
      out.Perm ([sampleEntryCron, sampleEntryMain].map sessionOfSpec) ∧
      out.Pairwise (fun a b => b.UpdatedAt.unixNano ≤ a.UpdatedAt.unixNano) ∧
      ∀ (k2 : GoString) (s1 s2 : SessionState),
        s1.UpdatedAt = 1700000000000 → s2.UpdatedAt = 1600000000000 →
        [sampleEntryCron, sampleEntryMain] = [(lit "agent:main:main", s1), (k2, s2)] ∨
          [sampleEntryCron, sampleEntryMain] = [(k2, s2), (lit "agent:main:main", s1)] →
        out.length = 2 ∧ out.head?.map Session.Key = some (lit "agent:main:main") :=
  C13_sessions_sorted (sampleSessionsDecode false) insertionSortSlice
    insertionSortSlice_spec_session sampleSessionsFile [sampleEntryCron, sampleEntryMain]
    (by decide)

/-! ## C14, C15: the cron job list -/

theorem cronLess_eq_false {a b : CronJob} :
    cronLess b a = false ↔
      ((b.NextRun ≠ none → a.NextRun ≠ none) ∧
        ∀ ta tb, a.NextRun = some ta → b.NextRun = some tb → ta.unixNano ≤ tb.unixNano) := by
  unfold cronLess
  cases hb : b.NextRun with
  | none => simp
  | some tb =>
    cases ha : a.NextRun with
    | none => simp
    | some ta => simp [Time.Before]

theorem insertionSortSlice_spec_cron : SortSliceSpec insertionSortSlice cronLess := by
  apply insertionSortSlice_spec_of
  · intro a b h
    unfold cronLess at h ⊢
    cases ha : a.NextRun with
    | none => simp [ha] at h
    | some ta =>
      cases hb : b.NextRun with
      | none => rfl
      | some tb =>
        simp only [ha, hb, Time.Before, decide_eq_true_eq, decide_eq_false_iff_not] at h ⊢
        omega
  · intro a b c h1 h2
    rw [cronLess_eq_false] at h1 h2 ⊢
    refine ⟨fun hc => h1.1 (h2.1 hc), ?_⟩
    intro ta tc hta htc
    cases hb : b.NextRun with
    | none => exact absurd hb (h2.1 (by simp [htc]))
    | some tb => exact le_trans (h1.2 ta tb hta hb) (h2.2 tb tc hb htc)

theorem cronJobsLoop_eq (durationString : Int → GoString) (raw : List CronJobRaw) :
    ∀ out, cronJobsLoop durationString raw out = out ++ raw.map (cronJobOf durationString) := by
  induction raw with
  | nil => intro out; simp [cronJobsLoop]
  | cons j rest ih =>
    intro out
    rw [cronJobsLoop, ih]
    simp

theorem ReadCronJobs_eq (decode : List Byte → Option (List CronJobRaw))
    (durationString : Int → GoString)
    (sortSlice : (CronJob → CronJob → Bool) → List CronJob → List CronJob)
    (f : List Byte) (raw : List CronJobRaw) (hdec : decode f = some raw) :
    ReadCronJobs decode durationString sortSlice (some f)
      = .ok (sortSlice cronLess (raw.map (cronJobOf durationString))) := by
  unfold ReadCronJobs
  simp only [hdec, cronJobsLoop_eq, List.nil_append]

/-- C14: for a well-formed cron job registry, the list `ReadCronJobs` returns is a
permutation of the jobs built from the decoded array, in which every job with a set
`NextRun` comes before every job with an unset `NextRun`, and among the jobs with a
set `NextRun` the times are non-decreasing along the list. -/
theorem C14_cron_jobs_sorted (decode : List Byte → Option (List CronJobRaw))
    (durationString : Int → GoString)
    (sortSlice : (CronJob → CronJob → Bool) → List CronJob → List CronJob)
    (hsort : SortSliceSpec sortSlice cronLess)
    (f : List Byte) (raw : List CronJobRaw) (hdec : decode f = some raw) :
    ∃ out, ReadCronJobs decode durationString sortSlice (some f) = .ok out ∧
      out.Perm (raw.map (cronJobOf durationString)) ∧
      out.Pairwise (fun a b => (b.NextRun ≠ none → a.NextRun ≠ none) ∧
        ∀ ta tb, a.NextRun = some ta → b.NextRun = some tb → ta.unixNano ≤ tb.unixNano) := by
  obtain ⟨hperm, hsorted⟩ := hsort (raw.map (cronJobOf durationString))
  exact ⟨_, ReadCronJobs_eq decode durationString sortSlice f raw hdec, hperm,
    hsorted.imp (fun h => cronLess_eq_false.mp h)⟩

set_option maxRecDepth 8192 in
theorem C14_cron_jobs_sorted_witness :
    ∃ out, ReadCronJobs sampleCronJobsDecode sampleDurationString insertionSortSlice
        (some sampleCronJobsFile) = .ok out ∧
      out.Perm ([sampleJobB, sampleJobA].map (cronJobOf sampleDurationString)) ∧
      out.Pairwise (fun a b => (b.NextRun ≠ none → a.NextRun ≠ none) ∧
        ∀ ta tb, a.NextRun = some ta → b.NextRun = some tb → ta.unixNano ≤ tb.unixNano) :=
  C14_cron_jobs_sorted sampleCronJobsDecode sampleDurationString insertionSortSlice
    insertionSortSlice_spec_cron sampleCronJobsFile [sampleJobB, sampleJobA] (by decide)

theorem UnixMilli_roundtrip (ms : Int) : (UnixMilli ms).UnixMilli = ms := by
  simp [UnixMilli, Time.UnixMilli]

/-- C15: for every job of a well-formed cron job registry, `ReadCronJobs` yields one
`CronJob`, whose `NextRun` (respectively `LastRun`) is unset exactly when the
stored `nextRunAtMs` (respectively `lastRunAtMs`) is zero (an absent number is
zero), and is otherwise the instant whose Unix-millisecond value is the stored
value; decoding `nextRunAtMs` 1700000000000 gives a set `NextRun` with `UnixMilli`
1700000000000. -/
theorem C15_cron_job_times (decode : List Byte → Option (List CronJobRaw))
    (durationString : Int → GoString)
    (sortSlice : (CronJob → CronJob → Bool) → List CronJob → List CronJob)
    (hsort : SortSliceSpec sortSlice cronLess)
    (f : List Byte) (raw : List CronJobRaw) (hdec : decode f = some raw) :
    ∃ out built, ReadCronJobs decode durationString sortSlice (some f) = .ok out ∧
      out.Perm built ∧
      List.Forall₂ (fun j cj => cj.ID = j.ID ∧ cj.Name = j.Name ∧
        (cj.NextRun = none ↔ j.State.NextRunAtMs = 0) ∧
        (∀ t, cj.NextRun = some t → t.UnixMilli = j.State.NextRunAtMs) ∧
        (cj.LastRun = none ↔ j.State.LastRunAtMs = 0) ∧
        (∀ t, cj.LastRun = some t → t.UnixMilli = j.State.LastRunAtMs)) raw built ∧
      ∃ t, (cronJobOf durationString sampleJobA).NextRun = some t ∧
        t.UnixMilli = 1700000000000 := by
  obtain ⟨hperm, _⟩ := hsort (raw.map (cronJobOf durationString))
  refine ⟨_, raw.map (cronJobOf durationString),
    ReadCronJobs_eq decode durationString sortSlice f raw hdec, hperm, ?_, ?_⟩
  · rw [List.forall₂_map_right_iff]
    apply List.forall₂_same.mpr
    intro j _
    refine ⟨rfl, rfl, ?_, ?_, ?_, ?_⟩
    · by_cases h : j.State.NextRunAtMs = 0 <;> simp [cronJobOf, h]
    · intro t ht
      by_cases h : j.State.NextRunAtMs = 0
      · simp [cronJobOf, h] at ht
      · simp only [cronJobOf, ne_eq, h, not_false_eq_true, if_true, Option.some.injEq] at ht
        rw [← ht, UnixMilli_roundtrip]
    · by_cases h : j.State.LastRunAtMs = 0 <;> simp [cronJobOf, h]
    · intro t ht
      by_cases h : j.State.LastRunAtMs = 0
      · simp [cronJobOf, h] at ht
      · simp only [cronJobOf, ne_eq, h, not_false_eq_true, if_true, Option.some.injEq] at ht
        rw [← ht, UnixMilli_roundtrip]
  · exact ⟨UnixMilli 1700000000000, by simp [cronJobOf, sampleJobA], UnixMilli_roundtrip _⟩

set_option maxRecDepth 8192 in
theorem C15_cron_job_times_witness :
    ∃ out built, ReadCronJobs sampleCronJobsDecode sampleDurationString insertionSortSlice
        (some sampleCronJobsFile) = .ok out ∧
      out.Perm built ∧
      List.Forall₂ (fun j cj => cj.ID = j.ID ∧ cj.Name = j.Name ∧
        (cj.NextRun = none ↔ j.State.NextRunAtMs = 0) ∧
        (∀ t, cj.NextRun = some t → t.UnixMilli = j.State.NextRunAtMs) ∧
        (cj.LastRun = none ↔ j.State.LastRunAtMs = 0) ∧
        (∀ t, cj.LastRun = some t → t.UnixMilli = j.State.LastRunAtMs))
        [sampleJobB, sampleJobA] built ∧
      ∃ t, (cronJobOf sampleDurationString sampleJobA).NextRun = some t ∧
        t.UnixMilli = 1700000000000 :=
  C15_cron_job_times sampleCronJobsDecode sampleDurationString insertionSortSlice
    insertionSortSlice_spec_cron sampleCronJobsFile [sampleJobB, sampleJobA] (by decide)

/-! ## C16: a failed refresh keeps the snapshot -/

/-- C16: for every model state and every refresh result that carries an error,
`Update` keeps the prior snapshot: sessions, subagents, crons, tasks, token
samples, host metrics, the previous CPU sample, the filters, the primary model, the
window size, the configuration and the refresh interval are unchanged; `err` is
set to the error of the result and `lastUpdate` to its time; no command is
returned. -/
theorem C16_refresh_error_keeps_snapshot
    (range : List (GoString × Nat) → List (GoString × Nat)) (m : Model) (msg : RefreshMsg)
    (e : Error) (herr : msg.err = some e) :
    (Update range m (Msg.refresh msg)).1.sessions = m.sessions ∧
    (Update range m (Msg.refresh msg)).1.subagents = m.subagents ∧
    (Update range m (Msg.refresh msg)).1.crons = m.crons ∧
    (Update range m (Msg.refresh msg)).1.tasks = m.tasks ∧
    (Update range m (Msg.refresh msg)).1.tokenSamples = m.tokenSamples ∧
    (Update range m (Msg.refresh msg)).1.host = m.host ∧
    (Update range m (Msg.refresh msg)).1.prevCPU = m.prevCPU ∧
    (Update range m (Msg.refresh msg)).1.filter24h = m.filter24h ∧
    (Update range m (Msg.refresh msg)).1.hideRunSessions = m.hideRunSessions ∧
    (Update range m (Msg.refresh msg)).1.primaryModelOnly = m.primaryModelOnly ∧
    (Update range m (Msg.refresh msg)).1.primaryModel = m.primaryModel ∧
    (Update range m (Msg.refresh msg)).1.levels = m.levels ∧
    (Update range m (Msg.refresh msg)).1.sources = m.sources ∧
    (Update range m (Msg.refresh msg)).1.refresh = m.refresh ∧
    (Update range m (Msg.refresh msg)).1.cfg = m.cfg ∧
    (Update range m (Msg.refresh msg)).1.width = m.width ∧
    (Update range m (Msg.refresh msg)).1.height = m.height ∧
    (Update range m (Msg.refresh msg)).1.err = some e ∧
    (Update range m (Msg.refresh msg)).1.lastUpdate = msg.atTime ∧
    (Update range m (Msg.refresh msg)).2 = Cmd.nil := by
  simp [Update, herr]

theorem C16_refresh_error_keeps_snapshot_witness :
    (Update id (New sampleConfig) (Msg.refresh sampleRefreshFailed)).1.sessions
      = (New sampleConfig).sessions ∧
    (Update id (New sampleConfig) (Msg.refresh sampleRefreshFailed)).1.subagents
      = (New sampleConfig).subagents ∧
    (Update id (New sampleConfig) (Msg.refresh sampleRefreshFailed)).1.crons
      = (New sampleConfig).crons ∧
    (Update id (New sampleConfig) (Msg.refresh sampleRefreshFailed)).1.tasks
      = (New sampleConfig).tasks ∧
    (Update id (New sampleConfig) (Msg.refresh sampleRefreshFailed)).1.tokenSamples
      = (New sampleConfig).tokenSamples ∧
    (Update id (New sampleConfig) (Msg.refresh sampleRefreshFailed)).1.host
      = (New sampleConfig).host ∧
    (Update id (New sampleConfig) (Msg.refresh sampleRefreshFailed)).1.prevCPU
      = (New sampleConfig).prevCPU ∧
    (Update id (New sampleConfig) (Msg.refresh sampleRefreshFailed)).1.filter24h
      = (New sampleConfig).filter24h ∧
    (Update id (New sampleConfig) (Msg.refresh sampleRefreshFailed)).1.hideRunSessions
      = (New sampleConfig).hideRunSessions ∧
    (Update id (New sampleConfig) (Msg.refresh sampleRefreshFailed)).1.primaryModelOnly
      = (New sampleConfig).primaryModelOnly ∧
    (Update id (New sampleConfig) (Msg.refresh sampleRefreshFailed)).1.primaryModel
      = (New sampleConfig).primaryModel ∧
    (Update id (New sampleConfig) (Msg.refresh sampleRefreshFailed)).1.levels
      = (New sampleConfig).levels ∧
    (Update id (New sampleConfig) (Msg.refresh sampleRefreshFailed)).1.sources
      = (New sampleConfig).sources ∧
    (Update id (New sampleConfig) (Msg.refresh sampleRefreshFailed)).1.refresh
      = (New sampleConfig).refresh ∧
    (Update id (New sampleConfig) (Msg.refresh sampleRefreshFailed)).1.cfg
      = (New sampleConfig).cfg ∧
    (Update id (New sampleConfig) (Msg.refresh sampleRefreshFailed)).1.width
      = (New sampleConfig).width ∧
    (Update id (New sampleConfig) (Msg.refresh sampleRefreshFailed)).1.height
      = (New sampleConfig).height ∧
    (Update id (New sampleConfig) (Msg.refresh sampleRefreshFailed)).1.err
      = some Error.jsonError ∧
    (Update id (New sampleConfig) (Msg.refresh sampleRefreshFailed)).1.lastUpdate
      = sampleRefreshFailed.atTime ∧
    (Update id (New sampleConfig) (Msg.refresh sampleRefreshFailed)).2 = Cmd.nil :=
  C16_refresh_error_keeps_snapshot id (New sampleConfig) sampleRefreshFailed Error.jsonError rfl

/-! ## C17: decoding twice -/

theorem subagentLess_eq_false {a b : SubagentRun} :
    subagentLess b a = false ↔ b.CreatedAt.unixNano ≤ a.CreatedAt.unixNano := by
  simp [subagentLess, Time.After]

theorem insertionSortSlice_spec_subagent : SortSliceSpec insertionSortSlice subagentLess := by
  apply insertionSortSlice_spec_of
  · intro a b h
    simp only [subagentLess, Time.After, decide_eq_true_eq, decide_eq_false_iff_not] at h ⊢
    omega
  · intro a b c h1 h2
    simp only [subagentLess_eq_false] at h1 h2 ⊢
    omega

theorem subagentsLoop_eq (raw : List SubagentRaw) :
    ∀ out, subagentsLoop raw out = out ++ raw.map subagentOfSpec := by
  induction raw with
  | nil => intro out; simp [subagentsLoop]
  | cons r rest ih =>
    intro out
    rw [subagentsLoop, ih]
    simp [subagentOfSpec]

theorem ReadSubagentRuns_eq (decode : List Byte → Option (List SubagentRaw))
    (sortSlice : (SubagentRun → SubagentRun → Bool) → List SubagentRun → List SubagentRun)
    (f : List Byte) (raw : List SubagentRaw) (hdec : decode f = some raw) :
    ReadSubagentRuns decode sortSlice (some f)
      = .ok (sortSlice subagentLess (raw.map subagentOfSpec)) := by
  unfold ReadSubagentRuns
  simp only [hdec, subagentsLoop_eq, List.nil_append]

/-- Two sorted enumerations of the same entries, with pairwise distinct keys, are
the same list. -/
theorem sorted_twice_eq {α β : Type} (key : β → Int) (build : α → β) (less : β → β → Bool)
    (hless : ∀ a b, less b a = false ↔ key b ≤ key a)
    (sortA sortB : (β → β → Bool) → List β → List β)
    (hA : SortSliceSpec sortA less) (hB : SortSliceSpec sortB less)
    (rawA rawB : List α) (hperm : rawA.Perm rawB)
    (hdistinct : rawA.Pairwise (fun x y => key (build x) ≠ key (build y))) :
    sortA less (rawA.map build) = sortB less (rawB.map build) := by
  obtain ⟨pA, sA⟩ := hA (rawA.map build)
  obtain ⟨pB, sB⟩ := hB (rawB.map build)
  apply sorted_perm_unique key
  · exact pA.trans ((hperm.map build).trans pB.symm)
  · exact sA.imp (fun h => (hless _ _).mp h)
  · exact sB.imp (fun h => (hless _ _).mp h)
  · have hd : (rawA.map build).Pairwise (fun a b => key a ≠ key b) :=
      (List.pairwise_map).mpr hdistinct
    exact (pA.symm.pairwise_iff (fun h => Ne.symm h)).mp hd

/-- With no zero timestamp among the records, the tool loop does not read the
clock. -/
theorem toolLoop_clock (decode : GoString → Option ToolRec) (nowA nowB : Nat → Time)
    (maxTasks : Int) (lines : List GoString)
    (hnz : ∀ rec ∈ lines.filterMap (toolRecOf decode), rec.Message.Timestamp ≠ 0) :
    ∀ tasks, toolLoop decode nowA maxTasks lines tasks
      = toolLoop decode nowB maxTasks lines tasks := by
  induction lines with
  | nil => intro tasks; rfl
  | cons l rest ih =>
    intro tasks
    by_cases h : (tasks.length : Int) < maxTasks
    · rw [toolLoop_cons decode nowA maxTasks l rest tasks h,
        toolLoop_cons decode nowB maxTasks l rest tasks h]
      cases hr : toolRecOf decode l with
      | none =>
        simp only
        apply ih
        intro rec hrec
        apply hnz rec
        rw [List.filterMap_cons, hr]
        exact hrec
      | some r =>
        have hrest : ∀ rec ∈ rest.filterMap (toolRecOf decode), rec.Message.Timestamp ≠ 0 := by
          intro rec hrec
          apply hnz rec
          rw [List.filterMap_cons, hr]
          exact List.mem_cons_of_mem _ hrec
        have hr0 : r.Message.Timestamp ≠ 0 := by
          apply hnz r
          rw [List.filterMap_cons, hr]
          exact List.mem_cons_self _ _
        have he : toolEventSpec (nowA tasks.length) r = toolEventSpec (nowB tasks.length) r := by
          simp [toolEventSpec, hr0]
        simp only [he]
        exact ih hrest _
    · rw [toolLoop_full decode nowA maxTasks _ tasks h, toolLoop_full decode nowB maxTasks _ tasks h]

/-- C17 (amended): decoding the same well-formed file twice yields identical entity
lists when no order is left open: for a session registry (respectively a subagent
registry) whose entries carry pairwise distinct `updatedAt` (respectively
`createdAt`) values, the list returned by `ReadSessionsJSON` (respectively
`ReadSubagentRuns`) is the same on every call, in whichever order the entries of
the JSON object are enumerated and whichever sorted order `sort.Slice` picks; and
for a tool-result log whose tool-result records among the lines read carry
non-zero timestamps, two calls of `ReadToolTasks`, at different times, return
identical event lists. -/
theorem C17_decoding_twice
    (decodeA decodeB : List Byte → Option (List (GoString × SessionState)))
    (sortA sortB : (Session → Session → Bool) → List Session → List Session)
    (fSessions : List Byte) (rawA rawB : List (GoString × SessionState))
    (decodeRunsA decodeRunsB : List Byte → Option (List SubagentRaw))
    (sortRunsA sortRunsB : (SubagentRun → SubagentRun → Bool) → List SubagentRun →
      List SubagentRun)
    (fRuns : List Byte) (runsA runsB : List SubagentRaw)
    (decodeTool : GoString → Option ToolRec) (nowA nowB : Nat → Time)
    (fTool : List Byte) (maxLines maxTasks : Int) (lines : List GoString)
    (hsortA : SortSliceSpec sortA sessionLess) (hsortB : SortSliceSpec sortB sessionLess)
    (hdecA : decodeA fSessions = some rawA) (hdecB : decodeB fSessions = some rawB)
    (hperm : rawA.Perm rawB)
    (hdistinct : rawA.Pairwise (fun x y => x.2.UpdatedAt ≠ y.2.UpdatedAt))
    (hsortRunsA : SortSliceSpec sortRunsA subagentLess)
    (hsortRunsB : SortSliceSpec sortRunsB subagentLess)
    (hdecRunsA : decodeRunsA fRuns = some runsA) (hdecRunsB : decodeRunsB fRuns = some runsB)
    (hpermRuns : runsA.Perm runsB)
    (hdistinctRuns : runsA.Pairwise (fun x y => x.CreatedAt ≠ y.CreatedAt))
    (hlines : tailLines fTool maxLines = .ok lines)
    (hnz : ∀ rec ∈ lines.filterMap (toolRecOf decodeTool), rec.Message.Timestamp ≠ 0) :
    ReadSessionsJSON decodeA sortA (some fSessions)
      = ReadSessionsJSON decodeB sortB (some fSessions) ∧
    ReadSubagentRuns decodeRunsA sortRunsA (some fRuns)
      = ReadSubagentRuns decodeRunsB sortRunsB (some fRuns) ∧
    ReadToolTasks decodeTool nowA (some fTool) maxLines maxTasks
      = ReadToolTasks decodeTool nowB (some fTool) maxLines maxTasks := by
  refine ⟨?_, ?_, ?_⟩
  · rw [ReadSessionsJSON_eq decodeA sortA fSessions rawA hdecA,
      ReadSessionsJSON_eq decodeB sortB fSessions rawB hdecB]
    congr 1
    apply sorted_twice_eq (fun s : Session => s.UpdatedAt.unixNano) sessionOfSpec sessionLess
      (fun a b => sessionLess_eq_false) sortA sortB hsortA hsortB rawA rawB hperm
    refine hdistinct.imp ?_
    intro x y hxy
    simp only [sessionOfSpec, UnixMilli]
    omega
  · rw [ReadSubagentRuns_eq decodeRunsA sortRunsA fRuns runsA hdecRunsA,
      ReadSubagentRuns_eq decodeRunsB sortRunsB fRuns runsB hdecRunsB]
    congr 1
    apply sorted_twice_eq (fun s : SubagentRun => s.CreatedAt.unixNano) subagentOfSpec
      subagentLess (fun a b => subagentLess_eq_false) sortRunsA sortRunsB hsortRunsA hsortRunsB
      runsA runsB hpermRuns
    refine hdistinctRuns.imp ?_
    intro x y hxy
    simp only [subagentOfSpec, UnixMilli]
    omega
  · unfold ReadToolTasks
    simp only [hlines]
    rw [toolLoop_clock decodeTool nowA nowB maxTasks lines.reverse]
    intro rec hrec
    apply hnz rec
    rw [List.filterMap_reverse, List.mem_reverse] at hrec
    exact hrec

set_option maxRecDepth 8192 in
theorem C17_decoding_twice_witness :
    ReadSessionsJSON (sampleSessionsDecode true) insertionSortSlice (some sampleSessionsFile)
      = ReadSessionsJSON (sampleSessionsDecode false) insertionSortSlice
          (some sampleSessionsFile) ∧
    ReadSubagentRuns (sampleRunsDecode true) insertionSortSlice (some sampleRunsFile)
      = ReadSubagentRuns (sampleRunsDecode false) insertionSortSlice (some sampleRunsFile) ∧
    ReadToolTasks sampleToolDecode sampleClock (some (joinLines [lineToolOk, lineToolBoom])) 400 25
      = ReadToolTasks sampleToolDecode sampleClockLater
          (some (joinLines [lineToolOk, lineToolBoom])) 400 25 :=
  C17_decoding_twice (sampleSessionsDecode true) (sampleSessionsDecode false)
    insertionSortSlice insertionSortSlice sampleSessionsFile
    [sampleEntryMain, sampleEntryCron] [sampleEntryCron, sampleEntryMain]
    (sampleRunsDecode true) (sampleRunsDecode false) insertionSortSlice insertionSortSlice
    sampleRunsFile [sampleRunRaw1, sampleRunRaw2] [sampleRunRaw2, sampleRunRaw1]
    sampleToolDecode sampleClock sampleClockLater (joinLines [lineToolOk, lineToolBoom]) 400 25
    (lastN (400 : Int).toNat (fileLinesSpec (joinLines [lineToolOk, lineToolBoom])))
    insertionSortSlice_spec_session insertionSortSlice_spec_session (by decide) (by decide)
    (List.Perm.swap _ _ _) (by decide)
    insertionSortSlice_spec_subagent insertionSortSlice_spec_subagent (by decide) (by decide)
    (List.Perm.swap _ _ _) (by decide)
    (tailLines_small _ _ (by decide) (by decide)) (by decide)

set_option maxRecDepth 8192 in
/-- C17 as stated fails.  For the registry of two sessions updated at the same
millisecond, the two orders in which the map can be enumerated give two different
lists (the sort keeps the order of the two equal elements).  For the session log
of one tool result with timestamp 0, two calls at different times give events with
different times. -/
theorem C17_counterexample :
    sampleTiedDecode true sampleTiedFile ≠ none ∧
    (∀ a b, sampleTiedDecode true sampleTiedFile = some a →
      sampleTiedDecode false sampleTiedFile = some b → a.Perm b) ∧
    ReadSessionsJSON (sampleTiedDecode true) insertionSortSlice (some sampleTiedFile)
      ≠ ReadSessionsJSON (sampleTiedDecode false) insertionSortSlice (some sampleTiedFile) ∧
    ReadToolTasks sampleToolDecode sampleClock (some (joinLines [lineToolNoTime])) 400 25
      = .ok [⟨sampleClock 0, LevelInfo, SourceTool, lit "read", []⟩] ∧
    ReadToolTasks sampleToolDecode sampleClockLater (some (joinLines [lineToolNoTime])) 400 25
      = .ok [⟨sampleClockLater 0, LevelInfo, SourceTool, lit "read", []⟩] ∧
    sampleClock 0 ≠ sampleClockLater 0 := by
  refine ⟨by decide, ?_, by decide, ?_, ?_, by decide⟩
  · intro a b ha hb
    have ea : sampleTiedDecode true sampleTiedFile
        = some [(lit "agent:main:a", ⟨[], [], [], 1700000000000, 0, 0, 0⟩),
          (lit "agent:main:b", ⟨[], [], [], 1700000000000, 0, 0, 0⟩)] := by decide
    have eb : sampleTiedDecode false sampleTiedFile
        = some [(lit "agent:main:b", ⟨[], [], [], 1700000000000, 0, 0, 0⟩),
          (lit "agent:main:a", ⟨[], [], [], 1700000000000, 0, 0, 0⟩)] := by decide
    rw [ea] at ha
    rw [eb] at hb
    cases ha
    cases hb
    exact List.Perm.swap _ _ _
  · rw [ReadToolTasks_small _ _ _ _ _ (by decide) (by decide)]
    decide
  · rw [ReadToolTasks_small _ _ _ _ _ (by decide) (by decide)]
    decide

/-! ## C18: the subagent events -/

/-- C18 (amended): for every subagent run the refresh builds exactly one event, with
time the creation time of the run, level info and source subagent, whose detail
is `firstN task 90`; the events of the runs enter the merge after the cron and
tool events.  For every task text, `firstN task 90` has at most 92 bytes; it is
the task text with newlines replaced by spaces and surrounding white space
trimmed when that text has at most 90 bytes, and otherwise the first 89 bytes of
that text followed by the ellipsis `"…"` (3 bytes). -/
theorem C18_subagent_event (sa : SubagentRun) (s : GoString)
    (sortSlice : (Task → Task → Bool) → List Task → List Task)
    (cronTasks toolTasks : List Task) (subagents : List SubagentRun) :
    (subagentTask sa).At = sa.CreatedAt ∧ (subagentTask sa).Level = LevelInfo ∧
    (subagentTask sa).Source = SourceSubagent ∧ (subagentTask sa).Detail = firstN sa.Task 90 ∧
    refreshTasks sortSlice cronTasks toolTasks subagents
      = (sortSlice taskLess (cronTasks ++ toolTasks ++ subagents.map subagentTask)).take 40 ∧
    (firstN s 90).length ≤ 92 ∧
    ((cleanTextSpec s).length ≤ 90 → firstN s 90 = cleanTextSpec s) ∧
    (90 < (cleanTextSpec s).length → firstN s 90 = (cleanTextSpec s).take 89 ++ lit "…") := by
  have hell : (lit "…").length = 3 := by decide
  have h1 : (cleanTextSpec s).length ≤ 90 → firstN s 90 = cleanTextSpec s := by
    intro h
    unfold firstN cleanTextSpec at *
    simp only
    rw [if_pos (by omega)]
  have h2 : 90 < (cleanTextSpec s).length →
      firstN s 90 = (cleanTextSpec s).take 89 ++ lit "…" := by
    intro h
    unfold firstN cleanTextSpec at *
    simp only
    rw [if_neg (by omega)]
    rfl
  refine ⟨rfl, rfl, rfl, rfl, refreshTasks_eq _ _ _ _, ?_, h1, h2⟩
  by_cases h : (cleanTextSpec s).length ≤ 90
  · rw [h1 h]
    omega
  · rw [h2 (by omega), List.length_append, List.length_take, hell]
    omega

set_option maxRecDepth 8192 in
/-- C18 as stated fails, whether a character is a byte or a code point.  For a task
text of 91 letters `a` the result has 92 bytes.  For the task text of 46 letters
`é` (46 code points, 92 bytes), which needs no cleaning, the result is not the
text: it is its first 89 bytes, the last of them half a letter, and the
ellipsis. -/
theorem C18_counterexample :
    (firstN (List.replicate 91 97) 90).length = 92 ∧
    sampleAccentedTask.length = 46 ∧
    cleanTextSpec (lit sampleAccentedTask) = lit sampleAccentedTask ∧
    firstN (lit sampleAccentedTask) 90 = (lit sampleAccentedTask).take 89 ++ lit "…" ∧
    firstN (lit sampleAccentedTask) 90 ≠ lit sampleAccentedTask := by
  decide

/-! ## C19: the refresh interval -/

theorem wrapInt64_of_range {x : Int} (h1 : -2 ^ 63 ≤ x) (h2 : x < 2 ^ 63) : wrapInt64 x = x := by
  unfold wrapInt64
  omega

theorem Update_refresh_plus (range : List (GoString × Nat) → List (GoString × Nat))
    (m : Model) :
    (Update range m (Msg.key (lit "+"))).1.refresh =
      if m.refresh > 500 * Millisecond then wrapInt64 (m.refresh - 500 * Millisecond)
      else m.refresh := by
  have h1 : ¬ (lit "+" = lit "q" ∨ lit "+" = lit "ctrl+c") := by decide
  have h2 : ¬ lit "+" = lit "r" := by decide
  simp only [Update, h1, h2, if_false, if_true]
  split <;> rfl

theorem Update_refresh_minus (range : List (GoString × Nat) → List (GoString × Nat))
    (m : Model) :
    (Update range m (Msg.key (lit "-"))).1.refresh = wrapInt64 (m.refresh + 500 * Millisecond) := by
  have h1 : ¬ (lit "-" = lit "q" ∨ lit "-" = lit "ctrl+c") := by decide
  have h2 : ¬ lit "-" = lit "r" := by decide
  have h3 : ¬ lit "-" = lit "+" := by decide
  simp only [Update, h1, h2, h3, if_false, if_true]

/-- Every message other than the keys `"+"` and `"-"` leaves the refresh interval
as it is. -/
theorem Update_refresh_other (range : List (GoString × Nat) → List (GoString × Nat))
    (m : Model) (msg : Msg) (hp : msg ≠ Msg.key (lit "+")) (hm : msg ≠ Msg.key (lit "-")) :
    (Update range m msg).1.refresh = m.refresh := by
  cases msg with
  | windowSize w h => rfl
  | tick t => rfl
  | refresh r =>
    simp only [Update]
    split
    · rfl
    · split <;> split <;> rfl
  | other => rfl
  | key s =>
    have h3 : ¬ s = lit "+" := fun e => hp (by rw [e])
    have h4 : ¬ s = lit "-" := fun e => hm (by rw [e])
    simp only [Update, h3, h4, if_false, apply_ite Prod.fst, apply_ite Model.refresh, ite_self]

/-- C19 (amended): in every model state reachable from `New cfg`, for any configured
interval (an `int64` value), by any sequence of `Update` messages in which `"-"` is
pressed only while the interval plus 500 ms is an `int64` value, the refresh
interval is strictly positive (and an `int64` value): `New` replaces a non-positive
configured interval by 2 seconds, `"+"` subtracts 500 ms only when the interval
exceeds 500 ms, `"-"` adds 500 ms, and no other message changes the interval. -/
theorem C19_interval_positive (range : List (GoString × Nat) → List (GoString × Nat))
    (cfg : Config) (hcfg : cfg.Refresh < 2 ^ 63) (m : Model)
    (hm : ReachableInRange range cfg m) :
    (0 < m.refresh ∧ m.refresh < 2 ^ 63) ∧
    (New cfg).refresh = (if cfg.Refresh ≤ 0 then 2 * Second else cfg.Refresh) ∧
    (Update range m (Msg.key (lit "+"))).1.refresh
      = (if m.refresh > 500 * Millisecond then m.refresh - 500 * Millisecond else m.refresh) ∧
    (m.refresh + 500 * Millisecond < 2 ^ 63 →
      (Update range m (Msg.key (lit "-"))).1.refresh = m.refresh + 500 * Millisecond) ∧
    (∀ msg, msg ≠ Msg.key (lit "+") → msg ≠ Msg.key (lit "-") →
      (Update range m msg).1.refresh = m.refresh) := by
  have hms : 500 * Millisecond = 500000000 := rfl
  have hsec : 2 * Second = 2000000000 := rfl
  have hinv : 0 < m.refresh ∧ m.refresh < 2 ^ 63 := by
    induction hm with
    | init =>
      simp only [New, hsec]
      split <;> omega
    | step m0 msg _ hstep ih =>
      by_cases hp : msg = Msg.key (lit "+")
      · subst hp
        rw [Update_refresh_plus, hms]
        split
        · rw [wrapInt64_of_range (by omega) (by omega)]
          omega
        · exact ih
      · by_cases hmi : msg = Msg.key (lit "-")
        · have hlt := hstep hmi
          subst hmi
          rw [hms] at hlt
          rw [Update_refresh_minus, hms, wrapInt64_of_range (by omega) (by omega)]
          omega
        · rw [Update_refresh_other range m0 msg hp hmi]
          exact ih
  refine ⟨hinv, rfl, ?_, ?_, fun msg hp hmi => Update_refresh_other range m msg hp hmi⟩
  · rw [Update_refresh_plus, hms]
    split
    · rw [wrapInt64_of_range (by omega) (by omega)]
    · rfl
  · intro hlt
    rw [hms] at hlt
    rw [Update_refresh_minus, hms, wrapInt64_of_range (by omega) (by omega)]

theorem C19_interval_positive_witness :
    (0 < (Update id (New sampleConfig) (Msg.key (lit "-"))).1.refresh ∧
      (Update id (New sampleConfig) (Msg.key (lit "-"))).1.refresh < 2 ^ 63) ∧
    (New sampleConfig).refresh
      = (if sampleConfig.Refresh ≤ 0 then 2 * Second else sampleConfig.Refresh) ∧
    (Update id (Update id (New sampleConfig) (Msg.key (lit "-"))).1
        (Msg.key (lit "+"))).1.refresh
      = (if (Update id (New sampleConfig) (Msg.key (lit "-"))).1.refresh > 500 * Millisecond then
          (Update id (New sampleConfig) (Msg.key (lit "-"))).1.refresh - 500 * Millisecond
        else (Update id (New sampleConfig) (Msg.key (lit "-"))).1.refresh) ∧
    ((Update id (New sampleConfig) (Msg.key (lit "-"))).1.refresh + 500 * Millisecond < 2 ^ 63 →
      (Update id (Update id (New sampleConfig) (Msg.key (lit "-"))).1
          (Msg.key (lit "-"))).1.refresh
        = (Update id (New sampleConfig) (Msg.key (lit "-"))).1.refresh + 500 * Millisecond) ∧
    (∀ msg, msg ≠ Msg.key (lit "+") → msg ≠ Msg.key (lit "-") →
      (Update id (Update id (New sampleConfig) (Msg.key (lit "-"))).1 msg).1.refresh
        = (Update id (New sampleConfig) (Msg.key (lit "-"))).1.refresh) :=
  C19_interval_positive id sampleConfig (by decide)
    (Update id (New sampleConfig) (Msg.key (lit "-"))).1
    (ReachableInRange.step _ _ ReachableInRange.init (fun _ => by decide))

/-- C19 as stated fails: with the largest interval a `time.Duration` holds as the
configured interval, one press of `"-"` makes the `int64` addition wrap around,
and the state reached has a negative refresh interval. -/
theorem C19_counterexample :
    0 < sampleConfigMax.Refresh ∧ sampleConfigMax.Refresh < 2 ^ 63 ∧
    Reachable id sampleConfigMax (Update id (New sampleConfigMax) (Msg.key (lit "-"))).1 ∧
    (Update id (New sampleConfigMax) (Msg.key (lit "-"))).1.refresh = -9223372036354775809 ∧
    ¬ 0 < (Update id (New sampleConfigMax) (Msg.key (lit "-"))).1.refresh := by
  have e : (Update id (New sampleConfigMax) (Msg.key (lit "-"))).1.refresh
      = -9223372036354775809 := by
    rw [Update_refresh_minus]
    decide
  refine ⟨by decide, by decide, Reachable.step _ _ Reachable.init, e, ?_⟩
  rw [e]
  decide

end Clawtop
